import Mathlib

/-!
# JavaScriptCore 146.1: script-object adapter, interpreter core and Java bridge

A shallow embedding of

* `bindings/runtime_object.cpp` (`RuntimeObjectImp::get`, `put`, `canPut`,
  `hasProperty`),
* `kjs/internal.cpp` (`lockInterpreter`, `unlockInterpreter`, `Parser::parse`,
  `ContextImp`, `InterpreterImp::evaluate`, `checkSyntax`, `saveBuiltins`,
  `restoreBuiltins`, `setDebugger`, `mark`, the registration of interpreters
  and the shared singletons, `LabelStack`, the `toBoolean` members and
  `InternalFunctionImp::hasInstance`),
* `bindings/runtime_root.h` (`RootObject`), and
* `bindings/jni/jni_utility.cpp` and `bindings/jni/jni_runtime.cpp` (the tag
  tables, `convertValueToJValue`, `JavaMethod::signature`,
  `JavaArray::setValueAt`),

followed by theorems about them.  Stateful C++ is rendered as explicit state
passing.  A null-pointer dereference is rendered as `none`.  Calls the source
makes on collaborators (`begin`, `end`, `lockInterpreter`, the parser, the
debugger, `execute`) are recorded in a call log carried by the state, so that
"is called exactly once" and "is not executed" are statements about that log.
Linked structures (the cells of a `LabelStack`, the ring of interpreters) are
rendered as maps from addresses to cells, and a loop over them takes a bound
on the number of its iterations.
-/

namespace KJS

/-! ## Values -/

abbrev UString := String

abbrev Identifier := String

/-- Error kinds accepted by `Error::create` (error_object.h). -/
inductive ErrorType where
  | GeneralError
  | EvalError
  | RangeError
  | ReferenceError
  | SyntaxError
  | TypeError
  | URIError
  deriving DecidableEq, Repr

/-- Modelled from the spec: the object built by `Error::create(exec, errtype,
message, lineno, sourceId, sourceURL)` (error_object.cpp is absent).  The
record keeps the arguments of the call; `props` holds the numeric properties
later stored on the object with `put`. -/
structure ErrorInstance where
  errtype : ErrorType
  message : UString
  lineno : Int
  sourceId : Int
  sourceURL : Option UString
  props : List (String × Int)
  deriving DecidableEq, Repr

namespace Bindings

/-- A native field, as handed out by `Class::fieldNamed`. -/
structure Field where
  name : String
  deriving DecidableEq, Repr

/-- A native method, as handed out by `Class::methodsNamed`. -/
structure Method where
  name : String
  numParameters : Nat
  deriving DecidableEq, Repr

abbrev MethodList := List Method

end Bindings

/-- Script values.  `absent` is a `Value` whose `imp` pointer is null
(`Value::isNull()`); `runtimeMethod` is `Object(new RuntimeMethodImp(exec,
name, methodList))`; `error` is an error object; `object` is any other object,
named by its identity. -/
inductive Value where
  | absent
  | undefined
  | null
  | boolean (b : Bool)
  | string (s : UString)
  | number (n : Int)
  | error (e : ErrorInstance)
  | runtimeMethod (name : Identifier) (methods : Bindings.MethodList)
  | object (id : Nat)
  deriving DecidableEq, Repr

/-- The part of `ExecState` the embedded code touches: the pending exception. -/
structure ExecState where
  exception : Option Value
  deriving DecidableEq, Repr

def ExecState.clearException (_exec : ExecState) : ExecState :=
  { exception := none }

def ExecState.setException (_exec : ExecState) (e : Value) : ExecState :=
  { exception := some e }

def ExecState.hadException (exec : ExecState) : Bool :=
  exec.exception.isSome

/-- Modelled from the spec: `Error::create` (error_object.cpp is absent), with
the declaration defaults `lineno = -1`, `sourceId = -1`, `sourceURL = 0`. -/
def Error.create (errtype : ErrorType) (message : UString) (lineno : Int) (sourceId : Int)
    (sourceURL : Option UString) : ErrorInstance :=
  { errtype := errtype, message := message, lineno := lineno, sourceId := sourceId,
    sourceURL := sourceURL, props := [] }

/-- The effect of `err.put(exec, name, Number(n))` on an error object. -/
def ErrorInstance.put (e : ErrorInstance) (name : String) (n : Int) : ErrorInstance :=
  { e with props := (name, n) :: e.props.filter (fun p => p.1 ≠ name) }

/-- The value of a numeric property stored with `ErrorInstance.put`. -/
def ErrorInstance.get (e : ErrorInstance) (name : String) : Option Int :=
  (e.props.find? (fun p => p.1 = name)).map (fun p => p.2)

/-! ## The foreign bridge (bindings/runtime_object.cpp) -/

namespace Bindings

/-- The capability interface `Class`: both lookups are pure virtual in the
source, so they are fields here.  `fieldNamed` answers `none` for a null
`Field *`. -/
structure Class where
  fieldNamed : String → Option Field
  methodsNamed : String → MethodList

/-- A value on the native side of the boundary. -/
inductive NativeValue where
  | void
  | bool (b : Bool)
  | int (i : Int)
  | str (s : String)
  | handle (h : Nat)
  deriving DecidableEq, Repr

/-- The calls the adapter makes on an `Instance`, in the order made. -/
inductive NativeCall where
  | begin
  | end_
  | getValueOfField (f : Field)
  | setValueOfField (f : Field) (v : Value)
  deriving DecidableEq, Repr

/-- Modelled from the spec: the capability interface `Instance` (runtime.h and
runtime.cpp are absent).  `getClass` is `none` for a null `Class *`;
`beginCount` is the begin/end nesting depth (`_beginCount` of
objc_instance.h); `fields` is the native field store; `toValue` and `toNative`
are the two marshalling directions of a field (`Field::valueFromInstance`,
`Field::setValueToInstance`), the second of which may raise an exception;
`calls` is the log of calls received. -/
structure Instance where
  getClass : Option Class
  beginCount : Int
  fields : Field → NativeValue
  toValue : Field → NativeValue → Value
  toNative : Field → Value → NativeValue × Option Value
  calls : List NativeCall

/-- Modelled from the spec: `Instance::begin`, which opens one level of the
runtime-specific context. -/
def Instance.begin (inst : Instance) : Instance :=
  { inst with beginCount := inst.beginCount + 1, calls := inst.calls ++ [NativeCall.begin] }

/-- Modelled from the spec: `Instance::end`, which closes one level of the
runtime-specific context. -/
def Instance.end_ (inst : Instance) : Instance :=
  { inst with beginCount := inst.beginCount - 1, calls := inst.calls ++ [NativeCall.end_] }

/-- Modelled from the spec: `Instance::getValueOfField`, the marshalled value
of a field. -/
def Instance.getValueOfField (inst : Instance) (_exec : ExecState) (aField : Field) :
    Value × Instance :=
  (inst.toValue aField (inst.fields aField),
    { inst with calls := inst.calls ++ [NativeCall.getValueOfField aField] })

/-- Modelled from the spec: `Instance::setValueOfField`, which stores the
marshalled value in one field and leaves the others alone. -/
def Instance.setValueOfField (inst : Instance) (exec : ExecState) (aField : Field)
    (aValue : Value) : ExecState × Instance :=
  let r := inst.toNative aField aValue
  (match r.2 with
    | some e => exec.setException e
    | none => exec,
    { inst with
      fields := Function.update inst.fields aField r.1,
      calls := inst.calls ++ [NativeCall.setValueOfField aField aValue] })

/-- `RuntimeObjectImp::get` (runtime_object.cpp:62-87).  The field branch
returns straight out of `getValueOfField`.  Here and below `propertyName`
stands for the C string `propertyName.ascii()` the lookups receive. -/
def RuntimeObjectImp.get (exec : ExecState) (inst : Instance) (propertyName : Identifier) :
    Value × Instance :=
  let inst := inst.begin
  match inst.getClass with
  | some aClass =>
    match aClass.fieldNamed propertyName with
    | some aField => inst.getValueOfField exec aField
    | none =>
      let methodList := aClass.methodsNamed propertyName
      if methodList.length > 0 then
        (Value.runtimeMethod propertyName methodList, inst.end_)
      else
        (Value.undefined, inst.end_)
  | none => (Value.undefined, inst.end_)

/-- `RuntimeObjectImp::put` (runtime_object.cpp:89-101).  `getClass()` is
dereferenced unchecked: a null class is `none`.  `attr` is not used. -/
def RuntimeObjectImp.put (exec : ExecState) (inst : Instance) (propertyName : Identifier)
    (value : Value) (_attr : Int) : Option (ExecState × Instance) :=
  let inst := inst.begin
  match inst.getClass with
  | none => none
  | some aClass =>
    match aClass.fieldNamed propertyName with
    | some aField =>
      let r := inst.setValueOfField exec aField value
      some (r.1, r.2.end_)
    | none => some (exec, inst.end_)

/-- `RuntimeObjectImp::canPut` (runtime_object.cpp:103-112). -/
def RuntimeObjectImp.canPut (_exec : ExecState) (inst : Instance) (propertyName : Identifier) :
    Option (Bool × Instance) :=
  let inst := inst.begin
  match inst.getClass with
  | none => none
  | some aClass =>
    let aField := aClass.fieldNamed propertyName
    let inst := inst.end_
    some (aField.isSome, inst)

/-- `RuntimeObjectImp::hasProperty` (runtime_object.cpp:114-133). -/
def RuntimeObjectImp.hasProperty (_exec : ExecState) (inst : Instance)
    (propertyName : Identifier) : Option (Bool × Instance) :=
  let inst := inst.begin
  match inst.getClass with
  | none => none
  | some aClass =>
    match aClass.fieldNamed propertyName with
    | some _ => some (true, inst.end_)
    | none =>
      let methodList := aClass.methodsNamed propertyName
      let inst := inst.end_
      if methodList.length > 0 then some (true, inst) else some (false, inst)

/-- The class of the test object of testbindings.cpp: six properties and nine
methods. -/
def myClass : Class where
  fieldNamed := fun n =>
    if n ∈ ["doubleValue", "intValue", "stringValue", "booleanValue", "nullValue",
        "undefinedValue"] then some { name := n } else none
  methodsNamed := fun n =>
    if n ∈ ["logMessage", "setDoubleValue", "setIntValue", "setStringValue",
        "setBooleanValue"] then [{ name := n, numParameters := 1 }]
    else if n ∈ ["getDoubleValue", "getIntValue", "getStringValue", "getBooleanValue"] then
      [{ name := n, numParameters := 0 }]
    else []

/-- An instance of `myClass` whose fields hold integers. -/
def myInstance : Instance where
  getClass := some myClass
  beginCount := 0
  fields := fun f => if f.name = "intValue" then NativeValue.int 1234 else NativeValue.void
  toValue := fun _ v =>
    match v with
    | NativeValue.int i => Value.number i
    | NativeValue.bool b => Value.boolean b
    | NativeValue.str s => Value.string s
    | _ => Value.undefined
  toNative := fun _ v =>
    match v with
    | Value.number i => (NativeValue.int i, none)
    | Value.boolean b => (NativeValue.bool b, none)
    | Value.string s => (NativeValue.str s, none)
    | _ => (NativeValue.void, none)
  calls := []

/-- A class in which `size` names both a field and a method. -/
def sizeClass : Class where
  fieldNamed := fun n => if n = "size" then some { name := "size" } else none
  methodsNamed := fun n => if n = "size" then [{ name := "size", numParameters := 0 }] else []

/-- An instance of `sizeClass` whose field `size` holds 3. -/
def sizeInstance : Instance :=
  { myInstance with getClass := some sizeClass, fields := fun _ => NativeValue.int 3 }

/-- An instance whose `getClass()` is null. -/
def classlessInstance : Instance :=
  { myInstance with getClass := none }

end Bindings

/-! ## The interpreter core (kjs/internal.cpp) -/

/-- Completion kinds (completion.h). -/
inductive ComplType where
  | Normal
  | Break
  | Continue
  | ReturnValue
  | Throw
  deriving DecidableEq, Repr

/-- A completion: a kind and a value.  `Completion(Break)` carries the null
value, `Value.absent`. -/
structure Completion where
  complType : ComplType
  value : Value
  deriving DecidableEq, Repr

/-- Code classifications (internal.h). -/
inductive CodeType where
  | GlobalCode
  | EvalCode
  | FunctionCode
  | AnonymousCode
  deriving DecidableEq, Repr

/-- The fields of a `ContextImp` that its constructor sets.  `scope` is the
scope chain, top first; `callingContext` is `none` for a null pointer. -/
inductive ContextImp where
  | mk (codeType : CodeType) (callingContext : Option ContextImp) (scope : List Value)
      (variableObj : Value) (activation : Value) (thisVal : Value)

def ContextImp.codeType : ContextImp → CodeType
  | .mk t _ _ _ _ _ => t

def ContextImp.callingContext : ContextImp → Option ContextImp
  | .mk _ c _ _ _ _ => c

def ContextImp.scopeChain : ContextImp → List Value
  | .mk _ _ s _ _ _ => s

def ContextImp.variableObject : ContextImp → Value
  | .mk _ _ _ v _ _ => v

def ContextImp.activationObject : ContextImp → Value
  | .mk _ _ _ _ a _ => a

def ContextImp.thisValue : ContextImp → Value
  | .mk _ _ _ _ _ t => t

/-- The body of the constructor `ContextImp::ContextImp` (internal.cpp:373-417)
up to the final `setContext`.  `funcScope` is `func->scope()` and
`newActivation` is the object allocated by `new ActivationImp(func, *args)`;
both matter for function and anonymous code only. -/
def ContextImp.create (glob : Value) (thisV : Value) (type : CodeType)
    (callingCon : Option ContextImp) (funcScope : List Value) (newActivation : Value) :
    ContextImp :=
  let activation :=
    if type = CodeType.FunctionCode ∨ type = CodeType.AnonymousCode then newActivation
    else Value.absent
  let variableObj :=
    if type = CodeType.FunctionCode ∨ type = CodeType.AnonymousCode then activation
    else glob
  match type with
  | CodeType.EvalCode =>
    match callingCon with
    | some c =>
      ContextImp.mk type callingCon c.scopeChain c.variableObject activation c.thisValue
    | none => ContextImp.mk type callingCon [glob] variableObj activation glob
  | CodeType.GlobalCode => ContextImp.mk type callingCon [glob] variableObj activation glob
  | CodeType.FunctionCode =>
    ContextImp.mk type callingCon (activation :: funcScope) activation activation thisV
  | CodeType.AnonymousCode =>
    ContextImp.mk type callingCon [activation, glob] activation activation thisV

/-- One call of `Interpreter::evaluate` made by a running program. -/
structure EvalCall where
  code : UString
  thisV : Value
  sourceURL : UString
  startingLineNumber : Int
  deriving DecidableEq, Repr

/-- Modelled from the spec: the parse tree and `ProgramNode::execute` (nodes.h
and nodes.cpp are absent).  The spec gives execution as producing a
Completion and allows a running script to re-enter `evaluate`; a tree is
therefore the finite behaviour of one execution: either it completes with
`c`, or it calls `evaluate` and continues according to the completion that
call returns. -/
inductive ProgramNode where
  | done (c : Completion)
  | evaluate (call : EvalCall) (k : Completion → ProgramNode)

/-- The debugger hook (debugger.h): the answer of `sourceParsed(exec, sid,
code, errLine)`. -/
structure Debugger where
  sourceParsed : Int → UString → Int → Bool

/-- Calls recorded by the interpreter model, in the order made.  `execute`
records the value of the recursion counter and the `this` value of the context
at the moment `progNode->execute` is called. -/
inductive Event where
  | lockInterpreter
  | unlockInterpreter
  | parse (sourceURL : UString) (startingLineNumber : Int) (code : UString)
  | sourceParsed (sid : Int) (code : UString) (errLine : Int)
  | toObject (v : Value)
  | execute (recursion : Int) (thisVal : Value)
  deriving DecidableEq, Repr

/-- The thirty built-in constructor and prototype handles of an interpreter
(the members `b_Object` ... `b_uriErrorPrototype`), which are also the members
of `SavedBuiltinsInternal`. -/
structure Builtins where
  b_Object : Value
  b_Function : Value
  b_Array : Value
  b_Boolean : Value
  b_String : Value
  b_Number : Value
  b_Date : Value
  b_RegExp : Value
  b_Error : Value
  b_ObjectPrototype : Value
  b_FunctionPrototype : Value
  b_ArrayPrototype : Value
  b_BooleanPrototype : Value
  b_StringPrototype : Value
  b_NumberPrototype : Value
  b_DatePrototype : Value
  b_RegExpPrototype : Value
  b_ErrorPrototype : Value
  b_evalError : Value
  b_rangeError : Value
  b_referenceError : Value
  b_syntaxError : Value
  b_typeError : Value
  b_uriError : Value
  b_evalErrorPrototype : Value
  b_rangeErrorPrototype : Value
  b_referenceErrorPrototype : Value
  b_syntaxErrorPrototype : Value
  b_typeErrorPrototype : Value
  b_uriErrorPrototype : Value
  deriving DecidableEq, Repr

/-- The state `InterpreterImp::evaluate` reads and writes: the statics
`interpreterLockCount` and `Parser::sid`, and the members `recursion`, `dbg`,
`globExec`, `global` and `_context` of one interpreter; `events` is the call
log.  `builtins` are the interpreter's built-in handles and
`globalProperties` the properties of the global object, by name. -/
structure World where
  interpreterLockCount : Int
  sid : Int
  recursion : Int
  dbg : Option Debugger
  globExec : ExecState
  global : Value
  context : Option ContextImp
  events : List Event
  builtins : Builtins
  globalProperties : Identifier → Option Value

def World.log (w : World) (e : Event) : World :=
  { w with events := w.events ++ [e] }

/-- `lockInterpreter` (internal.cpp:92-97). -/
def lockInterpreter (w : World) : World :=
  { w with interpreterLockCount := w.interpreterLockCount + 1,
           events := w.events ++ [Event.lockInterpreter] }

/-- `unlockInterpreter` (internal.cpp:99-103). -/
def unlockInterpreter (w : World) : World :=
  { w with interpreterLockCount := w.interpreterLockCount - 1,
           events := w.events ++ [Event.unlockInterpreter] }

/-- What `kjsyyparse()` leaves behind: its return code, the static
`Parser::progNode` and the lexer's current line. -/
structure YYResult where
  parseError : Int
  progNode : Option ProgramNode
  lineNo : Int

/-- The collaborators of internal.cpp whose code is elsewhere: the generated
parser `kjsyyparse` (run on the lexer input set by `setCode`), and `toObject`
of a value that is neither Undefined nor Null, which answers an object and
possibly raises an exception. -/
structure Env where
  kjsyyparse : UString → Int → UString → YYResult
  toObject : Value → Value × Option Value

/-- The outputs of `Parser::parse`: the returned tree and the three out
parameters. -/
structure ParseResult where
  progNode : Option ProgramNode
  sourceId : Int
  errLine : Int
  errMsg : UString

/-- `Parser::parse` (internal.cpp:438-477) with all out parameters supplied. -/
def Parser.parse (env : Env) (w : World) (sourceURL : UString) (startingLineNumber : Int)
    (code : UString) : ParseResult × World :=
  let w := { w with sid := w.sid + 1 }
  let sourceId := w.sid
  let r := env.kjsyyparse sourceURL startingLineNumber code
  let w := w.log (Event.parse sourceURL startingLineNumber code)
  let prog := r.progNode
  let w := { w with sid := -1 }
  if r.parseError ≠ 0 then
    ({ progNode := none, sourceId := sourceId, errLine := r.lineNo, errMsg := "Parse error" }, w)
  else
    ({ progNode := prog, sourceId := sourceId, errLine := -1, errMsg := "" }, w)

/-- `UndefinedImp::toObject`, `NullImp::toObject` (internal.cpp:131-136,
162-167) and, through `env`, `toObject` of the other values. -/
def Value.toObject (env : Env) (v : Value) (exec : ExecState) : Value × ExecState :=
  match v with
  | Value.undefined =>
    let err := Value.error (Error.create ErrorType.TypeError "Undefined value" (-1) (-1) none)
    (err, exec.setException err)
  | Value.null =>
    let err := Value.error (Error.create ErrorType.TypeError "Null value" (-1) (-1) none)
    (err, exec.setException err)
  | _ =>
    let r := env.toObject v
    (r.1, match r.2 with
      | some e => exec.setException e
      | none => exec)

/-- `ProgramNode::execute` for the modelled tree; `evaluate` is the interpreter
entry point the running program calls back into.  `none` is an evaluation that
did not return. -/
def ProgramNode.execute (evaluate : World → EvalCall → Option (Completion × World)) :
    ProgramNode → World → Option (Completion × World)
  | ProgramNode.done c, w => some (c, w)
  | ProgramNode.evaluate call k, w =>
    match evaluate w call with
    | none => none
    | some r => ProgramNode.execute evaluate (k r.1) r.2

/-- The resolution of the effective `this` in `InterpreterImp::evaluate`
(internal.cpp:829-838): the object, and the world after a possible
`toObject`. -/
def InterpreterImp.thisObject (env : Env) (w : World) (thisV : Value) : Value × World :=
  if thisV ≠ Value.absent then
    if thisV = Value.null ∨ thisV = Value.undefined then
      (w.global, w)
    else
      let r := Value.toObject env thisV w.globExec
      (r.1, { (w.log (Event.toObject thisV)) with globExec := r.2 })
  else
    (w.global, w)

/-- `InterpreterImp::evaluate` (internal.cpp:777-861), built with
APPLE_CHANGES.  The first argument bounds the depth of nested calls the model
follows; `none` means the bound was reached. -/
def InterpreterImp.evaluate (env : Env) :
    Nat → World → UString → Value → UString → Int → Option (Completion × World)
  | 0, _, _, _, _, _ => none
  | fuel + 1, w, code, thisV, sourceURL, startingLineNumber =>
    let w := lockInterpreter w
    if w.recursion ≥ 20 then
      let result := Completion.mk ComplType.Throw
        (Value.error (Error.create ErrorType.GeneralError "Recursion too deep" (-1) (-1) none))
      let w := unlockInterpreter w
      some (result, w)
    else
      let p := Parser.parse env w sourceURL startingLineNumber code
      let sid := p.1.sourceId
      let errLine := p.1.errLine
      let errMsg := p.1.errMsg
      let w := p.2
      let cont :=
        match w.dbg with
        | some dbg => dbg.sourceParsed sid code errLine
        | none => true
      let w :=
        match w.dbg with
        | some _ => w.log (Event.sourceParsed sid code errLine)
        | none => w
      if !cont then
        let w := unlockInterpreter w
        some (Completion.mk ComplType.Break Value.absent, w)
      else
        match p.1.progNode with
        | none =>
          let err := Error.create ErrorType.SyntaxError errMsg errLine (-1) (some sourceURL)
          let err := err.put "sid" sid
          let w := unlockInterpreter w
          some (Completion.mk ComplType.Throw (Value.error err), w)
        | some progNode =>
          let w := { w with globExec := w.globExec.clearException }
          let w := { w with recursion := w.recursion + 1 }
          let globalObj := w.global
          let t := InterpreterImp.thisObject env w thisV
          let thisObj := t.1
          let w := t.2
          if w.globExec.hadException then
            let res := Completion.mk ComplType.Throw (w.globExec.exception.getD Value.absent)
            let w := { w with recursion := w.recursion - 1 }
            let w := unlockInterpreter w
            some (res, w)
          else
            let ctx := ContextImp.create globalObj thisObj CodeType.GlobalCode none []
              Value.absent
            let w := { w with context := some ctx }
            let w := w.log (Event.execute w.recursion ctx.thisValue)
            match progNode.execute
                (fun w1 call => InterpreterImp.evaluate env fuel w1 call.code call.thisV
                  call.sourceURL call.startingLineNumber) w with
            | none => none
            | some r =>
              let res := r.1
              let w := r.2
              let w := { w with context := ctx.callingContext }
              let w := { w with recursion := w.recursion - 1 }
              let w := unlockInterpreter w
              some (res, w)

/-! ### Sample collaborators -/

/-- A parser for four sources: `"1"` is a program completing with the number
1; `"nested"` evaluates `"1"` and completes with what that call returned;
`"loop"` evaluates itself; anything else is a parse error on line 3. -/
def sampleEnv : Env where
  kjsyyparse := fun _ _ code =>
    if code = "1" then
      { parseError := 0,
        progNode := some (ProgramNode.done (Completion.mk ComplType.Normal (Value.number 1))),
        lineNo := 1 }
    else if code = "nested" then
      { parseError := 0,
        progNode := some (ProgramNode.evaluate
          { code := "1", thisV := Value.absent, sourceURL := "", startingLineNumber := 0 }
          (fun c => ProgramNode.done c)),
        lineNo := 1 }
    else if code = "loop" then
      { parseError := 0,
        progNode := some (ProgramNode.evaluate
          { code := "loop", thisV := Value.absent, sourceURL := "", startingLineNumber := 0 }
          (fun c => ProgramNode.done c)),
        lineNo := 1 }
    else
      { parseError := 1, progNode := none, lineNo := 3 }
  toObject := fun v =>
    match v with
    | Value.object 7 => (Value.object 7, some (Value.string "conversion failed"))
    | Value.object n => (Value.object n, none)
    | _ => (Value.object 100, none)

/-- Thirty distinct built-in objects, numbered from 101 in the order of the
members. -/
def sampleBuiltins : Builtins where
  b_Object := Value.object 101
  b_Function := Value.object 102
  b_Array := Value.object 103
  b_Boolean := Value.object 104
  b_String := Value.object 105
  b_Number := Value.object 106
  b_Date := Value.object 107
  b_RegExp := Value.object 108
  b_Error := Value.object 109
  b_ObjectPrototype := Value.object 110
  b_FunctionPrototype := Value.object 111
  b_ArrayPrototype := Value.object 112
  b_BooleanPrototype := Value.object 113
  b_StringPrototype := Value.object 114
  b_NumberPrototype := Value.object 115
  b_DatePrototype := Value.object 116
  b_RegExpPrototype := Value.object 117
  b_ErrorPrototype := Value.object 118
  b_evalError := Value.object 119
  b_rangeError := Value.object 120
  b_referenceError := Value.object 121
  b_syntaxError := Value.object 122
  b_typeError := Value.object 123
  b_uriError := Value.object 124
  b_evalErrorPrototype := Value.object 125
  b_rangeErrorPrototype := Value.object 126
  b_referenceErrorPrototype := Value.object 127
  b_syntaxErrorPrototype := Value.object 128
  b_typeErrorPrototype := Value.object 129
  b_uriErrorPrototype := Value.object 130

/-- The constructor properties `initGlobalObject` puts on the global object
(internal.cpp:650-666): each constructor name bound to the built-in of that
name. -/
def sampleGlobalProperties (b : Builtins) : Identifier → Option Value := fun name =>
  if name = "Object" then some b.b_Object
  else if name = "Function" then some b.b_Function
  else if name = "Array" then some b.b_Array
  else if name = "Boolean" then some b.b_Boolean
  else if name = "String" then some b.b_String
  else if name = "Number" then some b.b_Number
  else if name = "Date" then some b.b_Date
  else if name = "RegExp" then some b.b_RegExp
  else if name = "Error" then some b.b_Error
  else if name = "EvalError" then some b.b_evalError
  else if name = "RangeError" then some b.b_rangeError
  else if name = "ReferenceError" then some b.b_referenceError
  else if name = "SyntaxError" then some b.b_syntaxError
  else if name = "TypeError" then some b.b_typeError
  else if name = "URIError" then some b.b_uriError
  else none

/-- A freshly constructed interpreter with no debugger: every counter is 0,
the global object is object 0 and its constructor properties are the
built-ins. -/
def sampleWorld : World where
  interpreterLockCount := 0
  sid := 0
  recursion := 0
  dbg := none
  globExec := { exception := none }
  global := Value.object 0
  context := none
  events := []
  builtins := sampleBuiltins
  globalProperties := sampleGlobalProperties sampleBuiltins

/-- A debugger that vetoes every source. -/
def vetoDebugger : Debugger where
  sourceParsed := fun _ _ _ => false

/-! ### Stages of `evaluate` and relations on logs, used to state the theorems -/

/-- The world inside `InterpreterImp::evaluate` after `lockInterpreter`,
`Parser::parse` and the debugger notification (internal.cpp:780-811), when
the recursion check let the call through. -/
def InterpreterImp.parsed (env : Env) (w : World) (code : UString) (sourceURL : UString)
    (startingLineNumber : Int) : World :=
  let p := Parser.parse env (lockInterpreter w) sourceURL startingLineNumber code
  match p.2.dbg with
  | some _ => p.2.log (Event.sourceParsed p.1.sourceId code p.1.errLine)
  | none => p.2

/-- Whether the debugger block of `InterpreterImp::evaluate`
(internal.cpp:800-811) ends the call: a debugger is attached and its
`sourceParsed` answers false. -/
def InterpreterImp.vetoed (env : Env) (w : World) (code : UString) (sourceURL : UString)
    (startingLineNumber : Int) : Bool :=
  let p := Parser.parse env (lockInterpreter w) sourceURL startingLineNumber code
  !(match p.2.dbg with
    | some dbg => dbg.sourceParsed p.1.sourceId code p.1.errLine
    | none => true)

/-- The world inside `InterpreterImp::evaluate` after `clearException` and
`recursion++` (internal.cpp:823-825). -/
def InterpreterImp.counted (env : Env) (w : World) (code : UString)
    (sourceURL : UString) (startingLineNumber : Int) : World :=
  let w1 := InterpreterImp.parsed env w code sourceURL startingLineNumber
  let w2 := { w1 with globExec := w1.globExec.clearException }
  { w2 with recursion := w2.recursion + 1 }

/-- The world inside `InterpreterImp::evaluate` after the effective `this` has
been resolved (internal.cpp:829-838). -/
def InterpreterImp.entered (env : Env) (w : World) (code : UString) (thisV : Value)
    (sourceURL : UString) (startingLineNumber : Int) : World :=
  (InterpreterImp.thisObject env
    (InterpreterImp.counted env w code sourceURL startingLineNumber) thisV).2

/-- The world in which `InterpreterImp::evaluate` calls `progNode->execute`
(internal.cpp:848-850): the new context is current. -/
def InterpreterImp.running (env : Env) (w : World) (code : UString) (thisV : Value)
    (sourceURL : UString) (startingLineNumber : Int) : World :=
  let w0 := InterpreterImp.counted env w code sourceURL startingLineNumber
  let w1 := InterpreterImp.entered env w code thisV sourceURL startingLineNumber
  let ctx := ContextImp.create w0.global (InterpreterImp.thisObject env w0 thisV).1
    CodeType.GlobalCode none [] Value.absent
  ({ w1 with context := some ctx }).log (Event.execute w1.recursion ctx.thisValue)

/-- Events other than locking, unlocking and executing a program. -/
def Event.quiet : Event → Bool
  | Event.lockInterpreter => false
  | Event.unlockInterpreter => false
  | Event.execute _ _ => false
  | _ => true

/-- A log in which every `lockInterpreter` is matched by a later
`unlockInterpreter`, pairs being nested like brackets. -/
inductive Bracketed : List Event → Prop where
  | nil : Bracketed []
  | other (e : Event) (l : List Event) : e ≠ Event.lockInterpreter →
      e ≠ Event.unlockInterpreter → Bracketed l → Bracketed (e :: l)
  | call (inner rest : List Event) : Bracketed inner → Bracketed rest →
      Bracketed (Event.lockInterpreter :: (inner ++ Event.unlockInterpreter :: rest))

/-- What a returned run of nested evaluations leaves as it found it; `new` is
what the run appended to the log, and every program it executed ran with the
recursion counter above the starting value and at most 20. -/
structure Kept (w w1 : World) (new : List Event) : Prop where
  recursion : w1.recursion = w.recursion
  lockCount : w1.interpreterLockCount = w.interpreterLockCount
  dbg : w1.dbg = w.dbg
  global : w1.global = w.global
  events : w1.events = w.events ++ new
  bracketed : Bracketed new
  depth : ∀ d t, Event.execute d t ∈ new → w.recursion < d ∧ d ≤ 20

/-- A world reached inside one call of `evaluate` before any program is
executed: the lock is held once more than in `w`, the counter has moved by
`k`, and the log has grown by `lockInterpreter` and quiet events. -/
structure Opened (w w1 : World) (k : Int) (pre : List Event) : Prop where
  recursion : w1.recursion = w.recursion + k
  lockCount : w1.interpreterLockCount = w.interpreterLockCount + 1
  dbg : w1.dbg = w.dbg
  global : w1.global = w.global
  events : w1.events = w.events ++ Event.lockInterpreter :: pre
  quiet : ∀ e ∈ pre, e.quiet = true

/-- The relation between the world `w` in which `evaluate` is entered and the
world `w1` in which it returns; `mid` is what the call logged between its own
`lockInterpreter` and its own `unlockInterpreter`. -/
structure Framed (w w1 : World) (sourceURL : UString) (line : Int) (code : UString)
    (mid : List Event) : Prop where
  recursion : w1.recursion = w.recursion
  lockCount : w1.interpreterLockCount = w.interpreterLockCount
  dbg : w1.dbg = w.dbg
  global : w1.global = w.global
  events : w1.events = w.events ++ Event.lockInterpreter :: (mid ++ [Event.unlockInterpreter])
  bracketed : Bracketed mid
  depth : ∀ d t, Event.execute d t ∈ mid → w.recursion < d ∧ d ≤ 20
  entry : (20 ≤ w.recursion ∧ mid = []) ∨
    (w.recursion < 20 ∧ ∃ rest, mid = Event.parse sourceURL line code :: rest)
  idle : (∀ d t, Event.execute d t ∉ mid) → ∀ e ∈ mid, e.quiet = true

/-! ## Label stacks (kjs/internal.cpp:295-368) -/

/-- `LabelStack::StackElem`: a label and the pointer to the element below it
(`none` for a null pointer). -/
structure StackElem where
  id : Identifier
  prev : Option Nat
  deriving DecidableEq, Repr

/-- The memory label stacks live in: the allocated `StackElem` cells by
address, the address the next `new StackElem` returns, and the `tos` field of
each `LabelStack` object, by the object's address. -/
structure LabelMemory where
  elems : Nat → Option StackElem
  next : Nat
  tos : Nat → Option Nat

/-- The loop of `LabelStack::contains` (internal.cpp:338-340) from `curr`.
The first argument bounds the number of cells visited; `none` is a read
through a dangling pointer or an exhausted bound. -/
def LabelStack.containsLoop (m : LabelMemory) (id : Identifier) :
    Nat → Option Nat → Option Bool
  | _, none => some false
  | 0, some _ => none
  | fuel + 1, some curr =>
    match m.elems curr with
    | none => none
    | some e => if e.id = id then some true else LabelStack.containsLoop m id fuel e.prev

/-- `LabelStack::contains` (internal.cpp:333-343) on the stack object
`this`. -/
def LabelStack.contains (m : LabelMemory) (this : Nat) (id : Identifier) (fuel : Nat) :
    Option Bool :=
  if id = "" then some true
  else LabelStack.containsLoop m id fuel (m.tos this)

/-- `LabelStack::push` (internal.cpp:321-331). -/
def LabelStack.push (m : LabelMemory) (this : Nat) (id : Identifier) (fuel : Nat) :
    Option (Bool × LabelMemory) :=
  if id = "" then some (false, m)
  else
    match LabelStack.contains m this id fuel with
    | none => none
    | some true => some (false, m)
    | some false =>
      let newtos := m.next
      some (true,
        { elems := Function.update m.elems newtos (some { id := id, prev := m.tos this }),
          next := m.next + 1,
          tos := Function.update m.tos this (some newtos) })

/-- `LabelStack::pop` (internal.cpp:345-352). -/
def LabelStack.pop (m : LabelMemory) (this : Nat) : Option LabelMemory :=
  match m.tos this with
  | none => some m
  | some p =>
    match m.elems p with
    | none => none
    | some e =>
      some { m with elems := Function.update m.elems p none,
                    tos := Function.update m.tos this e.prev }

/-- `LabelStack::clear` (internal.cpp:359-368). -/
def LabelStack.clear (this : Nat) : Nat → LabelMemory → Option LabelMemory
  | 0, m =>
    match m.tos this with
    | none => some m
    | some _ => none
  | fuel + 1, m =>
    match m.tos this with
    | none => some m
    | some p =>
      match m.elems p with
      | none => none
      | some e =>
        LabelStack.clear this fuel
          { m with elems := Function.update m.elems p none,
                   tos := Function.update m.tos this e.prev }

/-- The loop of `LabelStack::operator=` (internal.cpp:307-317): `cur` is the
last cell of the copy built so far and `se` the cell of `other` to copy
next. -/
def LabelStack.assignLoop (this : Nat) :
    Nat → LabelMemory → Option Nat → Option Nat → Option LabelMemory
  | _, m, _, none => some m
  | 0, _, _, some _ => none
  | fuel + 1, m, cur, some se =>
    let newPrev := m.next
    match m.elems se with
    | none => none
    | some e =>
      let m1 : LabelMemory :=
        { m with elems := Function.update m.elems newPrev (some { id := e.id, prev := none }),
                 next := m.next + 1 }
      let linked : Option LabelMemory :=
        match cur with
        | some c =>
          match m1.elems c with
          | none => none
          | some ce =>
            let ce1 : StackElem := { ce with prev := some newPrev }
            some { m1 with elems := Function.update m1.elems c (some ce1) }
        | none => some { m1 with tos := Function.update m1.tos this (some newPrev) }
      match linked with
      | none => none
      | some m2 =>
        match m2.elems se with
        | none => none
        | some e2 => LabelStack.assignLoop this fuel m2 (some newPrev) e2.prev

/-- `LabelStack::operator=` (internal.cpp:301-319): `this` and `other` are the
addresses of the two stack objects. -/
def LabelStack.assign (m : LabelMemory) (this other : Nat) (fuel : Nat) : Option LabelMemory :=
  match LabelStack.clear this fuel m with
  | none => none
  | some m1 =>
    let m2 : LabelMemory := { m1 with tos := Function.update m1.tos this none }
    LabelStack.assignLoop this fuel m2 none (m2.tos other)

/-- The copy constructor `LabelStack::LabelStack(const LabelStack &)`
(internal.cpp:295-299), run on the uninitialised object at `this`. -/
def LabelStack.copyConstruct (m : LabelMemory) (this other : Nat) (fuel : Nat) :
    Option LabelMemory :=
  LabelStack.assign { m with tos := Function.update m.tos this none } this other fuel

/-- The cells reached from the pointer `p` by following `prev`, as pairs of an
address and the label stored there, top first. -/
def LabelStack.Chain (m : LabelMemory) : Option Nat → List (Nat × Identifier) → Prop
  | p, [] => p = none
  | p, c :: cs => p = some c.1 ∧ ∃ prev, m.elems c.1 = some { id := c.2, prev := prev } ∧
      LabelStack.Chain m prev cs

/-- The stack object at `this` is a well-formed list made of the cells
`cells`: they are chained from `tos`, pairwise distinct and allocated. -/
structure LabelStack.Holds (m : LabelMemory) (this : Nat) (cells : List (Nat × Identifier)) :
    Prop where
  chain : LabelStack.Chain m (m.tos this) cells
  nodup : (cells.map Prod.fst).Nodup
  allocated : ∀ c ∈ cells, c.1 < m.next

/-- The memory in which no cell is allocated and every stack is empty. -/
def LabelMemory.empty : LabelMemory where
  elems := fun _ => none
  next := 1
  tos := fun _ => none

/-- The cells `operator=` allocates for the labels `labels`, the first at
address `base`. -/
def LabelStack.copyCells : Nat → List Identifier → List (Nat × Identifier)
  | _, [] => []
  | base, id :: ids => (base, id) :: LabelStack.copyCells (base + 1) ids

/-- The address of the first of `cells`, as the pointer that reaches them. -/
def LabelStack.topOf (cells : List (Nat × Identifier)) : Option Nat :=
  cells.head?.map Prod.fst

/-- A memory with one stack, the object at address 0, holding `b` above `a`
in the cells 2 and 1; every other stack object is empty. -/
def sampleLabels : LabelMemory where
  elems := fun a =>
    if a = 1 then some { id := "a", prev := none }
    else if a = 2 then some { id := "b", prev := some 1 }
    else none
  next := 3
  tos := fun s => if s = 0 then some 2 else none

/-! ## Primitive values and `instanceof` (kjs/internal.cpp:107-290, 972-991) -/

/-- An IEEE 754 double, by its sign bit, its 11 exponent bits and its 52
mantissa bits. -/
structure Double where
  sign : Bool
  exponent : Fin 2048
  mantissa : Fin (2 ^ 52)
  deriving DecidableEq

/-- The double `+0`. -/
def Double.posZero : Double := { sign := false, exponent := 0, mantissa := 0 }

/-- The double `-0`. -/
def Double.negZero : Double := { sign := true, exponent := 0, mantissa := 0 }

/-- The C++ comparison `val == 0` on a double: true of the two zeros only (a
NaN compares unequal to everything). -/
def Double.eqZero (d : Double) : Bool :=
  decide (d.exponent = 0 ∧ d.mantissa = 0)

/-- Modelled from the spec: `isNaN` (operations.cpp is absent), the IEEE test:
all exponent bits set and a non-zero mantissa. -/
def isNaN (d : Double) : Bool :=
  decide (d.exponent = 2047 ∧ d.mantissa ≠ 0)

/-- `UndefinedImp::toBoolean` (internal.cpp:116-119). -/
def UndefinedImp.toBoolean : Bool := false

/-- `NullImp::toBoolean` (internal.cpp:147-150). -/
def NullImp.toBoolean : Bool := false

/-- `BooleanImp::toBoolean` (internal.cpp:179-182). -/
def BooleanImp.toBoolean (val : Bool) : Bool := val

/-- `StringImp::toBoolean` (internal.cpp:208-211): `val.size() > 0`. -/
def StringImp.toBoolean (val : UString) : Bool :=
  decide (val.length > 0)

/-- `NumberImp::toBoolean` (internal.cpp:263-266). -/
def NumberImp.toBoolean (val : Double) : Bool :=
  !(val.eqZero || isNaN val)

/-- The primitive value classes of internal.cpp, each with the member its
`toBoolean` reads. -/
inductive Primitive where
  | undefined
  | null
  | boolean (val : Bool)
  | string (val : UString)
  | number (val : Double)
  deriving DecidableEq

/-- The virtual call `toBoolean` on a primitive value. -/
def Primitive.toBoolean : Primitive → Bool
  | Primitive.undefined => UndefinedImp.toBoolean
  | Primitive.null => NullImp.toBoolean
  | Primitive.boolean val => BooleanImp.toBoolean val
  | Primitive.string val => StringImp.toBoolean val
  | Primitive.number val => NumberImp.toBoolean val

/-- The type tags of value.h. -/
inductive ValueType where
  | UnspecifiedType
  | UndefinedType
  | NullType
  | BooleanType
  | StringType
  | NumberType
  | ObjectType
  deriving DecidableEq, Repr

/-- `Value::type()`: `none` for a handle whose `imp` is null, on which the call
dereferences a null pointer. -/
def Value.type : Value → Option ValueType
  | Value.absent => none
  | Value.undefined => some ValueType.UndefinedType
  | Value.null => some ValueType.NullType
  | Value.boolean _ => some ValueType.BooleanType
  | Value.string _ => some ValueType.StringType
  | Value.number _ => some ValueType.NumberType
  | Value.error _ => some ValueType.ObjectType
  | Value.runtimeMethod _ _ => some ValueType.ObjectType
  | Value.object _ => some ValueType.ObjectType

/-- The loop of `InternalFunctionImp::hasInstance` (internal.cpp:985-989).
`prototype` answers `ObjectImp::prototype()` of each object; identity of `imp`
pointers is equality of values.  The first argument bounds the number of
prototype links followed; `none` means the bound was reached. -/
def InternalFunctionImp.hasInstanceLoop (prototype : Value → Value) (prot : Value) :
    Nat → Value → Option Bool
  | 0, _ => none
  | fuel + 1, v =>
    let v1 := prototype v
    if v1.type = some ValueType.ObjectType then
      if v1 = prot then some true
      else InternalFunctionImp.hasInstanceLoop prototype prot fuel v1
    else some false

/-- `InternalFunctionImp::hasInstance` (internal.cpp:972-991).  `prot` is what
`get(exec, prototypePropertyName)` answered. -/
def InternalFunctionImp.hasInstance (prototype : Value → Value) (prot : Value)
    (exec : ExecState) (value : Value) (fuel : Nat) : Option (Bool × ExecState) :=
  match value.type with
  | none => none
  | some t =>
    if t ≠ ValueType.ObjectType then some (false, exec)
    else
      match prot.type with
      | none => none
      | some pt =>
        if pt ≠ ValueType.ObjectType ∧ pt ≠ ValueType.NullType then
          let err := Value.error (Error.create ErrorType.TypeError
            "Invalid prototype encountered in instanceof operation." (-1) (-1) none)
          some (false, exec.setException err)
        else
          (InternalFunctionImp.hasInstanceLoop prototype prot fuel value).map
            (fun b => (b, exec))

/-- Some object reached from `value` by following one or more prototype links
through objects is `prot`. -/
def OnPrototypeChain (prototype : Value → Value) (value prot : Value) : Prop :=
  ∃ k, 1 ≤ k ∧ (∀ j, 1 ≤ j → j ≤ k → (prototype^[j] value).type = some ValueType.ObjectType) ∧
    prototype^[k] value = prot

/-- Prototype links of four objects: 1 → 2 → 3 → Null and 4 → Null. -/
def samplePrototype : Value → Value
  | Value.object 1 => Value.object 2
  | Value.object 2 => Value.object 3
  | _ => Value.null

/-! ## Built-ins and syntax check (kjs/internal.cpp:763-775, 870-950) -/

/-- `SavedBuiltins`: its `_internal` pointer, `none` when null. -/
structure SavedBuiltins where
  internal : Option Builtins
  deriving DecidableEq, Repr

/-- What `new SavedBuiltinsInternal` holds: thirty null handles. -/
def SavedBuiltinsInternal.new : Builtins where
  b_Object := Value.absent
  b_Function := Value.absent
  b_Array := Value.absent
  b_Boolean := Value.absent
  b_String := Value.absent
  b_Number := Value.absent
  b_Date := Value.absent
  b_RegExp := Value.absent
  b_Error := Value.absent
  b_ObjectPrototype := Value.absent
  b_FunctionPrototype := Value.absent
  b_ArrayPrototype := Value.absent
  b_BooleanPrototype := Value.absent
  b_StringPrototype := Value.absent
  b_NumberPrototype := Value.absent
  b_DatePrototype := Value.absent
  b_RegExpPrototype := Value.absent
  b_ErrorPrototype := Value.absent
  b_evalError := Value.absent
  b_rangeError := Value.absent
  b_referenceError := Value.absent
  b_syntaxError := Value.absent
  b_typeError := Value.absent
  b_uriError := Value.absent
  b_evalErrorPrototype := Value.absent
  b_rangeErrorPrototype := Value.absent
  b_referenceErrorPrototype := Value.absent
  b_syntaxErrorPrototype := Value.absent
  b_typeErrorPrototype := Value.absent
  b_uriErrorPrototype := Value.absent

/-- `InterpreterImp::saveBuiltins` (internal.cpp:870-909): the snapshot after
the call.  The method is const: the interpreter is not written. -/
def InterpreterImp.saveBuiltins (w : World) (builtins : SavedBuiltins) : SavedBuiltins :=
  let internal :=
    match builtins.internal with
    | none => SavedBuiltinsInternal.new
    | some i => i
  { internal := some
      { internal with
        b_Object := w.builtins.b_Object,
        b_Function := w.builtins.b_Function,
        b_Array := w.builtins.b_Array,
        b_Boolean := w.builtins.b_Boolean,
        b_String := w.builtins.b_String,
        b_Number := w.builtins.b_Number,
        b_Date := w.builtins.b_Date,
        b_RegExp := w.builtins.b_RegExp,
        b_Error := w.builtins.b_Error,
        b_ObjectPrototype := w.builtins.b_ObjectPrototype,
        b_FunctionPrototype := w.builtins.b_FunctionPrototype,
        b_ArrayPrototype := w.builtins.b_ArrayPrototype,
        b_BooleanPrototype := w.builtins.b_BooleanPrototype,
        b_StringPrototype := w.builtins.b_StringPrototype,
        b_NumberPrototype := w.builtins.b_NumberPrototype,
        b_DatePrototype := w.builtins.b_DatePrototype,
        b_RegExpPrototype := w.builtins.b_RegExpPrototype,
        b_ErrorPrototype := w.builtins.b_ErrorPrototype,
        b_evalError := w.builtins.b_evalError,
        b_rangeError := w.builtins.b_rangeError,
        b_referenceError := w.builtins.b_referenceError,
        b_syntaxError := w.builtins.b_syntaxError,
        b_typeError := w.builtins.b_typeError,
        b_uriError := w.builtins.b_uriError,
        b_evalErrorPrototype := w.builtins.b_evalErrorPrototype,
        b_rangeErrorPrototype := w.builtins.b_rangeErrorPrototype,
        b_referenceErrorPrototype := w.builtins.b_referenceErrorPrototype,
        b_syntaxErrorPrototype := w.builtins.b_syntaxErrorPrototype,
        b_typeErrorPrototype := w.builtins.b_typeErrorPrototype,
        b_uriErrorPrototype := w.builtins.b_uriErrorPrototype } }

/-- `InterpreterImp::restoreBuiltins` (internal.cpp:911-950). -/
def InterpreterImp.restoreBuiltins (w : World) (builtins : SavedBuiltins) : World :=
  match builtins.internal with
  | none => w
  | some i =>
    { w with builtins :=
      { w.builtins with
        b_Object := i.b_Object,
        b_Function := i.b_Function,
        b_Array := i.b_Array,
        b_Boolean := i.b_Boolean,
        b_String := i.b_String,
        b_Number := i.b_Number,
        b_Date := i.b_Date,
        b_RegExp := i.b_RegExp,
        b_Error := i.b_Error,
        b_ObjectPrototype := i.b_ObjectPrototype,
        b_FunctionPrototype := i.b_FunctionPrototype,
        b_ArrayPrototype := i.b_ArrayPrototype,
        b_BooleanPrototype := i.b_BooleanPrototype,
        b_StringPrototype := i.b_StringPrototype,
        b_NumberPrototype := i.b_NumberPrototype,
        b_DatePrototype := i.b_DatePrototype,
        b_RegExpPrototype := i.b_RegExpPrototype,
        b_ErrorPrototype := i.b_ErrorPrototype,
        b_evalError := i.b_evalError,
        b_rangeError := i.b_rangeError,
        b_referenceError := i.b_referenceError,
        b_syntaxError := i.b_syntaxError,
        b_typeError := i.b_typeError,
        b_uriError := i.b_uriError,
        b_evalErrorPrototype := i.b_evalErrorPrototype,
        b_rangeErrorPrototype := i.b_rangeErrorPrototype,
        b_referenceErrorPrototype := i.b_referenceErrorPrototype,
        b_syntaxErrorPrototype := i.b_syntaxErrorPrototype,
        b_typeErrorPrototype := i.b_typeErrorPrototype,
        b_uriErrorPrototype := i.b_uriErrorPrototype } }

/-- Modelled from the spec: `Object::put` on the global object (object.cpp is
absent), which binds the property `name` of the global object to `v`; this is
what the script assignment `Array = v` and the host call
`global.put(exec, "Array", v)` do. -/
def InterpreterImp.globalPut (w : World) (name : Identifier) (v : Value) : World :=
  { w with globalProperties := Function.update w.globalProperties name (some v) }

/-- Modelled from the spec: `Object::get` on the global object (object.cpp is
absent), which is what the script identifier `name` resolves to at global
scope. -/
def InterpreterImp.globalGet (w : World) (name : Identifier) : Option Value :=
  w.globalProperties name

/-- `InterpreterImp::checkSyntax` (internal.cpp:763-775): the parser is called
with a null source URL, line 0 and null out parameters. -/
def InterpreterImp.checkSyntax (env : Env) (w : World) (code : UString) : Bool × World :=
  let p := Parser.parse env w "" 0 code
  let progNode := p.1.progNode
  let ok := progNode.isSome
  (ok, p.2)

/-! ## The interpreter registry and the shared singletons
(kjs/internal.cpp:481-568, 719-740) -/

/-- The five process-wide singleton pointers (`UndefinedImp::staticUndefined`,
`NullImp::staticNull`, `BooleanImp::staticTrue`, `BooleanImp::staticFalse`,
`NumberImp::staticNaN`): the address of the object, `none` when null. -/
structure Singletons where
  staticUndefined : Option Nat
  staticNull : Option Nat
  staticTrue : Option Nat
  staticFalse : Option Nat
  staticNaN : Option Nat
  deriving DecidableEq, Repr

/-- All five singleton pointers are non-null. -/
def Singletons.allLive (s : Singletons) : Bool :=
  s.staticUndefined.isSome && s.staticNull.isSome && s.staticTrue.isSome &&
    s.staticFalse.isSome && s.staticNaN.isSome

/-- All five singleton pointers are null. -/
def Singletons.allNull (s : Singletons) : Bool :=
  s.staticUndefined.isNone && s.staticNull.isNone && s.staticTrue.isNone &&
    s.staticFalse.isNone && s.staticNaN.isNone

/-- Calls of the two global set-up functions, in the order made. -/
inductive RegistryCall where
  | globalInit
  | globalClear
  deriving DecidableEq, Repr

/-- The process-wide registry: the static `s_hook`, the `next` and `prev`
members of every `InterpreterImp` by address, the singletons, the address the
next `new` returns, and the log of calls. -/
structure Registry where
  s_hook : Option Nat
  next : Nat → Nat
  prev : Nat → Nat
  singletons : Singletons
  heapTop : Nat
  calls : List RegistryCall

/-- `InterpreterImp::globalInit` (internal.cpp:483-506): five fresh objects. -/
def InterpreterImp.globalInit (r : Registry) : Registry :=
  { r with
    singletons :=
      { staticUndefined := some r.heapTop,
        staticNull := some (r.heapTop + 1),
        staticTrue := some (r.heapTop + 2),
        staticFalse := some (r.heapTop + 3),
        staticNaN := some (r.heapTop + 4) },
    heapTop := r.heapTop + 5,
    calls := r.calls ++ [RegistryCall.globalInit] }

/-- `InterpreterImp::globalClear` (internal.cpp:508-536). -/
def InterpreterImp.globalClear (r : Registry) : Registry :=
  { r with
    singletons :=
      { staticUndefined := none, staticNull := none, staticTrue := none,
        staticFalse := none, staticNaN := none },
    calls := r.calls ++ [RegistryCall.globalClear] }

/-- The registration in the constructor `InterpreterImp::InterpreterImp`
(internal.cpp:545-554) of the new interpreter at address `this`; the other
statements of the constructor write members of the new interpreter only. -/
def InterpreterImp.construct (r : Registry) (this : Nat) : Registry :=
  match r.s_hook with
  | some hook =>
    let r1 := { r with prev := Function.update r.prev this hook }
    let r2 := { r1 with next := Function.update r1.next this (r1.next hook) }
    let r3 := { r2 with prev := Function.update r2.prev (r2.next hook) this }
    { r3 with next := Function.update r3.next hook this }
  | none =>
    let r1 := { r with s_hook := some this,
                       next := Function.update r.next this this,
                       prev := Function.update r.prev this this }
    InterpreterImp.globalInit r1

/-- `InterpreterImp::clear` (internal.cpp:719-740) on the interpreter at
address `this`, without the lock calls and the removal from the interpreter
map. -/
def InterpreterImp.clear (r : Registry) (this : Nat) : Registry :=
  let r1 := { r with prev := Function.update r.prev (r.next this) (r.prev this) }
  let r2 := { r1 with next := Function.update r1.next (r1.prev this) (r1.next this) }
  let r3 := { r2 with s_hook := some (r2.next this) }
  if r3.s_hook = some this then
    InterpreterImp.globalClear { r3 with s_hook := none }
  else r3

/-- The registry of a process in which no interpreter was ever created. -/
def Registry.initial : Registry where
  s_hook := none
  next := fun _ => 0
  prev := fun _ => 0
  singletons :=
    { staticUndefined := none, staticNull := none, staticTrue := none,
      staticFalse := none, staticNaN := none }
  heapTop := 1000
  calls := []

/-- Each interpreter of the path points with `next` to the one after it, which
points back with `prev`. -/
def Linked (r : Registry) : List Nat → Prop
  | [] => True
  | [_] => True
  | a :: b :: rest => (r.next a = b ∧ r.prev b = a) ∧ Linked r (b :: rest)

/-- The interpreters `l`, pairwise distinct, form a closed ring in the order of
the list: each is linked to the next and the last to the first. -/
def Cyc (r : Registry) (l : List Nat) : Prop :=
  l.Nodup ∧
    match l with
    | [] => True
    | a :: rest => Linked r (a :: rest ++ [a])

/-- The registered interpreters are exactly `l`, in ring order from
`s_hook`. -/
def Ring (r : Registry) (l : List Nat) : Prop :=
  Cyc r l ∧ r.s_hook = l.head?

/-- The registry is a ring of the interpreters `l`, and the singletons are
live when `l` is not empty and null when it is. -/
structure Live (r : Registry) (l : List Nat) : Prop where
  ring : Ring r l
  null : l = [] → r.singletons.allNull = true
  live : l ≠ [] → r.singletons.allLive = true

/-! ## Context construction and destruction (kjs/internal.cpp:373-424) -/

/-- Modelled from the spec: `InterpreterImp::setContext` (internal.h is
absent) stores its argument in the member `_context`. -/
def InterpreterImp.setContext (w : World) (c : Option ContextImp) : World :=
  { w with context := c }

/-- The whole constructor `ContextImp::ContextImp` (internal.cpp:373-419) run
on an interpreter: the new context and the interpreter after the final
`_interpreter->setContext(this)`. -/
def ContextImp.construct (w : World) (glob : Value) (thisV : Value) (type : CodeType)
    (callingCon : Option ContextImp) (funcScope : List Value) (newActivation : Value) :
    ContextImp × World :=
  let ctx := ContextImp.create glob thisV type callingCon funcScope newActivation
  (ctx, InterpreterImp.setContext w (some ctx))

/-- The destructor `ContextImp::~ContextImp` (internal.cpp:421-424):
`_interpreter->setContext(_callingContext)`. -/
def ContextImp.destroy (w : World) (ctx : ContextImp) : World :=
  InterpreterImp.setContext w ctx.callingContext

/-! ## Histories of the interpreter registry -/

/-- One event in the life of the registry: the construction of an
`InterpreterImp` at an address, or `clear()` called on the one at an
address. -/
inductive RegistryOp where
  | construct (this : Nat)
  | clear (this : Nat)
  deriving DecidableEq, Repr

/-- The effect of one event on the registry. -/
def Registry.step (r : Registry) : RegistryOp → Registry
  | RegistryOp.construct this => InterpreterImp.construct r this
  | RegistryOp.clear this => InterpreterImp.clear r this

/-- The effect of a sequence of events, first to last. -/
def Registry.run (r : Registry) (ops : List RegistryOp) : Registry :=
  ops.foldl Registry.step r

/-- The live interpreters after a sequence of events that starts with the
interpreters `l` live: a construction adds its address, `clear()` removes it.
The answer is `none` for a sequence that constructs an interpreter at the
address of a live one, or calls `clear()` on one that is not live. -/
def liveAfter : List Nat → List RegistryOp → Option (List Nat)
  | l, [] => some l
  | l, RegistryOp.construct this :: ops =>
    if this ∈ l then none else liveAfter (this :: l) ops
  | l, RegistryOp.clear this :: ops =>
    if this ∈ l then liveAfter (l.erase this) ops else none

/-! ## Root objects (bindings/runtime_root.h:46-69) -/

namespace Bindings

/-- The two build flags runtime_root.h tests. -/
structure GCConfig where
  USE_CONSERVATIVE_GC : Bool
  TEST_CONSERVATIVE_GC : Bool
  deriving DecidableEq, Repr

/-- The calls a `RootObject` makes on script objects, by address.
`gcUnprotect` is an ordinary function and is recorded with the pointer it is
given, `none` for null. -/
inductive RootCall where
  | ref (imp : Nat)
  | deref (imp : Nat)
  | gcProtect (imp : Nat)
  | gcUnprotect (imp : Option Nat)
  deriving DecidableEq, Repr

/-- The member `_imp` of a `RootObject` (`none` for null) and the calls it has
made so far. -/
structure RootObject where
  imp : Option Nat
  calls : List RootCall
  deriving DecidableEq, Repr

/-- The constructor `RootObject::RootObject` (runtime_root.h:50): `_imp(0)`. -/
def RootObject.new : RootObject :=
  { imp := none, calls := [] }

/-- `RootObject::setRootObjectImp` (runtime_root.h:60-69) with a non-null
object. -/
def RootObject.setRootObjectImp (cfg : GCConfig) (o : RootObject) (i : Nat) : RootObject :=
  let o := { o with imp := some i }
  let o := if !cfg.USE_CONSERVATIVE_GC then { o with calls := o.calls ++ [RootCall.ref i] } else o
  if cfg.USE_CONSERVATIVE_GC || cfg.TEST_CONSERVATIVE_GC then
    { o with calls := o.calls ++ [RootCall.gcProtect i] }
  else o

/-- The destructor `RootObject::~RootObject` (runtime_root.h:51-58).  The
answer is `none` when `_imp->deref()` is run on a null `_imp`. -/
def RootObject.destructor (cfg : GCConfig) (o : RootObject) : Option RootObject :=
  let o1 : Option RootObject :=
    if !cfg.USE_CONSERVATIVE_GC then
      match o.imp with
      | none => none
      | some i => some { o with calls := o.calls ++ [RootCall.deref i] }
    else some o
  match o1 with
  | none => none
  | some o =>
    if cfg.USE_CONSERVATIVE_GC || cfg.TEST_CONSERVATIVE_GC then
      some { o with calls := o.calls ++ [RootCall.gcUnprotect o.imp] }
    else some o

/-- The calls made over the lifetime of a `RootObject`: construction,
`setRootObjectImp` on each object of `sets` in turn, destruction. -/
def RootObject.lifetime (cfg : GCConfig) (sets : List Nat) : Option (List RootCall) :=
  (RootObject.destructor cfg (sets.foldl (RootObject.setRootObjectImp cfg) RootObject.new)).map
    (fun o => o.calls)

/-- The calls `setRootObjectImp` makes on an object. -/
def RootObject.acquire (cfg : GCConfig) (i : Nat) : List RootCall :=
  (if !cfg.USE_CONSERVATIVE_GC then [RootCall.ref i] else []) ++
    (if cfg.USE_CONSERVATIVE_GC || cfg.TEST_CONSERVATIVE_GC then [RootCall.gcProtect i] else [])

/-- The calls that undo `acquire` on an object. -/
def RootObject.release (cfg : GCConfig) (i : Nat) : List RootCall :=
  (if !cfg.USE_CONSERVATIVE_GC then [RootCall.deref i] else []) ++
    (if cfg.USE_CONSERVATIVE_GC || cfg.TEST_CONSERVATIVE_GC then [RootCall.gcUnprotect (some i)]
     else [])

end Bindings

/-! ## Debugger attachment (kjs/internal.cpp:710-717, 863-868) -/

/-- The members of an `InterpreterImp` that `setDebugger` and the destructor
read and write: `m_interpreter`, `dbg` (the attached debugger by address,
`none` for null), `globExec` (`none` once deleted), and the log of the
`detach` calls made, each with the debugger it was called on and the
interpreter it was passed. -/
structure DebuggerHost where
  m_interpreter : Nat
  dbg : Option Nat
  globExec : Option ExecState
  detached : List (Nat × Nat)
  deriving DecidableEq, Repr

/-- Modelled from the spec: `Debugger::detach` (debugger.cpp is absent), called
on the debugger at address `d` with the interpreter `m_interpreter`, is
recorded as a call. -/
def Debugger.detach (h : DebuggerHost) (d : Nat) : DebuggerHost :=
  { h with detached := h.detached ++ [(d, h.m_interpreter)] }

/-- `InterpreterImp::setDebugger` (internal.cpp:863-868). -/
def InterpreterImp.setDebugger (h : DebuggerHost) (d : Option Nat) : DebuggerHost :=
  let h :=
    match d with
    | some dd => Debugger.detach h dd
    | none => h
  { h with dbg := d }

/-- The destructor `InterpreterImp::~InterpreterImp` (internal.cpp:710-717) of
the interpreter at address `this`. -/
def InterpreterImp.destructor (h : DebuggerHost) (r : Registry) (this : Nat) :
    DebuggerHost × Registry :=
  let h :=
    match h.dbg with
    | some dd => Debugger.detach h dd
    | none => h
  let h := { h with globExec := none }
  (h, InterpreterImp.clear r this)

/-- An interpreter, number 50, to which debugger 1 is attached. -/
def sampleDebuggerHost : DebuggerHost where
  m_interpreter := 50
  dbg := some 1
  globExec := some { exception := none }
  detached := []

/-! ## Marking (kjs/internal.cpp:426-431, 742-761) -/

/-- The calls `InterpreterImp::mark` makes besides `ValueImp::mark`:
`m_interpreter->mark()` and `scope.mark()` on the scope chain of a context. -/
inductive MarkCall where
  | interpreterMark (interp : Nat)
  | scopeMark (scope : List Value)
  deriving DecidableEq, Repr

/-- The collector state `mark` reads and writes: the mark bit of each object
by address, and the log of the calls made. -/
structure MarkHeap where
  marked : Nat → Bool
  calls : List MarkCall

/-- Modelled from the spec: `ValueImp::marked()` (value.h is absent) reads the
mark bit of the object; `none` when the pointer is null. -/
def ValueImp.marked (h : MarkHeap) (p : Option Nat) : Option Bool :=
  p.map h.marked

/-- Modelled from the spec: `ValueImp::mark()` (value.cpp is absent) sets the
mark bit of the object; `none` when the pointer is null. -/
def ValueImp.mark (h : MarkHeap) (p : Option Nat) : Option MarkHeap :=
  p.map (fun a => { h with marked := Function.update h.marked a true })

/-- One statement `if (X && !X->marked()) X->mark();` of
`InterpreterImp::mark`. -/
def InterpreterImp.markStatic (h : MarkHeap) (p : Option Nat) : Option MarkHeap :=
  if p.isSome then
    match ValueImp.marked h p with
    | none => none
    | some true => some h
    | some false => ValueImp.mark h p
  else some h

/-- Modelled from the spec: `ScopeChain::mark` (scope_chain.cpp is absent) is
recorded as a call with the chain it is applied to. -/
def ScopeChain.mark (h : MarkHeap) (scope : List Value) : MarkHeap :=
  { h with calls := h.calls ++ [MarkCall.scopeMark scope] }

/-- Modelled from the spec: `Interpreter::mark` (interpreter.cpp is absent) is
recorded as a call on the interpreter it is applied to. -/
def Interpreter.mark (h : MarkHeap) (interp : Nat) : MarkHeap :=
  { h with calls := h.calls ++ [MarkCall.interpreterMark interp] }

/-- `ContextImp::mark` (internal.cpp:426-431). -/
def ContextImp.mark : ContextImp → MarkHeap → MarkHeap
  | ContextImp.mk _ none scope _ _ _, h => ScopeChain.mark h scope
  | ContextImp.mk _ (some c) scope _ _ _, h => ContextImp.mark c (ScopeChain.mark h scope)

/-- `InterpreterImp::mark` (internal.cpp:742-761) of an interpreter with the
members `m_interpreter` and `_context`, the singletons being `s`. -/
def InterpreterImp.mark (s : Singletons) (m_interpreter : Option Nat)
    (context : Option ContextImp) (h : MarkHeap) : Option MarkHeap :=
  match InterpreterImp.markStatic h s.staticUndefined with
  | none => none
  | some h =>
  match InterpreterImp.markStatic h s.staticNull with
  | none => none
  | some h =>
  match InterpreterImp.markStatic h s.staticTrue with
  | none => none
  | some h =>
  match InterpreterImp.markStatic h s.staticFalse with
  | none => none
  | some h =>
    let h :=
      match m_interpreter with
      | some i => Interpreter.mark h i
      | none => h
    match context with
    | some c => some (ContextImp.mark c h)
    | none => some h

/-- The contexts reachable from a context through calling-context links, the
context itself first. -/
def ContextImp.chain : ContextImp → List ContextImp
  | ContextImp.mk t none scope v a th => [ContextImp.mk t none scope v a th]
  | ContextImp.mk t (some c) scope v a th =>
    ContextImp.mk t (some c) scope v a th :: ContextImp.chain c

/-- A collector state in which nothing is marked. -/
def MarkHeap.empty : MarkHeap where
  marked := fun _ => false
  calls := []

/-! ## The Java bridge (bindings/jni/jni_utility.cpp, jni_runtime.cpp) -/

namespace Bindings

/-- Modelled from the spec: the enum `JNIType` is declared in jni_utility.h,
which is absent; its members are the eleven tags the switches of
jni_utility.cpp name. -/
inductive JNIType where
  | invalid_type
  | void_type
  | object_type
  | boolean_type
  | byte_type
  | char_type
  | short_type
  | int_type
  | long_type
  | float_type
  | double_type
  deriving DecidableEq, Repr

/-- `JNITypeFromClassName` (jni_utility.cpp:460-486). -/
def JNITypeFromClassName (name : String) : JNIType :=
  if name = "byte" then JNIType.byte_type
  else if name = "short" then JNIType.short_type
  else if name = "int" then JNIType.int_type
  else if name = "long" then JNIType.long_type
  else if name = "float" then JNIType.float_type
  else if name = "double" then JNIType.double_type
  else if name = "char" then JNIType.char_type
  else if name = "boolean" then JNIType.boolean_type
  else if name = "void" then JNIType.void_type
  else JNIType.object_type

/-- `signatureFromPrimitiveType` (jni_utility.cpp:488-526). -/
def signatureFromPrimitiveType : JNIType → String
  | JNIType.void_type => "V"
  | JNIType.object_type => "L"
  | JNIType.boolean_type => "Z"
  | JNIType.byte_type => "B"
  | JNIType.char_type => "C"
  | JNIType.short_type => "S"
  | JNIType.int_type => "I"
  | JNIType.long_type => "J"
  | JNIType.float_type => "F"
  | JNIType.double_type => "D"
  | JNIType.invalid_type => ""

/-- `JNITypeFromPrimitiveType` (jni_utility.cpp:528-566). -/
def JNITypeFromPrimitiveType (type : Char) : JNIType :=
  if type = 'V' then JNIType.void_type
  else if type = 'L' ∨ type = '[' then JNIType.object_type
  else if type = 'Z' then JNIType.boolean_type
  else if type = 'B' then JNIType.byte_type
  else if type = 'C' then JNIType.char_type
  else if type = 'S' then JNIType.short_type
  else if type = 'I' then JNIType.int_type
  else if type = 'J' then JNIType.long_type
  else if type = 'F' then JNIType.float_type
  else if type = 'D' then JNIType.double_type
  else JNIType.invalid_type

/-- The class name with every `.` turned into `/`, as the loop of
`appendClassName` rewrites its copy. -/
def slashed (className : String) : String :=
  String.mk (className.data.map (fun c => if c = '.' then '/' else c))

/-- `appendClassName` (jni_runtime.cpp:228-242). -/
def appendClassName (aString : UString) (className : String) : UString :=
  aString ++ slashed className

/-- A `JavaParameter`: the type name and its tag. -/
structure JavaParameter where
  type : String
  getJNIType : JNIType
  deriving DecidableEq, Repr

/-- The constructor `JavaParameter::JavaParameter` (jni_runtime.cpp:39-43) on
the name the reflection API gave. -/
def JavaParameter.new (type : String) : JavaParameter :=
  { type := type, getJNIType := JNITypeFromClassName type }

/-- A `JavaMethod`: the members its constructor sets. -/
structure JavaMethod where
  returnType : String
  JNIReturnType : JNIType
  name : String
  parameters : List JavaParameter
  deriving DecidableEq, Repr

/-- The constructor `JavaMethod::JavaMethod` (jni_runtime.cpp:192-224) on the
names the reflection API gave for the return type, the method and the
parameter types. -/
def JavaMethod.new (returnTypeName methodName : String) (parameterNames : List String) :
    JavaMethod :=
  { returnType := returnTypeName,
    JNIReturnType := JNITypeFromClassName returnTypeName,
    name := methodName,
    parameters := parameterNames.map JavaParameter.new }

/-- One round of the parameter loop of `JavaMethod::signature`
(jni_runtime.cpp:251-258). -/
def JavaMethod.signatureStep (sig : UString) (aParameter : JavaParameter) : UString :=
  let sig := sig ++ signatureFromPrimitiveType aParameter.getJNIType
  if aParameter.getJNIType = JNIType.object_type then
    appendClassName sig aParameter.type ++ ";"
  else sig

/-- `JavaMethod::signature` (jni_runtime.cpp:244-275): the string built on the
first call, which later calls return again. -/
def JavaMethod.signature (m : JavaMethod) : UString :=
  let sig := m.parameters.foldl JavaMethod.signatureStep "("
  let sig := sig ++ ")"
  if m.returnType.data.head? = some '[' then
    appendClassName sig m.returnType
  else
    let sig := sig ++ signatureFromPrimitiveType m.JNIReturnType
    if m.JNIReturnType = JNIType.object_type then
      appendClassName sig m.returnType ++ ";"
    else sig

/-- The encoding of one type as the specification words it: an array type is
its descriptor, another object type is `L`, the class name with `/` for `.`,
and `;`, and a primitive type is its letter. -/
def Spec.descriptor (type : String) : String :=
  if type.data.head? = some '[' then slashed type
  else if JNITypeFromClassName type = JNIType.object_type then "L" ++ slashed type ++ ";"
  else signatureFromPrimitiveType (JNITypeFromClassName type)

/-- The signature as the specification words it: the encodings of the
parameter types between brackets, then the encoding of the return type. -/
def Spec.signature (returnTypeName : String) (parameterNames : List String) : String :=
  "(" ++ (parameterNames.map Spec.descriptor).foldr (fun a b => a ++ b) "" ++ ")" ++
    Spec.descriptor returnTypeName

end Bindings

namespace Bindings

/-- The union `jvalue`: the member last written and its content.  `l` holds a
`jobject`, 0 for null; the numeric members hold the converted number; `zero`
is the union after `bzero`. -/
inductive JValue where
  | l (obj : Nat)
  | z (v : Int)
  | b (v : Int)
  | c (v : Int)
  | s (v : Int)
  | i (v : Int)
  | j (v : Int)
  | f (v : Int)
  | d (v : Int)
  | zero
  deriving DecidableEq, Repr

/-- The collaborators of `convertValueToJValue` whose code is elsewhere:
`classInfo()->className` of an object value, the `jobject` held by the
`JavaInstance` or the `JavaArray` behind a runtime object or runtime array
(0 for null), `toString` and `toNumber` of a value, the JNI function
`NewString`, and the C conversion of a double to the member type of a tag. -/
structure JNIHost where
  className : Value → String
  javaInstance : Value → Nat
  javaArray : Value → Nat
  toString : Value → UString
  toNumber : Value → Double
  newString : UString → Nat
  cast : JNIType → Double → Int

/-- `convertValueToJValue` (jni_utility.cpp:630-716).  `javaClassName` is
`none` for a null pointer.  The answer is `none` when the function
dereferences a null pointer: `value.type()` on a value without `imp`, or
`strcmp` on a null class name. -/
def convertValueToJValue (host : JNIHost) (value : Value) (_JNIType : JNIType)
    (javaClassName : Option String) : Option JValue :=
  match _JNIType with
  | JNIType.object_type =>
    match value.type with
    | none => none
    | some t =>
      let l : Nat := 0
      let l :=
        if t = ValueType.ObjectType then
          if host.className value = "RuntimeObject" then host.javaInstance value
          else if host.className value = "RuntimeArray" then host.javaArray value
          else l
        else l
      if l = 0 then
        match javaClassName with
        | none => none
        | some name =>
          if name = "java.lang.String" ∧ t ≠ ValueType.NullType then
            some (JValue.l (host.newString (host.toString value)))
          else some (JValue.l l)
      else some (JValue.l l)
  | JNIType.boolean_type => some (JValue.z (host.cast JNIType.boolean_type (host.toNumber value)))
  | JNIType.byte_type => some (JValue.b (host.cast JNIType.byte_type (host.toNumber value)))
  | JNIType.char_type => some (JValue.c (host.cast JNIType.char_type (host.toNumber value)))
  | JNIType.short_type => some (JValue.s (host.cast JNIType.short_type (host.toNumber value)))
  | JNIType.int_type => some (JValue.i (host.cast JNIType.int_type (host.toNumber value)))
  | JNIType.long_type => some (JValue.j (host.cast JNIType.long_type (host.toNumber value)))
  | JNIType.float_type => some (JValue.f (host.cast JNIType.float_type (host.toNumber value)))
  | JNIType.double_type => some (JValue.d (host.cast JNIType.double_type (host.toNumber value)))
  | JNIType.invalid_type => some JValue.zero
  | JNIType.void_type => some JValue.zero

/-- The JNI array writes of `JavaArray::setValueAt`, each with the index and
the `jvalue` whose member it stores. -/
inductive NativeStore where
  | SetObjectArrayElement (index : Nat) (v : JValue)
  | SetBooleanArrayRegion (index : Nat) (v : JValue)
  | SetByteArrayRegion (index : Nat) (v : JValue)
  | SetCharArrayRegion (index : Nat) (v : JValue)
  | SetShortArrayRegion (index : Nat) (v : JValue)
  | SetIntArrayRegion (index : Nat) (v : JValue)
  | SetLongArrayRegion (index : Nat) (v : JValue)
  | SetFloatArrayRegion (index : Nat) (v : JValue)
  | SetDoubleArrayRegion (index : Nat) (v : JValue)
  deriving DecidableEq, Repr

/-- `JavaArray::setValueAt` (jni_runtime.cpp:315-380) on an array whose type
descriptor is `type`: the array writes made, in order.  `type[1]` is the NUL
terminator when the descriptor has one character; the class name is the text
from `type[2]` up to the first `;`, which the descriptor of an object array
has. -/
def JavaArray.setValueAt (host : JNIHost) (type : String) (index : Nat) (aValue : Value) :
    Option (List NativeStore) :=
  let arrayType := JNITypeFromPrimitiveType (type.data.getD 1 (Char.ofNat 0))
  let javaClassName : Option String :=
    if type.data.getD 1 (Char.ofNat 0) = 'L' then
      some (String.mk ((type.data.drop 2).takeWhile (fun ch => ch != ';')))
    else none
  match convertValueToJValue host aValue arrayType javaClassName with
  | none => none
  | some aJValue =>
    match arrayType with
    | JNIType.object_type => some [NativeStore.SetObjectArrayElement index aJValue]
    | JNIType.boolean_type => some [NativeStore.SetBooleanArrayRegion index aJValue]
    | JNIType.byte_type => some [NativeStore.SetByteArrayRegion index aJValue]
    | JNIType.char_type => some [NativeStore.SetCharArrayRegion index aJValue]
    | JNIType.short_type => some [NativeStore.SetShortArrayRegion index aJValue]
    | JNIType.int_type => some [NativeStore.SetIntArrayRegion index aJValue]
    | JNIType.long_type =>
      some [NativeStore.SetLongArrayRegion index aJValue,
        NativeStore.SetFloatArrayRegion index aJValue]
    | JNIType.float_type => some [NativeStore.SetFloatArrayRegion index aJValue]
    | JNIType.double_type => some [NativeStore.SetDoubleArrayRegion index aJValue]
    | _ => some []

/-- The one array write of an element type, as the specification words it. -/
def Spec.store (arrayType : JNIType) (index : Nat) (v : JValue) : List NativeStore :=
  match arrayType with
  | JNIType.object_type => [NativeStore.SetObjectArrayElement index v]
  | JNIType.boolean_type => [NativeStore.SetBooleanArrayRegion index v]
  | JNIType.byte_type => [NativeStore.SetByteArrayRegion index v]
  | JNIType.char_type => [NativeStore.SetCharArrayRegion index v]
  | JNIType.short_type => [NativeStore.SetShortArrayRegion index v]
  | JNIType.int_type => [NativeStore.SetIntArrayRegion index v]
  | JNIType.long_type => [NativeStore.SetLongArrayRegion index v]
  | JNIType.float_type => [NativeStore.SetFloatArrayRegion index v]
  | JNIType.double_type => [NativeStore.SetDoubleArrayRegion index v]
  | _ => []

/-- A host in which object 3 is a runtime object whose `JavaInstance` holds a
null `jobject`, object 4 a runtime object holding `jobject` 400, object 5 a
runtime array holding `jobject` 500, and every other object a plain object;
`NewString` of a text of length `n` answers `jobject` 9000 + `n`. -/
def sampleHost : JNIHost where
  className := fun v =>
    match v with
    | Value.object 3 => "RuntimeObject"
    | Value.object 4 => "RuntimeObject"
    | Value.object 5 => "RuntimeArray"
    | _ => "Object"
  javaInstance := fun v =>
    match v with
    | Value.object 4 => 400
    | _ => 0
  javaArray := fun v =>
    match v with
    | Value.object 5 => 500
    | _ => 0
  toString := fun v =>
    match v with
    | Value.string s => s
    | Value.object _ => "[object]"
    | _ => ""
  toNumber := fun _ => Double.posZero
  newString := fun s => 9000 + s.length
  cast := fun _ _ => 0

end Bindings

/-! ## Theorems: the script-object adapter -/

namespace Bindings

/-- C1: `RuntimeObjectImp::get` resolves a name in this order, for every
instance and name: a field of that name gives the marshalled field value
(whether or not methods share the name); otherwise a non-empty method list
gives a callable wrapping exactly that list; otherwise, and when the instance
has no class, the result is Undefined. -/
theorem get_resolution_order (exec : ExecState) (inst : Instance) (name : Identifier) :
    (∀ cls f, inst.getClass = some cls → cls.fieldNamed name = some f →
      (RuntimeObjectImp.get exec inst name).1 = inst.toValue f (inst.fields f) ∧
      (RuntimeObjectImp.get exec inst name).1 = (inst.begin.getValueOfField exec f).1) ∧
    (∀ cls, inst.getClass = some cls → cls.fieldNamed name = none →
      0 < (cls.methodsNamed name).length →
      (RuntimeObjectImp.get exec inst name).1 =
        Value.runtimeMethod name (cls.methodsNamed name)) ∧
    (∀ cls, inst.getClass = some cls → cls.fieldNamed name = none →
      (cls.methodsNamed name).length = 0 →
      (RuntimeObjectImp.get exec inst name).1 = Value.undefined) ∧
    (inst.getClass = none → (RuntimeObjectImp.get exec inst name).1 = Value.undefined) := by
  refine ⟨?_, ?_, ?_, ?_⟩
  · intro cls f hc hf
    simp [RuntimeObjectImp.get, Instance.begin, Instance.getValueOfField, hc, hf]
  · intro cls hc hf hm
    simp [RuntimeObjectImp.get, Instance.begin, hc, hf, hm]
  · intro cls hc hf hm
    simp [RuntimeObjectImp.get, Instance.begin, hc, hf, hm]
  · intro hc
    simp [RuntimeObjectImp.get, Instance.begin, hc]

/-- On `sizeInstance`, where `size` is both a field and a method, `get`
answers the field value 3; on an instance without a class it answers
Undefined. -/
theorem get_resolution_order_witness :
    sizeInstance.getClass = some sizeClass ∧
    sizeClass.fieldNamed "size" = some { name := "size" } ∧
    0 < (sizeClass.methodsNamed "size").length ∧
    (RuntimeObjectImp.get { exception := none } sizeInstance "size").1 = Value.number 3 ∧
    (RuntimeObjectImp.get { exception := none } classlessInstance "size").1 = Value.undefined :=
  ⟨rfl, by decide, by decide,
    ((get_resolution_order { exception := none } sizeInstance "size").1 sizeClass
      { name := "size" } rfl (by decide)).1,
    (get_resolution_order { exception := none } classlessInstance "size").2.2.2 rfl⟩

/-- The calls `RuntimeObjectImp::get` makes on the instance, path by path: the
field branch logs `begin` and the field read and leaves the depth one higher;
every other branch logs `begin`, `end` and restores the depth. -/
theorem get_calls (exec : ExecState) (inst : Instance) (name : Identifier) :
    (∀ cls f, inst.getClass = some cls → cls.fieldNamed name = some f →
      (RuntimeObjectImp.get exec inst name).2.calls =
        inst.calls ++ [NativeCall.begin, NativeCall.getValueOfField f] ∧
      (RuntimeObjectImp.get exec inst name).2.beginCount = inst.beginCount + 1) ∧
    ((∀ cls, inst.getClass = some cls → cls.fieldNamed name = none) →
      (RuntimeObjectImp.get exec inst name).2.calls =
        inst.calls ++ [NativeCall.begin, NativeCall.end_] ∧
      (RuntimeObjectImp.get exec inst name).2.beginCount = inst.beginCount) := by
  constructor
  · intro cls f hc hf
    simp [RuntimeObjectImp.get, Instance.begin, Instance.getValueOfField, hc, hf]
  · intro h
    cases hc : inst.getClass with
    | none => simp [RuntimeObjectImp.get, Instance.begin, Instance.end_, hc]
    | some cls =>
      have hf := h cls hc
      by_cases hm : 0 < (cls.methodsNamed name).length
      · simp [RuntimeObjectImp.get, Instance.begin, Instance.end_, hc, hf, hm]
      · simp [RuntimeObjectImp.get, Instance.begin, Instance.end_, hc, hf, hm]

/-- With a null class, `put`, `canPut` and `hasProperty` dereference a null
pointer. -/
theorem null_class_dereferenced (exec : ExecState) (inst : Instance) (name : Identifier)
    (value : Value) (attr : Int) (hc : inst.getClass = none) :
    RuntimeObjectImp.put exec inst name value attr = none ∧
    RuntimeObjectImp.canPut exec inst name = none ∧
    RuntimeObjectImp.hasProperty exec inst name = none := by
  simp [RuntimeObjectImp.put, RuntimeObjectImp.canPut, RuntimeObjectImp.hasProperty,
    Instance.begin, hc]

/-- C2: on the field branch `RuntimeObjectImp::get` calls `begin` once and
`end` not at all, so the nesting depth after the call is one more than before:
reading `intValue` from `myInstance` logs exactly `begin, getValueOfField`
and leaves the depth at 1. -/
theorem get_field_branch_omits_end :
    myInstance.beginCount = 0 ∧
    (RuntimeObjectImp.get { exception := none } myInstance "intValue").1 = Value.number 1234 ∧
    (RuntimeObjectImp.get { exception := none } myInstance "intValue").2.calls =
      [NativeCall.begin, NativeCall.getValueOfField { name := "intValue" }] ∧
    (RuntimeObjectImp.get { exception := none } myInstance "intValue").2.calls.count
      NativeCall.end_ = 0 ∧
    (RuntimeObjectImp.get { exception := none } myInstance "intValue").2.beginCount = 1 := by
  decide

/-- C3: for an instance with a class, `RuntimeObjectImp::put` on a field name
stores the marshalled value in exactly that field, and on any other name
(a method name or a missing one) leaves the fields and the pending exception
as they were; in both cases `begin` and `end` are each called once and the
nesting depth is restored. -/
theorem put_frame (exec : ExecState) (inst : Instance) (name : Identifier) (value : Value)
    (attr : Int) (cls : Class) (hc : inst.getClass = some cls) :
    (∀ f, cls.fieldNamed name = some f →
      ∃ r, RuntimeObjectImp.put exec inst name value attr = some r ∧
        r.2.fields f = (inst.toNative f value).1 ∧
        (∀ g, g ≠ f → r.2.fields g = inst.fields g) ∧
        r.2.calls = inst.calls ++
          [NativeCall.begin, NativeCall.setValueOfField f value, NativeCall.end_] ∧
        r.2.beginCount = inst.beginCount) ∧
    (cls.fieldNamed name = none →
      ∃ r, RuntimeObjectImp.put exec inst name value attr = some r ∧
        r.1 = exec ∧
        r.2.fields = inst.fields ∧
        r.2.calls = inst.calls ++ [NativeCall.begin, NativeCall.end_] ∧
        r.2.beginCount = inst.beginCount) := by
  constructor
  · intro f hf
    refine ⟨_, by simp only [RuntimeObjectImp.put, Instance.begin, hc, hf]; rfl, ?_, ?_, ?_, ?_⟩
    · simp [Instance.setValueOfField, Instance.end_]
    · intro g hg
      simp [Instance.setValueOfField, Instance.end_, Function.update, hg]
    · simp [Instance.setValueOfField, Instance.end_]
    · simp [Instance.setValueOfField, Instance.end_]
  · intro hf
    refine ⟨_, by simp only [RuntimeObjectImp.put, Instance.begin, hc, hf]; rfl, rfl, ?_, ?_, ?_⟩
    · simp [Instance.end_]
    · simp [Instance.end_]
    · simp [Instance.end_]

/-- On `myInstance`, `put` of 5 to the field `intValue` stores 5 there, and
`put` to the method name `setIntValue` changes no field. -/
theorem put_frame_witness :
    myInstance.getClass = some myClass ∧
    (∃ r, RuntimeObjectImp.put { exception := none } myInstance "intValue" (Value.number 5) 0
        = some r ∧
      r.2.fields { name := "intValue" } = NativeValue.int 5) ∧
    (∃ r, RuntimeObjectImp.put { exception := none } myInstance "setIntValue" (Value.number 5) 0
        = some r ∧
      r.2.fields = myInstance.fields) := by
  have h := put_frame { exception := none } myInstance "intValue" (Value.number 5) 0 myClass rfl
  have h2 := put_frame { exception := none } myInstance "setIntValue" (Value.number 5) 0
    myClass rfl
  refine ⟨rfl, ?_, ?_⟩
  · obtain ⟨r, hr, hv, _⟩ := h.1 { name := "intValue" } (by decide)
    exact ⟨r, hr, by rw [hv]; rfl⟩
  · obtain ⟨r, hr, _, hv, _⟩ := h2.2 (by decide)
    exact ⟨r, hr, hv⟩

/-- C4: for an instance with a class, `canPut` answers true exactly when the
class has a field of that name, which is exactly when `put` reaches
`setValueOfField`; `hasProperty` answers true exactly when the class has a
field or at least one method of that name, and false exactly when `get` ends
in its final `return Undefined()` (after `begin` and `end`, no field read). -/
theorem canPut_hasProperty_agree (exec : ExecState) (inst : Instance) (name : Identifier)
    (v : Value) (attr : Int) (cls : Class) (hc : inst.getClass = some cls) :
    (∃ b i, RuntimeObjectImp.canPut exec inst name = some (b, i) ∧
      (b = true ↔ ∃ f, cls.fieldNamed name = some f) ∧
      (b = true ↔ ∃ f r, RuntimeObjectImp.put exec inst name v attr = some r ∧
        r.2.calls = inst.calls ++
          [NativeCall.begin, NativeCall.setValueOfField f v, NativeCall.end_])) ∧
    (∃ b i, RuntimeObjectImp.hasProperty exec inst name = some (b, i) ∧
      (b = true ↔ (∃ f, cls.fieldNamed name = some f) ∨ 0 < (cls.methodsNamed name).length) ∧
      (b = false ↔
        RuntimeObjectImp.get exec inst name = (Value.undefined, inst.begin.end_))) := by
  cases hf : cls.fieldNamed name with
  | none =>
    constructor
    · refine ⟨false, _, by simp only [RuntimeObjectImp.canPut, Instance.begin, hc, hf]; rfl,
        by simp, ?_⟩
      simp [RuntimeObjectImp.put, Instance.begin, Instance.end_, hc, hf]
    · by_cases hm : 0 < (cls.methodsNamed name).length
      · refine ⟨true, inst.begin.end_, ?_, by simp [hm], ?_⟩
        · simp [RuntimeObjectImp.hasProperty, Instance.begin, Instance.end_, hc, hf, hm]
        · simp [RuntimeObjectImp.get, Instance.begin, Instance.end_, hc, hf, hm]
      · refine ⟨false, inst.begin.end_, ?_, by simp [hm], ?_⟩
        · simp [RuntimeObjectImp.hasProperty, Instance.begin, Instance.end_, hc, hf, hm]
        · simp [RuntimeObjectImp.get, Instance.begin, Instance.end_, hc, hf, hm]
  | some f =>
    constructor
    · refine ⟨true, _, by simp only [RuntimeObjectImp.canPut, Instance.begin, hc, hf]; rfl,
        by simp, ?_⟩
      simp [RuntimeObjectImp.put, Instance.begin, Instance.end_, Instance.setValueOfField,
        hc, hf]
    · refine ⟨true, inst.begin.end_, ?_, by simp, ?_⟩
      · simp [RuntimeObjectImp.hasProperty, Instance.begin, Instance.end_, hc, hf]
      · have hne : RuntimeObjectImp.get exec inst name ≠ (Value.undefined, inst.begin.end_) := by
          intro h
          have h2 := congrArg (fun r => r.2.calls) h
          simp [RuntimeObjectImp.get, Instance.begin, Instance.end_,
            Instance.getValueOfField, hc, hf] at h2
        simp [hne]

/-- On `myInstance`: `canPut` is true for the field `intValue`, and
`hasProperty` is false for the missing name `missingMember`, for which `get`
ends in `return Undefined()`. -/
theorem canPut_hasProperty_agree_witness :
    myInstance.getClass = some myClass ∧
    (RuntimeObjectImp.canPut { exception := none } myInstance "intValue").map Prod.fst
      = some true ∧
    (RuntimeObjectImp.hasProperty { exception := none } myInstance "missingMember").map Prod.fst
      = some false ∧
    RuntimeObjectImp.get { exception := none } myInstance "missingMember"
      = (Value.undefined, myInstance.begin.end_) := by
  have h := canPut_hasProperty_agree { exception := none } myInstance "intValue"
    Value.undefined 0 myClass rfl
  have h2 := canPut_hasProperty_agree { exception := none } myInstance "missingMember"
    Value.undefined 0 myClass rfl
  refine ⟨rfl, ?_, ?_, ?_⟩
  · obtain ⟨b, i, hb, hiff, _⟩ := h.1
    rw [hb]
    simp [hiff.2 ⟨{ name := "intValue" }, by decide⟩]
  · obtain ⟨b, i, hb, hiff, _⟩ := h2.2
    have hbf : b = false := by
      cases b with
      | false => rfl
      | true =>
        rcases hiff.1 rfl with ⟨f, hf⟩ | hm
        · rw [show myClass.fieldNamed "missingMember" = none by decide] at hf
          cases hf
        · exact absurd hm (by decide)
    rw [hb]
    simp [hbf]
  · obtain ⟨b, i, hb, hiff, hget⟩ := h2.2
    have hbf : b = false := by
      cases b with
      | false => rfl
      | true =>
        rcases hiff.1 rfl with ⟨f, hf⟩ | hm
        · rw [show myClass.fieldNamed "missingMember" = none by decide] at hf
          cases hf
        · exact absurd hm (by decide)
    exact hget.1 hbf

end Bindings

/-! ## Theorems: the interpreter core -/

/-- The return at the recursion ceiling (internal.cpp:783-791). -/
theorem evaluate_ceiling (env : Env) (fuel : Nat) (w : World) (code : UString) (thisV : Value)
    (sourceURL : UString) (line : Int) (h : 20 ≤ w.recursion) :
    InterpreterImp.evaluate env (fuel + 1) w code thisV sourceURL line =
      some (Completion.mk ComplType.Throw
        (Value.error (Error.create ErrorType.GeneralError "Recursion too deep" (-1) (-1) none)),
        unlockInterpreter (lockInterpreter w)) := by
  have h2 : (lockInterpreter w).recursion ≥ 20 := h
  simp only [InterpreterImp.evaluate, h2, if_true]

/-- The return on a debugger veto (internal.cpp:800-811). -/
theorem evaluate_veto (env : Env) (fuel : Nat) (w : World) (code : UString) (thisV : Value)
    (sourceURL : UString) (line : Int) (h : ¬ 20 ≤ w.recursion)
    (hv : InterpreterImp.vetoed env w code sourceURL line = true) :
    InterpreterImp.evaluate env (fuel + 1) w code thisV sourceURL line =
      some (Completion.mk ComplType.Break Value.absent,
        unlockInterpreter (InterpreterImp.parsed env w code sourceURL line)) := by
  have h2 : ¬ (lockInterpreter w).recursion ≥ 20 := h
  simp only [InterpreterImp.vetoed] at hv
  simp only [InterpreterImp.evaluate, h2, if_false, hv, if_true]
  rfl

/-- The return on a syntax error (internal.cpp:814-821). -/
theorem evaluate_syntaxError (env : Env) (fuel : Nat) (w : World) (code : UString) (thisV : Value)
    (sourceURL : UString) (line : Int) (h : ¬ 20 ≤ w.recursion)
    (hv : InterpreterImp.vetoed env w code sourceURL line = false)
    (hp : (Parser.parse env (lockInterpreter w) sourceURL line code).1.progNode = none) :
    InterpreterImp.evaluate env (fuel + 1) w code thisV sourceURL line =
      some (Completion.mk ComplType.Throw (Value.error
          ((Error.create ErrorType.SyntaxError
            (Parser.parse env (lockInterpreter w) sourceURL line code).1.errMsg
            (Parser.parse env (lockInterpreter w) sourceURL line code).1.errLine (-1)
            (some sourceURL)).put "sid"
            (Parser.parse env (lockInterpreter w) sourceURL line code).1.sourceId)),
        unlockInterpreter (InterpreterImp.parsed env w code sourceURL line)) := by
  have h2 : ¬ (lockInterpreter w).recursion ≥ 20 := h
  simp only [InterpreterImp.vetoed] at hv
  simp only [InterpreterImp.evaluate, h2, if_false, hv, hp, Bool.false_eq_true]
  rfl

/-- The return when resolving `this` raised (internal.cpp:841-845, 853-860). -/
theorem evaluate_thisException (env : Env) (fuel : Nat) (w : World) (code : UString)
    (thisV : Value) (sourceURL : UString) (line : Int) (prog : ProgramNode)
    (h : ¬ 20 ≤ w.recursion)
    (hv : InterpreterImp.vetoed env w code sourceURL line = false)
    (hp : (Parser.parse env (lockInterpreter w) sourceURL line code).1.progNode = some prog)
    (he : (InterpreterImp.entered env w code thisV sourceURL line).globExec.hadException = true) :
    InterpreterImp.evaluate env (fuel + 1) w code thisV sourceURL line =
      some (Completion.mk ComplType.Throw
          ((InterpreterImp.entered env w code thisV sourceURL line).globExec.exception.getD
            Value.absent),
        unlockInterpreter
          { (InterpreterImp.entered env w code thisV sourceURL line) with
            recursion := (InterpreterImp.entered env w code thisV sourceURL line).recursion - 1 }) := by
  have h2 : ¬ (lockInterpreter w).recursion ≥ 20 := h
  simp only [InterpreterImp.vetoed] at hv
  simp only [InterpreterImp.entered, InterpreterImp.counted, InterpreterImp.parsed] at he
  simp only [InterpreterImp.evaluate, h2, if_false, hv, hp, he, if_true, Bool.false_eq_true]
  rfl

/-- The return after the program was executed (internal.cpp:846-860). -/
theorem evaluate_execute (env : Env) (fuel : Nat) (w : World) (code : UString)
    (thisV : Value) (sourceURL : UString) (line : Int) (prog : ProgramNode)
    (h : ¬ 20 ≤ w.recursion)
    (hv : InterpreterImp.vetoed env w code sourceURL line = false)
    (hp : (Parser.parse env (lockInterpreter w) sourceURL line code).1.progNode = some prog)
    (he : (InterpreterImp.entered env w code thisV sourceURL line).globExec.hadException = false) :
    InterpreterImp.evaluate env (fuel + 1) w code thisV sourceURL line =
      match prog.execute (fun w1 call => InterpreterImp.evaluate env fuel w1 call.code call.thisV
          call.sourceURL call.startingLineNumber)
          (InterpreterImp.running env w code thisV sourceURL line) with
      | none => none
      | some r => some (r.1, unlockInterpreter
          { { r.2 with context := none } with recursion := r.2.recursion - 1 }) := by
  have h2 : ¬ (lockInterpreter w).recursion ≥ 20 := h
  simp only [InterpreterImp.vetoed] at hv
  simp only [InterpreterImp.entered, InterpreterImp.counted, InterpreterImp.parsed] at he
  simp only [InterpreterImp.evaluate, h2, if_false, hv, hp, he, Bool.false_eq_true]
  rfl

theorem Bracketed.append {a b : List Event} (ha : Bracketed a) (hb : Bracketed b) :
    Bracketed (a ++ b) := by
  induction ha with
  | nil => simpa using hb
  | other e l h1 h2 _ ih => exact Bracketed.other e (l ++ b) h1 h2 ih
  | call inner rest hi _ _ ih2 =>
    have := Bracketed.call inner (rest ++ b) hi ih2
    simpa [List.append_assoc] using this

theorem Bracketed.of_quiet {l : List Event} (h : ∀ e ∈ l, e.quiet = true) : Bracketed l := by
  induction l with
  | nil => exact Bracketed.nil
  | cons e l ih =>
    have he := h e (List.mem_cons_self e l)
    refine Bracketed.other e l ?_ ?_ (ih (fun x hx => h x (List.mem_cons_of_mem e hx)))
    · rintro rfl; simp [Event.quiet] at he
    · rintro rfl; simp [Event.quiet] at he

theorem not_execute_of_quiet {l : List Event} (h : ∀ e ∈ l, e.quiet = true) (d : Int)
    (t : Value) : Event.execute d t ∉ l := by
  intro hm
  have := h _ hm
  simp [Event.quiet] at this

theorem Kept.refl (w : World) : Kept w w [] :=
  ⟨rfl, rfl, rfl, rfl, by simp, Bracketed.nil, by simp⟩

theorem Kept.trans {w w1 w2 : World} {a b : List Event} (h1 : Kept w w1 a) (h2 : Kept w1 w2 b) :
    Kept w w2 (a ++ b) where
  recursion := h2.recursion.trans h1.recursion
  lockCount := h2.lockCount.trans h1.lockCount
  dbg := h2.dbg.trans h1.dbg
  global := h2.global.trans h1.global
  events := by rw [h2.events, h1.events, List.append_assoc]
  bracketed := h1.bracketed.append h2.bracketed
  depth := by
    intro d t hm
    rcases List.mem_append.1 hm with hm | hm
    · exact h1.depth d t hm
    · have := h2.depth d t hm
      rw [h1.recursion] at this
      exact this

/-- Executing a program keeps what each nested evaluation keeps. -/
theorem execute_kept (ev : World → EvalCall → Option (Completion × World))
    (hev : ∀ w call r, ev w call = some r → ∃ new, Kept w r.2 new) :
    ∀ (prog : ProgramNode) (w : World) (r : Completion × World),
      prog.execute ev w = some r → ∃ new, Kept w r.2 new := by
  intro prog
  induction prog with
  | done c =>
    intro w r h
    simp only [ProgramNode.execute, Option.some.injEq] at h
    subst h
    exact ⟨[], Kept.refl w⟩
  | evaluate call k ih =>
    intro w r h
    simp only [ProgramNode.execute] at h
    cases hc : ev w call with
    | none => simp [hc] at h
    | some r1 =>
      simp only [hc] at h
      obtain ⟨a, ha⟩ := hev w call r1 hc
      obtain ⟨b, hb⟩ := ih r1.1 r1.2 r h
      exact ⟨a ++ b, ha.trans hb⟩

/-- Executing a program returns when every nested evaluation returns. -/
theorem execute_returns (ev : World → EvalCall → Option (Completion × World)) (ρ : Int)
    (hret : ∀ w call, w.recursion = ρ → ∃ r, ev w call = some r)
    (hrec : ∀ w call r, ev w call = some r → r.2.recursion = w.recursion) :
    ∀ (prog : ProgramNode) (w : World), w.recursion = ρ → ∃ r, prog.execute ev w = some r := by
  intro prog
  induction prog with
  | done c =>
    intro w _
    exact ⟨(c, w), rfl⟩
  | evaluate call k ih =>
    intro w hw
    obtain ⟨r1, h1⟩ := hret w call hw
    have h2 := hrec w call r1 h1
    obtain ⟨r, hr⟩ := ih r1.1 r1.2 (h2.trans hw)
    exact ⟨r, by simp only [ProgramNode.execute, h1, hr]⟩

theorem parse_snd (env : Env) (w : World) (sourceURL : UString) (line : Int) (code : UString) :
    (Parser.parse env w sourceURL line code).2 =
      { w with sid := -1, events := w.events ++ [Event.parse sourceURL line code] } := by
  simp only [Parser.parse, World.log]
  split <;> rfl

theorem parse_sourceId (env : Env) (w : World) (sourceURL : UString) (line : Int)
    (code : UString) : (Parser.parse env w sourceURL line code).1.sourceId = w.sid + 1 := by
  simp only [Parser.parse, World.log]
  split <;> rfl

theorem parsed_opened (env : Env) (w : World) (code : UString) (sourceURL : UString)
    (line : Int) :
    ∃ pre, Opened w (InterpreterImp.parsed env w code sourceURL line) 0
      (Event.parse sourceURL line code :: pre) := by
  cases hd : w.dbg with
  | none =>
    refine ⟨[], ?_⟩
    constructor <;>
      simp [InterpreterImp.parsed, parse_snd, lockInterpreter, hd, World.log, Event.quiet]
  | some d =>
    refine ⟨[Event.sourceParsed
      (Parser.parse env (lockInterpreter w) sourceURL line code).1.sourceId code
      (Parser.parse env (lockInterpreter w) sourceURL line code).1.errLine], ?_⟩
    constructor <;>
      simp [InterpreterImp.parsed, parse_snd, lockInterpreter, hd, World.log, Event.quiet]

theorem thisObject_quiet (env : Env) (w : World) (thisV : Value) :
    (InterpreterImp.thisObject env w thisV).2.recursion = w.recursion ∧
    (InterpreterImp.thisObject env w thisV).2.interpreterLockCount = w.interpreterLockCount ∧
    (InterpreterImp.thisObject env w thisV).2.dbg = w.dbg ∧
    (InterpreterImp.thisObject env w thisV).2.global = w.global ∧
    ∃ pre, (InterpreterImp.thisObject env w thisV).2.events = w.events ++ pre ∧
      ∀ e ∈ pre, e.quiet = true := by
  unfold InterpreterImp.thisObject
  split_ifs
  · exact ⟨rfl, rfl, rfl, rfl, [], by simp, by simp⟩
  · exact ⟨rfl, rfl, rfl, rfl, [Event.toObject thisV], rfl, by simp [Event.quiet]⟩
  · exact ⟨rfl, rfl, rfl, rfl, [], by simp, by simp⟩

theorem entered_opened (env : Env) (w : World) (code : UString) (thisV : Value)
    (sourceURL : UString) (line : Int) :
    ∃ pre, Opened w (InterpreterImp.entered env w code thisV sourceURL line) 1
      (Event.parse sourceURL line code :: pre) := by
  obtain ⟨pre, hp⟩ := parsed_opened env w code sourceURL line
  obtain ⟨h1, h2, h3, h4, pre2, h5, h6⟩ := thisObject_quiet env
    (InterpreterImp.counted env w code sourceURL line) thisV
  refine ⟨pre ++ pre2, ?_⟩
  constructor
  · rw [InterpreterImp.entered, h1]; simp [InterpreterImp.counted, hp.recursion]
  · rw [InterpreterImp.entered, h2]; simp [InterpreterImp.counted, hp.lockCount]
  · rw [InterpreterImp.entered, h3]; simp [InterpreterImp.counted, hp.dbg]
  · rw [InterpreterImp.entered, h4]; simp [InterpreterImp.counted, hp.global]
  · rw [InterpreterImp.entered, h5]; simp [InterpreterImp.counted, hp.events]
  · intro e he
    rcases List.mem_cons.1 he with he | he
    · subst he; rfl
    · rcases List.mem_append.1 he with he | he
      · exact hp.quiet e (List.mem_cons_of_mem _ he)
      · exact h6 e he

theorem running_opened (env : Env) (w : World) (code : UString) (thisV : Value)
    (sourceURL : UString) (line : Int) :
    ∃ pre, (∀ e ∈ pre, e.quiet = true) ∧
      (InterpreterImp.running env w code thisV sourceURL line).recursion = w.recursion + 1 ∧
      (InterpreterImp.running env w code thisV sourceURL line).interpreterLockCount
        = w.interpreterLockCount + 1 ∧
      (InterpreterImp.running env w code thisV sourceURL line).dbg = w.dbg ∧
      (InterpreterImp.running env w code thisV sourceURL line).global = w.global ∧
      (InterpreterImp.running env w code thisV sourceURL line).events = w.events ++
        Event.lockInterpreter :: (Event.parse sourceURL line code :: pre ++
          [Event.execute (w.recursion + 1) w.global]) := by
  obtain ⟨pre, hp⟩ := entered_opened env w code thisV sourceURL line
  obtain ⟨pre0, hp0⟩ := parsed_opened env w code sourceURL line
  have hq : ∀ e ∈ pre, e.quiet = true := fun e he => hp.quiet e (List.mem_cons_of_mem _ he)
  refine ⟨pre, hq, ?_, ?_, ?_, ?_, ?_⟩
  · simp [InterpreterImp.running, World.log, hp.recursion]
  · simp [InterpreterImp.running, World.log, hp.lockCount]
  · simp [InterpreterImp.running, World.log, hp.dbg]
  · simp [InterpreterImp.running, World.log, hp.global]
  · have hg : (ContextImp.create (InterpreterImp.counted env w code sourceURL line).global
        (InterpreterImp.thisObject env (InterpreterImp.counted env w code sourceURL line)
          thisV).1 CodeType.GlobalCode none [] Value.absent).thisValue = w.global := by
      show (InterpreterImp.counted env w code sourceURL line).global = w.global
      simp [InterpreterImp.counted, hp0.global]
    simp [InterpreterImp.running, World.log, hp.events, hp.recursion, hg]

theorem Framed.kept {w w1 : World} {sourceURL : UString} {line : Int} {code : UString}
    {mid : List Event} (h : Framed w w1 sourceURL line code mid) :
    Kept w w1 (Event.lockInterpreter :: (mid ++ [Event.unlockInterpreter])) where
  recursion := h.recursion
  lockCount := h.lockCount
  dbg := h.dbg
  global := h.global
  events := h.events
  bracketed := Bracketed.call mid [] h.bracketed Bracketed.nil
  depth := by
    intro d t hm
    simp only [List.mem_cons, List.mem_append, List.mem_singleton, reduceCtorEq, false_or,
      or_false, List.not_mem_nil] at hm
    exact h.depth d t hm

theorem Opened.framed {w w1 : World} {sourceURL : UString} {line : Int} {code : UString}
    {k : Int} {pre : List Event} (h : Opened w w1 k (Event.parse sourceURL line code :: pre))
    (hlt : ¬ 20 ≤ w.recursion) :
    Framed w (unlockInterpreter { w1 with recursion := w1.recursion - k }) sourceURL line code
      (Event.parse sourceURL line code :: pre) where
  recursion := by simp [unlockInterpreter, h.recursion]
  lockCount := by simp [unlockInterpreter, h.lockCount]
  dbg := by simp [unlockInterpreter, h.dbg]
  global := by simp [unlockInterpreter, h.global]
  events := by simp [unlockInterpreter, h.events]
  bracketed := Bracketed.of_quiet h.quiet
  depth := fun d t hm => absurd hm (not_execute_of_quiet h.quiet d t)
  entry := Or.inr ⟨by omega, pre, rfl⟩
  idle := fun _ => h.quiet

/-- Every returned call of `evaluate` is framed by one lock and one unlock and
restores the counters. -/
theorem evaluate_framed (env : Env) :
    ∀ (fuel : Nat) (w : World) (code : UString) (thisV : Value) (sourceURL : UString)
      (line : Int) (r : Completion × World),
      InterpreterImp.evaluate env fuel w code thisV sourceURL line = some r →
      ∃ mid, Framed w r.2 sourceURL line code mid := by
  intro fuel
  induction fuel with
  | zero =>
    intro w code thisV sourceURL line r h
    simp [InterpreterImp.evaluate] at h
  | succ fuel ih =>
    intro w code thisV sourceURL line r h
    by_cases hc : 20 ≤ w.recursion
    · rw [evaluate_ceiling env fuel w code thisV sourceURL line hc] at h
      simp only [Option.some.injEq] at h
      subst h
      refine ⟨[], ?_⟩
      constructor <;> simp [unlockInterpreter, lockInterpreter, hc, Bracketed.nil]
    · cases hv : InterpreterImp.vetoed env w code sourceURL line with
      | true =>
        rw [evaluate_veto env fuel w code thisV sourceURL line hc hv] at h
        simp only [Option.some.injEq] at h
        subst h
        obtain ⟨pre, hp⟩ := parsed_opened env w code sourceURL line
        exact ⟨_, by simpa using hp.framed hc⟩
      | false =>
        cases hp : (Parser.parse env (lockInterpreter w) sourceURL line code).1.progNode with
        | none =>
          rw [evaluate_syntaxError env fuel w code thisV sourceURL line hc hv hp] at h
          simp only [Option.some.injEq] at h
          subst h
          obtain ⟨pre, hp⟩ := parsed_opened env w code sourceURL line
          exact ⟨_, by simpa using hp.framed hc⟩
        | some prog =>
          cases he : (InterpreterImp.entered env w code thisV sourceURL
              line).globExec.hadException with
          | true =>
            rw [evaluate_thisException env fuel w code thisV sourceURL line prog hc hv hp he] at h
            simp only [Option.some.injEq] at h
            subst h
            obtain ⟨pre, hp⟩ := entered_opened env w code thisV sourceURL line
            exact ⟨_, hp.framed hc⟩
          | false =>
            rw [evaluate_execute env fuel w code thisV sourceURL line prog hc hv hp he] at h
            cases hx : prog.execute (fun w1 call => InterpreterImp.evaluate env fuel w1
                call.code call.thisV call.sourceURL call.startingLineNumber)
                (InterpreterImp.running env w code thisV sourceURL line) with
            | none => simp [hx] at h
            | some r0 =>
              simp only [hx, Option.some.injEq] at h
              subst h
              obtain ⟨new, hk⟩ := execute_kept _
                (fun w1 call r1 h1 =>
                  let ⟨mid, hm⟩ := ih w1 call.code call.thisV call.sourceURL
                    call.startingLineNumber r1 h1
                  ⟨_, hm.kept⟩) prog _ r0 hx
              obtain ⟨pre, hq, h1, h2, h3, h4, h5⟩ :=
                running_opened env w code thisV sourceURL line
              refine ⟨Event.parse sourceURL line code :: pre ++
                [Event.execute (w.recursion + 1) w.global] ++ new, ?_⟩
              constructor
              · simp [unlockInterpreter, hk.recursion, h1]
              · simp [unlockInterpreter, hk.lockCount, h2]
              · simp [unlockInterpreter, hk.dbg, h3]
              · simp [unlockInterpreter, hk.global, h4]
              · simp [unlockInterpreter, hk.events, h5]
              · refine Bracketed.append (Bracketed.append (Bracketed.of_quiet ?_) ?_) hk.bracketed
                · intro e he
                  rcases List.mem_cons.1 he with he | he
                  · subst he; rfl
                  · exact hq e he
                · exact Bracketed.other _ _ (by simp) (by simp) Bracketed.nil
              · intro d t hm
                rcases List.mem_append.1 hm with hm | hm
                · rcases List.mem_append.1 hm with hm | hm
                  · rcases List.mem_cons.1 hm with hm | hm
                    · cases hm
                    · exact absurd hm (not_execute_of_quiet hq d t)
                  · simp only [List.mem_singleton, Event.execute.injEq] at hm
                    omega
                · have := hk.depth d t hm
                  rw [h1] at this
                  omega
              · exact Or.inr ⟨by omega,
                  pre ++ [Event.execute (w.recursion + 1) w.global] ++ new, by simp⟩
              · intro hn
                exact absurd (by simp) (hn (w.recursion + 1) w.global)

/-- A call of `evaluate` returns as soon as the model may follow nested calls
up to the recursion ceiling. -/
theorem evaluate_returns (env : Env) :
    ∀ (fuel : Nat) (w : World) (code : UString) (thisV : Value) (sourceURL : UString)
      (line : Int), 20 ≤ fuel + w.recursion →
      ∃ r, InterpreterImp.evaluate env (fuel + 1) w code thisV sourceURL line = some r := by
  intro fuel
  induction fuel with
  | zero =>
    intro w code thisV sourceURL line h
    exact ⟨_, evaluate_ceiling env 0 w code thisV sourceURL line (by simpa using h)⟩
  | succ fuel ih =>
    intro w code thisV sourceURL line h
    by_cases hc : 20 ≤ w.recursion
    · exact ⟨_, evaluate_ceiling env _ w code thisV sourceURL line hc⟩
    · cases hv : InterpreterImp.vetoed env w code sourceURL line with
      | true => exact ⟨_, evaluate_veto env _ w code thisV sourceURL line hc hv⟩
      | false =>
        cases hp : (Parser.parse env (lockInterpreter w) sourceURL line code).1.progNode with
        | none => exact ⟨_, evaluate_syntaxError env _ w code thisV sourceURL line hc hv hp⟩
        | some prog =>
          cases he : (InterpreterImp.entered env w code thisV sourceURL
              line).globExec.hadException with
          | true =>
            exact ⟨_, evaluate_thisException env _ w code thisV sourceURL line prog hc hv hp he⟩
          | false =>
            rw [evaluate_execute env _ w code thisV sourceURL line prog hc hv hp he]
            obtain ⟨pre, hq, h1, h2, h3, h4, h5⟩ :=
              running_opened env w code thisV sourceURL line
            obtain ⟨r0, hr0⟩ := execute_returns
              (fun w1 call => InterpreterImp.evaluate env (fuel + 1) w1 call.code call.thisV
                call.sourceURL call.startingLineNumber) (w.recursion + 1)
              (fun w1 call hw => ih w1 call.code call.thisV call.sourceURL
                call.startingLineNumber (by rw [hw]; push_cast at h ⊢; omega))
              (fun w1 call r1 hr1 =>
                let ⟨mid, hm⟩ := evaluate_framed env _ w1 call.code call.thisV call.sourceURL
                  call.startingLineNumber r1 hr1
                hm.recursion) prog _ h1
            exact ⟨_, by rw [hr0]⟩

/-- C5: `InterpreterImp::evaluate` has a recursion ceiling of 20.  Entered
with the counter at 20 (or above) it returns a Throw of a GeneralError
"Recursion too deep" and changes nothing but the log, which gains one
`lockInterpreter` and one `unlockInterpreter`: nothing is parsed or executed.
Entered with the counter at most 19 it is not rejected: it returns, and the
first thing it does under the lock is to parse the source. -/
theorem evaluate_recursion_ceiling (env : Env) (fuel : Nat) (w : World) (code : UString)
    (thisV : Value) (sourceURL : UString) (line : Int) :
    (20 ≤ w.recursion →
      InterpreterImp.evaluate env (fuel + 1) w code thisV sourceURL line =
        some (Completion.mk ComplType.Throw
          (Value.error { errtype := ErrorType.GeneralError, message := "Recursion too deep",
                         lineno := -1, sourceId := -1, sourceURL := none, props := [] }),
          { w with events := w.events ++
              [Event.lockInterpreter, Event.unlockInterpreter] })) ∧
    (w.recursion ≤ 19 → 20 ≤ fuel + w.recursion →
      ∃ r rest, InterpreterImp.evaluate env (fuel + 1) w code thisV sourceURL line = some r ∧
        r.2.events = w.events ++
          Event.lockInterpreter :: Event.parse sourceURL line code :: rest) := by
  constructor
  · intro h
    rw [evaluate_ceiling env fuel w code thisV sourceURL line h]
    simp [unlockInterpreter, lockInterpreter, Error.create]
  · intro h hf
    obtain ⟨r, hr⟩ := evaluate_returns env fuel w code thisV sourceURL line hf
    obtain ⟨mid, hm⟩ := evaluate_framed env _ w code thisV sourceURL line r hr
    rcases hm.entry with ⟨h20, _⟩ | ⟨_, rest, hrest⟩
    · omega
    · exact ⟨r, rest ++ [Event.unlockInterpreter], hr, by rw [hm.events, hrest]; simp⟩

/-- With the counter at 20 the sample interpreter answers "Recursion too deep"
and parses nothing; with the counter at 19 the source `1` is parsed. -/
theorem evaluate_recursion_ceiling_witness :
    InterpreterImp.evaluate sampleEnv 21 { sampleWorld with recursion := 20 } "1"
        Value.absent "" 0 =
      some (Completion.mk ComplType.Throw
        (Value.error { errtype := ErrorType.GeneralError, message := "Recursion too deep",
                       lineno := -1, sourceId := -1, sourceURL := none, props := [] }),
        { { sampleWorld with recursion := 20 } with
          events := { sampleWorld with recursion := 20 }.events ++
            [Event.lockInterpreter, Event.unlockInterpreter] }) ∧
    (∃ r rest, InterpreterImp.evaluate sampleEnv 21 { sampleWorld with recursion := 19 } "1"
        Value.absent "" 0 = some r ∧
      r.2.events = { sampleWorld with recursion := 19 }.events ++
        Event.lockInterpreter :: Event.parse "" 0 "1" :: rest) ∧
    (InterpreterImp.evaluate sampleEnv 21 { sampleWorld with recursion := 19 } "1"
        Value.absent "" 0).map Prod.fst =
      some (Completion.mk ComplType.Normal (Value.number 1)) :=
  ⟨(evaluate_recursion_ceiling sampleEnv 20 { sampleWorld with recursion := 20 } "1"
      Value.absent "" 0).1 (by decide),
   (evaluate_recursion_ceiling sampleEnv 20 { sampleWorld with recursion := 19 } "1"
      Value.absent "" 0).2 (by decide) (by decide),
   by decide⟩

/-- C6: the nesting counter does not leak.  Every call of
`InterpreterImp::evaluate` returns (the model following nested calls up to the
ceiling), on whichever path, with `recursion` equal to its value at entry; and
every program executed during the call, at any depth of nesting, runs with the
counter above the entry value and at most 20, so a counter that starts between
0 and 20 stays there. -/
theorem evaluate_counter_restored (env : Env) (fuel : Nat) (w : World) (code : UString)
    (thisV : Value) (sourceURL : UString) (line : Int) (hf : 20 ≤ fuel + w.recursion) :
    ∃ r new, InterpreterImp.evaluate env (fuel + 1) w code thisV sourceURL line = some r ∧
      r.2.recursion = w.recursion ∧
      r.2.events = w.events ++ new ∧
      (∀ d t, Event.execute d t ∈ new → w.recursion < d ∧ d ≤ 20) ∧
      (0 ≤ w.recursion → w.recursion ≤ 20 →
        (0 ≤ r.2.recursion ∧ r.2.recursion ≤ 20) ∧
        ∀ d t, Event.execute d t ∈ new → 0 ≤ d ∧ d ≤ 20) := by
  obtain ⟨r, hr⟩ := evaluate_returns env fuel w code thisV sourceURL line hf
  obtain ⟨mid, hm⟩ := evaluate_framed env _ w code thisV sourceURL line r hr
  have hk := hm.kept
  refine ⟨r, _, hr, hk.recursion, hk.events, hk.depth, ?_⟩
  intro h0 h20
  refine ⟨by rw [hk.recursion]; exact ⟨h0, h20⟩, ?_⟩
  intro d t hd
  have := hk.depth d t hd
  omega

/-- The sample source `loop`, which evaluates itself until the ceiling stops
it, returns with the counter back at 0. -/
theorem evaluate_counter_restored_witness :
    (20 : Int) ≤ (20 : Nat) + sampleWorld.recursion ∧
    ∃ r new, InterpreterImp.evaluate sampleEnv 21 sampleWorld "loop" Value.absent "" 0
        = some r ∧
      r.2.recursion = sampleWorld.recursion ∧
      r.2.events = sampleWorld.events ++ new ∧
      (∀ d t, Event.execute d t ∈ new → sampleWorld.recursion < d ∧ d ≤ 20) ∧
      (0 ≤ sampleWorld.recursion → sampleWorld.recursion ≤ 20 →
        (0 ≤ r.2.recursion ∧ r.2.recursion ≤ 20) ∧
        ∀ d t, Event.execute d t ∈ new → 0 ≤ d ∧ d ≤ 20) :=
  ⟨by decide,
   evaluate_counter_restored sampleEnv 20 sampleWorld "loop" Value.absent "" 0 (by decide)⟩

/-- C7: `InterpreterImp::evaluate` releases the interpreter lock on every exit
path.  Every call returns with `interpreterLockCount` equal to its value at
entry; what the call logs is one `lockInterpreter`, then `mid`, then one
`unlockInterpreter`, where the locks and unlocks inside `mid` are the matched
pairs of nested calls; and on the paths that execute no program (ceiling,
veto, syntax error, exception from `this`) `mid` holds no lock or unlock at
all. -/
theorem evaluate_lock_released (env : Env) (fuel : Nat) (w : World) (code : UString)
    (thisV : Value) (sourceURL : UString) (line : Int) (hf : 20 ≤ fuel + w.recursion) :
    ∃ r mid, InterpreterImp.evaluate env (fuel + 1) w code thisV sourceURL line = some r ∧
      r.2.interpreterLockCount = w.interpreterLockCount ∧
      r.2.events = w.events ++
        Event.lockInterpreter :: (mid ++ [Event.unlockInterpreter]) ∧
      Bracketed mid ∧
      ((∀ d t, Event.execute d t ∉ mid) →
        Event.lockInterpreter ∉ mid ∧ Event.unlockInterpreter ∉ mid) := by
  obtain ⟨r, hr⟩ := evaluate_returns env fuel w code thisV sourceURL line hf
  obtain ⟨mid, hm⟩ := evaluate_framed env _ w code thisV sourceURL line r hr
  refine ⟨r, mid, hr, hm.lockCount, hm.events, hm.bracketed, ?_⟩
  intro hn
  have hq := hm.idle hn
  constructor
  · intro hmem
    have := hq _ hmem
    simp [Event.quiet] at this
  · intro hmem
    have := hq _ hmem
    simp [Event.quiet] at this

/-- The sample source `nested`, which evaluates `1` once, returns with the
lock count back at 0. -/
theorem evaluate_lock_released_witness :
    (20 : Int) ≤ (20 : Nat) + sampleWorld.recursion ∧
    ∃ r mid, InterpreterImp.evaluate sampleEnv 21 sampleWorld "nested" Value.absent "" 0
        = some r ∧
      r.2.interpreterLockCount = sampleWorld.interpreterLockCount ∧
      r.2.events = sampleWorld.events ++
        Event.lockInterpreter :: (mid ++ [Event.unlockInterpreter]) ∧
      Bracketed mid ∧
      ((∀ d t, Event.execute d t ∉ mid) →
        Event.lockInterpreter ∉ mid ∧ Event.unlockInterpreter ∉ mid) :=
  ⟨by decide,
   evaluate_lock_released sampleEnv 20 sampleWorld "nested" Value.absent "" 0 (by decide)⟩

/-- C8: when the call is not stopped at the ceiling, the parser returns no tree
and no debugger vetoes, `InterpreterImp::evaluate` returns a Throw whose value
is a SyntaxError built from the parser's message and line, carrying the
property `sid` equal to the source id the parser reported for this parse (one
more than `Parser::sid` at entry); no program is executed and the counter is
unchanged. -/
theorem evaluate_syntax_error (env : Env) (fuel : Nat) (w : World) (code : UString)
    (thisV : Value) (sourceURL : UString) (line : Int) (hc : w.recursion < 20)
    (hv : InterpreterImp.vetoed env w code sourceURL line = false)
    (hp : (Parser.parse env (lockInterpreter w) sourceURL line code).1.progNode = none) :
    ∃ e w1 pre,
      InterpreterImp.evaluate env (fuel + 1) w code thisV sourceURL line =
        some (Completion.mk ComplType.Throw (Value.error e), w1) ∧
      e.errtype = ErrorType.SyntaxError ∧
      e.message = (Parser.parse env (lockInterpreter w) sourceURL line code).1.errMsg ∧
      e.lineno = (Parser.parse env (lockInterpreter w) sourceURL line code).1.errLine ∧
      e.get "sid" = some (Parser.parse env (lockInterpreter w) sourceURL line code).1.sourceId ∧
      (Parser.parse env (lockInterpreter w) sourceURL line code).1.sourceId = w.sid + 1 ∧
      w1.recursion = w.recursion ∧
      w1.events = w.events ++ Event.lockInterpreter :: Event.parse sourceURL line code ::
        (pre ++ [Event.unlockInterpreter]) ∧
      ∀ d t, Event.execute d t ∉ pre := by
  have hc2 : ¬ 20 ≤ w.recursion := by omega
  obtain ⟨pre, ho⟩ := parsed_opened env w code sourceURL line
  refine ⟨_, _, pre, evaluate_syntaxError env fuel w code thisV sourceURL line hc2 hv hp,
    rfl, rfl, rfl, ?_, ?_, ?_, ?_, ?_⟩
  · simp [ErrorInstance.get, ErrorInstance.put]
  · rw [parse_sourceId]; rfl
  · simp [unlockInterpreter, ho.recursion]
  · simp [unlockInterpreter, ho.events]
  · exact fun d t => not_execute_of_quiet
      (fun x hx => ho.quiet x (List.mem_cons_of_mem _ hx)) d t

/-- On the fresh sample interpreter the source `(` is a parse error on line 3:
the SyntaxError carries `sid` 1. -/
theorem evaluate_syntax_error_witness :
    sampleWorld.recursion < 20 ∧
    InterpreterImp.vetoed sampleEnv sampleWorld "(" "file.js" 1 = false ∧
    (Parser.parse sampleEnv (lockInterpreter sampleWorld) "file.js" 1 "(").1.progNode = none ∧
    ∃ e w1 pre,
      InterpreterImp.evaluate sampleEnv 1 sampleWorld "(" Value.absent "file.js" 1 =
        some (Completion.mk ComplType.Throw (Value.error e), w1) ∧
      e.errtype = ErrorType.SyntaxError ∧
      e.message = (Parser.parse sampleEnv (lockInterpreter sampleWorld) "file.js" 1 "(").1.errMsg ∧
      e.lineno = (Parser.parse sampleEnv (lockInterpreter sampleWorld) "file.js" 1 "(").1.errLine ∧
      e.get "sid" =
        some (Parser.parse sampleEnv (lockInterpreter sampleWorld) "file.js" 1 "(").1.sourceId ∧
      (Parser.parse sampleEnv (lockInterpreter sampleWorld) "file.js" 1 "(").1.sourceId
        = sampleWorld.sid + 1 ∧
      w1.recursion = sampleWorld.recursion ∧
      w1.events = sampleWorld.events ++ Event.lockInterpreter :: Event.parse "file.js" 1 "(" ::
        (pre ++ [Event.unlockInterpreter]) ∧
      ∀ d t, Event.execute d t ∉ pre :=
  ⟨by decide, by decide, rfl,
   evaluate_syntax_error sampleEnv 0 sampleWorld "(" Value.absent "file.js" 1 (by decide)
     (by decide) rfl⟩

/-- C9: when the call is not stopped at the ceiling, a debugger is attached and
its `sourceParsed` answers false, `InterpreterImp::evaluate` returns a
completion of type Break (with no value) whether or not the source parsed: the
log gains the lock, the parse, the notification and the unlock, no program is
executed, and the counter is unchanged. -/
theorem evaluate_debugger_veto (env : Env) (fuel : Nat) (w : World) (code : UString)
    (thisV : Value) (sourceURL : UString) (line : Int) (dbg : Debugger)
    (hc : w.recursion < 20) (hd : w.dbg = some dbg)
    (hv : dbg.sourceParsed (w.sid + 1) code
      (Parser.parse env (lockInterpreter w) sourceURL line code).1.errLine = false) :
    ∃ w1, InterpreterImp.evaluate env (fuel + 1) w code thisV sourceURL line =
        some (Completion.mk ComplType.Break Value.absent, w1) ∧
      ComplType.Break ≠ ComplType.Throw ∧
      w1.recursion = w.recursion ∧
      w1.events = w.events ++
        [Event.lockInterpreter, Event.parse sourceURL line code,
         Event.sourceParsed (w.sid + 1) code
           (Parser.parse env (lockInterpreter w) sourceURL line code).1.errLine,
         Event.unlockInterpreter] := by
  have hc2 : ¬ 20 ≤ w.recursion := by omega
  have hd2 : (Parser.parse env (lockInterpreter w) sourceURL line code).2.dbg = some dbg := by
    rw [parse_snd]; exact hd
  have hs : (Parser.parse env (lockInterpreter w) sourceURL line code).1.sourceId
      = w.sid + 1 := by
    rw [parse_sourceId]; rfl
  have hveto : InterpreterImp.vetoed env w code sourceURL line = true := by
    simp only [InterpreterImp.vetoed, hd2, hs, hv]
    rfl
  refine ⟨_, evaluate_veto env fuel w code thisV sourceURL line hc2 hveto, by decide, ?_, ?_⟩
  · simp [InterpreterImp.parsed, parse_snd, lockInterpreter, hd, World.log, unlockInterpreter]
  · simp [InterpreterImp.parsed, parse_snd, parse_sourceId, lockInterpreter, hd, World.log,
      unlockInterpreter]

/-- With `vetoDebugger` attached to the sample interpreter, the well-formed
source `1` is answered with Break. -/
theorem evaluate_debugger_veto_witness :
    sampleWorld.recursion < 20 ∧
    ∃ w1, InterpreterImp.evaluate sampleEnv 1 { sampleWorld with dbg := some vetoDebugger } "1"
        Value.absent "" 0 = some (Completion.mk ComplType.Break Value.absent, w1) ∧
      ComplType.Break ≠ ComplType.Throw ∧
      w1.recursion = sampleWorld.recursion ∧
      w1.events = sampleWorld.events ++
        [Event.lockInterpreter, Event.parse "" 0 "1",
         Event.sourceParsed (sampleWorld.sid + 1) "1"
           (Parser.parse sampleEnv (lockInterpreter { sampleWorld with dbg := some vetoDebugger })
             "" 0 "1").1.errLine,
         Event.unlockInterpreter] :=
  ⟨by decide,
   evaluate_debugger_veto sampleEnv 0 { sampleWorld with dbg := some vetoDebugger } "1"
     Value.absent "" 0 vetoDebugger (by decide) rfl rfl⟩

/-- C10: in `InterpreterImp::evaluate`, when the source parsed, no debugger
vetoed, and the supplied `this` is neither absent, Null nor Undefined and its
`toObject` raises `exc`, the completion is a Throw of exactly `exc`, no
program is executed and the counter is unchanged; and when the supplied `this`
is absent, Null or Undefined, the effective `this` is the global object and
the world is untouched (no `toObject` call, no exception). -/
theorem evaluate_this_coercion (env : Env) (fuel : Nat) (w : World) (code : UString)
    (thisV : Value) (sourceURL : UString) (line : Int) :
    (∀ prog o exc, w.recursion < 20 →
      InterpreterImp.vetoed env w code sourceURL line = false →
      (Parser.parse env (lockInterpreter w) sourceURL line code).1.progNode = some prog →
      thisV ≠ Value.absent → thisV ≠ Value.null → thisV ≠ Value.undefined →
      env.toObject thisV = (o, some exc) →
      ∃ w1 pre, InterpreterImp.evaluate env (fuel + 1) w code thisV sourceURL line =
          some (Completion.mk ComplType.Throw exc, w1) ∧
        w1.recursion = w.recursion ∧
        w1.events = w.events ++ Event.lockInterpreter :: Event.parse sourceURL line code ::
          (pre ++ [Event.unlockInterpreter]) ∧
        Event.toObject thisV ∈ pre ∧
        ∀ d t, Event.execute d t ∉ pre) ∧
    (thisV = Value.absent ∨ thisV = Value.null ∨ thisV = Value.undefined →
      ∀ w0, InterpreterImp.thisObject env w0 thisV = (w0.global, w0)) := by
  constructor
  · intro prog o exc hc hv hp h1 h2 h3 ho
    have hc2 : ¬ 20 ≤ w.recursion := by omega
    have hto : Value.toObject env thisV
        (InterpreterImp.counted env w code sourceURL line).globExec =
        (o, { exception := some exc }) := by
      cases thisV <;> simp_all [Value.toObject, ExecState.setException]
    have hent : InterpreterImp.entered env w code thisV sourceURL line =
        { ((InterpreterImp.counted env w code sourceURL line).log (Event.toObject thisV)) with
          globExec := { exception := some exc } } := by
      simp [InterpreterImp.entered, InterpreterImp.thisObject, h1, h2, h3, hto]
    have he : (InterpreterImp.entered env w code thisV sourceURL line).globExec.hadException
        = true := by
      rw [hent]; rfl
    obtain ⟨pre, hop⟩ := parsed_opened env w code sourceURL line
    have hev := evaluate_thisException env fuel w code thisV sourceURL line prog hc2 hv hp he
    rw [hent] at hev
    refine ⟨_, pre ++ [Event.toObject thisV], hev, ?_, ?_, ?_, ?_⟩
    · simp [unlockInterpreter, World.log, InterpreterImp.counted, hop.recursion]
    · simp [unlockInterpreter, World.log, InterpreterImp.counted, hop.events]
    · simp
    · intro d t hm
      rcases List.mem_append.1 hm with hm | hm
      · exact not_execute_of_quiet
          (fun x hx => hop.quiet x (List.mem_cons_of_mem _ hx)) d t hm
      · simp at hm
  · intro h w0
    rcases h with h | h | h <;> subst h <;> rfl

/-- On the sample interpreter `toObject` of object 7 raises "conversion
failed", which `evaluate` throws instead of running `1`; a Null `this`
resolves to the global object. -/
theorem evaluate_this_coercion_witness :
    (∃ w1 pre, InterpreterImp.evaluate sampleEnv 1 sampleWorld "1" (Value.object 7) "" 0 =
        some (Completion.mk ComplType.Throw (Value.string "conversion failed"), w1) ∧
      w1.recursion = sampleWorld.recursion ∧
      w1.events = sampleWorld.events ++ Event.lockInterpreter :: Event.parse "" 0 "1" ::
        (pre ++ [Event.unlockInterpreter]) ∧
      Event.toObject (Value.object 7) ∈ pre ∧
      ∀ d t, Event.execute d t ∉ pre) ∧
    InterpreterImp.thisObject sampleEnv sampleWorld Value.null
      = (sampleWorld.global, sampleWorld) :=
  ⟨(evaluate_this_coercion sampleEnv 0 sampleWorld "1" (Value.object 7) "" 0).1
      (ProgramNode.done (Completion.mk ComplType.Normal (Value.number 1))) (Value.object 7)
      (Value.string "conversion failed") (by decide) (by decide) rfl (by decide) (by decide)
      (by decide) rfl,
   (evaluate_this_coercion sampleEnv 0 sampleWorld "1" Value.null "" 0).2
      (Or.inr (Or.inl rfl)) sampleWorld⟩

/-! ## Theorems: label stacks -/

namespace LabelStack

theorem Chain.frameCells {m m1 : LabelMemory} {p : Option Nat} {cells : List (Nat × Identifier)}
    (h : Chain m p cells) (hf : ∀ c ∈ cells, m1.elems c.1 = m.elems c.1) : Chain m1 p cells := by
  induction cells generalizing p with
  | nil => exact h
  | cons c cs ih =>
    obtain ⟨hp, prev, he, hc⟩ := h
    refine ⟨hp, prev, ?_, ih hc (fun d hd => hf d (List.mem_cons_of_mem _ hd))⟩
    rw [hf c (List.mem_cons_self _ _)]
    exact he

theorem containsLoop_chain (m : LabelMemory) (id : Identifier) :
    ∀ (cells : List (Nat × Identifier)) (fuel : Nat) (p : Option Nat),
      Chain m p cells → cells.length ≤ fuel →
      containsLoop m id fuel p = some (decide (id ∈ cells.map Prod.snd)) := by
  intro cells
  induction cells with
  | nil =>
    intro fuel p h _
    simp only [Chain] at h
    subst h
    cases fuel <;> simp [containsLoop]
  | cons c cs ih =>
    intro fuel p h hf
    obtain ⟨hp, prev, he, hc⟩ := h
    subst hp
    cases fuel with
    | zero => simp at hf
    | succ fuel =>
      have hlen : cs.length ≤ fuel := by simpa using hf
      simp only [containsLoop, he]
      by_cases hid : c.2 = id
      · simp [hid]
      · rw [if_neg hid, ih fuel prev hc hlen]
        have : ¬ id = c.2 := fun h => hid h.symm
        simp [this]

theorem contains_holds {m : LabelMemory} {this : Nat} {cells : List (Nat × Identifier)}
    (h : Holds m this cells) (id : Identifier) {fuel : Nat} (hf : cells.length ≤ fuel) :
    contains m this id fuel = some (decide (id = "" ∨ id ∈ cells.map Prod.snd)) := by
  unfold contains
  by_cases hid : id = ""
  · simp [hid]
  · rw [if_neg hid, containsLoop_chain m id cells fuel _ h.chain hf]
    simp [hid]

theorem push_fresh {m : LabelMemory} {this : Nat} {cells : List (Nat × Identifier)}
    (h : Holds m this cells) {id : Identifier} {fuel : Nat} (hf : cells.length ≤ fuel)
    (h1 : id ≠ "") (h2 : id ∉ cells.map Prod.snd) :
    ∃ m1, push m this id fuel = some (true, m1) ∧ Holds m1 this ((m.next, id) :: cells) ∧
      m1.next = m.next + 1 ∧ (∀ s, s ≠ this → m1.tos s = m.tos s) ∧
      (∀ a, a ≠ m.next → m1.elems a = m.elems a) := by
  have hc := contains_holds h id hf
  have hfalse : decide (id = "" ∨ id ∈ cells.map Prod.snd) = false := by simp [h1, h2]
  rw [hfalse] at hc
  refine ⟨{ elems := Function.update m.elems m.next (some { id := id, prev := m.tos this }),
            next := m.next + 1, tos := Function.update m.tos this (some m.next) },
    by simp only [push, if_neg h1, hc], ?_, rfl, ?_, ?_⟩
  · constructor
    · refine ⟨by simp, m.tos this, by simp, ?_⟩
      refine Chain.frameCells h.chain ?_
      intro c hc
      have := h.allocated c hc
      simp only
      rw [Function.update_noteq (by omega)]
    · simp only [List.map_cons, List.nodup_cons]
      refine ⟨?_, h.nodup⟩
      intro hm
      obtain ⟨c, hc, hc1⟩ := List.mem_map.1 hm
      have := h.allocated c hc
      omega
    · intro c hc
      rcases List.mem_cons.1 hc with hc | hc
      · subst hc; simp
      · have := h.allocated c hc
        simp only
        omega
  · intro s hs
    simp [Function.update_noteq hs]
  · intro a ha
    simp [Function.update_noteq ha]

theorem push_present {m : LabelMemory} {this : Nat} {cells : List (Nat × Identifier)}
    (h : Holds m this cells) {id : Identifier} {fuel : Nat} (hf : cells.length ≤ fuel)
    (h1 : id = "" ∨ id ∈ cells.map Prod.snd) : push m this id fuel = some (false, m) := by
  by_cases hid : id = ""
  · simp [push, hid]
  · have hc := contains_holds h id hf
    have htrue : decide (id = "" ∨ id ∈ cells.map Prod.snd) = true := by simpa using h1
    rw [htrue] at hc
    simp only [push, if_neg hid, hc]

theorem pop_cons {m : LabelMemory} {this : Nat} {c : Nat × Identifier}
    {cs : List (Nat × Identifier)} (h : Holds m this (c :: cs)) :
    ∃ m1, pop m this = some m1 ∧ Holds m1 this cs ∧ m1.next = m.next ∧
      (∀ s, s ≠ this → m1.tos s = m.tos s) ∧ (∀ a, a ≠ c.1 → m1.elems a = m.elems a) := by
  obtain ⟨hp, prev, he, hc⟩ := h.chain
  have hnd := h.nodup
  simp only [List.map_cons, List.nodup_cons] at hnd
  refine ⟨{ m with elems := Function.update m.elems c.1 none,
                   tos := Function.update m.tos this prev },
    by simp only [pop, hp, he], ?_, rfl, ?_, ?_⟩
  · constructor
    · simp only [Function.update_same]
      refine Chain.frameCells hc ?_
      intro d hd
      have : d.1 ≠ c.1 := fun heq => hnd.1 (heq ▸ List.mem_map_of_mem Prod.fst hd)
      simp only
      rw [Function.update_noteq this]
    · exact hnd.2
    · intro d hd
      exact h.allocated d (List.mem_cons_of_mem _ hd)
  · intro s hs
    simp [Function.update_noteq hs]
  · intro a ha
    simp [Function.update_noteq ha]

theorem pop_nil {m : LabelMemory} {this : Nat} (h : Holds m this []) : pop m this = some m := by
  have := h.chain
  simp only [Chain] at this
  simp [pop, this]

end LabelStack

namespace LabelStack

theorem clear_holds (this : Nat) :
    ∀ (cells : List (Nat × Identifier)) (fuel : Nat) (m : LabelMemory),
      Holds m this cells → cells.length ≤ fuel →
      ∃ m1, clear this fuel m = some m1 ∧ m1.tos this = none ∧ m1.next = m.next ∧
        (∀ s, s ≠ this → m1.tos s = m.tos s) ∧
        (∀ a, a ∉ cells.map Prod.fst → m1.elems a = m.elems a) := by
  intro cells
  induction cells with
  | nil =>
    intro fuel m h _
    have ht := h.chain
    simp only [Chain] at ht
    refine ⟨m, ?_, ht, rfl, fun _ _ => rfl, fun _ _ => rfl⟩
    cases fuel <;> simp [clear, ht]
  | cons c cs ih =>
    intro fuel m h hf
    cases fuel with
    | zero => simp at hf
    | succ fuel =>
      have hlen : cs.length ≤ fuel := by simpa using hf
      obtain ⟨hp, prev, he, _⟩ := h.chain
      obtain ⟨m1, hpop, hh, hn, ht, hel⟩ := pop_cons h
      simp only [pop, hp, he, Option.some.injEq] at hpop
      obtain ⟨m2, hc, h1, h2, h3, h4⟩ := ih fuel m1 hh hlen
      refine ⟨m2, ?_, h1, by rw [h2, hn], ?_, ?_⟩
      · simp only [clear, hp, he]
        rw [hpop]
        exact hc
      · intro s hs
        rw [h3 s hs, ht s hs]
      · intro a ha
        simp only [List.map_cons, List.mem_cons, not_or] at ha
        rw [h4 a ha.2, hel a ha.1]

theorem chain_topOf {m : LabelMemory} {p : Option Nat} {cells : List (Nat × Identifier)}
    (h : Chain m p cells) : p = topOf cells := by
  cases cells with
  | nil => exact h
  | cons c cs => exact h.1

theorem assignLoop_spec (this : Nat) :
    ∀ (src : List (Nat × Identifier)) (fuel : Nat) (m : LabelMemory) (cur se : Option Nat),
      Chain m se src → src.length ≤ fuel → (∀ c ∈ src, c.1 < m.next) →
      (∀ c, cur = some c → c < m.next ∧ (∀ d ∈ src, d.1 ≠ c) ∧
        ∃ idc, m.elems c = some { id := idc, prev := none }) →
      ∃ m1, assignLoop this fuel m cur se = some m1 ∧
        m1.next = m.next + src.length ∧
        Chain m1 (topOf (copyCells m.next (src.map Prod.snd)))
          (copyCells m.next (src.map Prod.snd)) ∧
        (∀ a, a < m.next → cur ≠ some a → m1.elems a = m.elems a) ∧
        (∀ c idc, cur = some c → m.elems c = some { id := idc, prev := none } →
          m1.elems c = some { id := idc,
                              prev := topOf (copyCells m.next (src.map Prod.snd)) }) ∧
        (∀ s, s ≠ this → m1.tos s = m.tos s) ∧
        (cur = none →
          m1.tos this = if src = [] then m.tos this else some m.next) ∧
        (cur ≠ none → m1.tos = m.tos) := by
  intro src
  induction src with
  | nil =>
    intro fuel m cur se h _ _ _
    simp only [Chain] at h
    subst h
    refine ⟨m, ?_, by simp, by simp [copyCells, Chain, topOf], fun _ _ _ => rfl, ?_,
      fun _ _ => rfl, fun _ => by simp, fun _ => rfl⟩
    · cases fuel <;> simp [assignLoop]
    · intro c idc _ he
      simpa [copyCells, topOf] using he
  | cons c cs ih =>
    intro fuel m cur se h hf halloc hcur
    obtain ⟨hp, prev, he, hc⟩ := h
    subst hp
    cases fuel with
    | zero => simp at hf
    | succ fuel =>
      have hlen : cs.length ≤ fuel := by simpa using hf
      have hc1 : c.1 < m.next := halloc c (List.mem_cons_self _ _)
      have hcs : ∀ d ∈ cs, d.1 < m.next := fun d hd => halloc d (List.mem_cons_of_mem _ hd)
      cases cur with
      | none =>
        -- the first cell of the copy: `tos = newPrev`
        let m2 : LabelMemory :=
          { elems := Function.update m.elems m.next (some { id := c.2, prev := none }),
            next := m.next + 1,
            tos := Function.update m.tos this (some m.next) }
        have hse : m2.elems c.1 = some { id := c.2, prev := prev } := by
          simp only [m2]
          rw [Function.update_noteq (by omega), he]
        obtain ⟨m3, h1, h2, h3, h4, h5, h6, _, h8⟩ := ih fuel m2 (some m.next) prev
          (Chain.frameCells hc (fun d hd => by
            have := hcs d hd
            simp only [m2]
            rw [Function.update_noteq (by omega)]))
          hlen (fun d hd => by have := hcs d hd; simp only [m2]; omega)
          (fun a ha => by
            simp only [Option.some.injEq] at ha
            subst ha
            exact ⟨by simp only [m2]; omega, fun d hd => by have := hcs d hd; omega,
              c.2, by simp [m2]⟩)
        refine ⟨m3, ?_, ?_, ?_, ?_, ?_, ?_, ?_, ?_⟩
        · simp only [assignLoop, he]
          have : (Function.update m.elems m.next
              (some ({ id := c.2, prev := none } : StackElem))) c.1
              = some { id := c.2, prev := prev } := hse
          simp only [this]
          exact h1
        · rw [h2]; simp only [m2, List.length_cons]; omega
        · simp only [List.map_cons, copyCells]
          refine ⟨by simp [topOf], _, h5 m.next c.2 rfl (by simp [m2]), ?_⟩
          exact h3
        · intro a ha _
          rw [h4 a (by simp only [m2]; omega) (by simp only [ne_eq, Option.some.injEq]; omega)]
          simp only [m2]
          rw [Function.update_noteq (by omega)]
        · intro a idc ha
          cases ha
        · intro s hs
          rw [h6 s hs]
          simp only [m2]
          rw [Function.update_noteq hs]
        · intro _
          rw [h8 (by simp)]
          simp [m2]
        · intro hn
          exact absurd rfl hn
      | some cu =>
        obtain ⟨hcu, hdis, idc, hecu⟩ := hcur cu rfl
        have hcuc : c.1 ≠ cu := hdis c (List.mem_cons_self _ _)
        let m2 : LabelMemory :=
          { elems := Function.update
              (Function.update m.elems m.next (some { id := c.2, prev := none })) cu
              (some { id := idc, prev := some m.next }),
            next := m.next + 1,
            tos := m.tos }
        have hse : m2.elems c.1 = some { id := c.2, prev := prev } := by
          simp only [m2]
          rw [Function.update_noteq hcuc, Function.update_noteq (by omega), he]
        have hnew : m2.elems m.next = some { id := c.2, prev := none } := by
          simp only [m2]
          rw [Function.update_noteq (by omega), Function.update_same]
        obtain ⟨m3, h1, h2, h3, h4, h5, h6, _, h8⟩ := ih fuel m2 (some m.next) prev
          (Chain.frameCells hc (fun d hd => by
            have := hcs d hd
            have hne : d.1 ≠ cu := hdis d (List.mem_cons_of_mem _ hd)
            simp only [m2]
            rw [Function.update_noteq hne, Function.update_noteq (by omega)]))
          hlen (fun d hd => by have := hcs d hd; simp only [m2]; omega)
          (fun a ha => by
            simp only [Option.some.injEq] at ha
            subst ha
            exact ⟨by simp only [m2]; omega, fun d hd => by have := hcs d hd; omega,
              c.2, hnew⟩)
        refine ⟨m3, ?_, ?_, ?_, ?_, ?_, ?_, ?_, ?_⟩
        · simp only [assignLoop, he]
          have hx : (Function.update m.elems m.next
              (some ({ id := c.2, prev := none } : StackElem))) cu
              = some { id := idc, prev := none } := by
            rw [Function.update_noteq (by omega), hecu]
          simp only [hx]
          have hy : (Function.update
              (Function.update m.elems m.next (some ({ id := c.2, prev := none } : StackElem)))
              cu (some { id := idc, prev := some m.next })) c.1
              = some { id := c.2, prev := prev } := hse
          simp only [hy]
          exact h1
        · rw [h2]; simp only [m2, List.length_cons]; omega
        · simp only [List.map_cons, copyCells]
          refine ⟨by simp [topOf], _, h5 m.next c.2 rfl hnew, ?_⟩
          exact h3
        · intro a ha hne
          have hacu : a ≠ cu := fun h => hne (by rw [h])
          rw [h4 a (by simp only [m2]; omega) (by simp only [ne_eq, Option.some.injEq]; omega)]
          simp only [m2]
          rw [Function.update_noteq hacu, Function.update_noteq (by omega)]
        · intro a idc2 ha hea
          simp only [Option.some.injEq] at ha
          subst ha
          rw [hecu] at hea
          simp only [Option.some.injEq, StackElem.mk.injEq, and_true] at hea
          subst hea
          rw [h4 cu (by simp only [m2]; omega) (by simp only [ne_eq, Option.some.injEq]; omega)]
          simp [m2, copyCells, topOf]
        · intro s hs
          rw [h6 s hs]
        · intro hn
          cases hn
        · intro _
          rw [h8 (by simp)]

end LabelStack

namespace LabelStack

theorem Holds.transfer {m m1 : LabelMemory} {s : Nat} {cells : List (Nat × Identifier)}
    (h : Holds m s cells) (ht : m1.tos s = m.tos s)
    (he : ∀ c ∈ cells, m1.elems c.1 = m.elems c.1) (hn : m.next ≤ m1.next) :
    Holds m1 s cells where
  chain := by rw [ht]; exact Chain.frameCells h.chain he
  nodup := h.nodup
  allocated := fun c hc => lt_of_lt_of_le (h.allocated c hc) hn

theorem copyCells_snd : ∀ (base : Nat) (labels : List Identifier),
    (copyCells base labels).map Prod.snd = labels := by
  intro base labels
  induction labels generalizing base with
  | nil => rfl
  | cons id ids ih => simp [copyCells, ih]

theorem copyCells_fst : ∀ (labels : List Identifier) (base : Nat) (c : Nat × Identifier),
    c ∈ copyCells base labels → base ≤ c.1 ∧ c.1 < base + labels.length := by
  intro labels
  induction labels with
  | nil => intro base c h; simp [copyCells] at h
  | cons id ids ih =>
    intro base c h
    simp only [copyCells, List.mem_cons] at h
    rcases h with h | h
    · subst h; simp
    · have := ih (base + 1) c h
      simp only [List.length_cons]
      omega

theorem copyCells_nodup : ∀ (labels : List Identifier) (base : Nat),
    ((copyCells base labels).map Prod.fst).Nodup := by
  intro labels
  induction labels with
  | nil => intro base; simp [copyCells]
  | cons id ids ih =>
    intro base
    simp only [copyCells, List.map_cons, List.nodup_cons]
    refine ⟨?_, ih (base + 1)⟩
    intro hm
    obtain ⟨c, hc, hc1⟩ := List.mem_map.1 hm
    have := copyCells_fst ids (base + 1) c hc
    omega

theorem assign_holds {m : LabelMemory} {this other : Nat} {old src : List (Nat × Identifier)}
    {fuel : Nat} (hne : this ≠ other) (hthis : Holds m this old) (hother : Holds m other src)
    (hdisj : ∀ c ∈ old, ∀ d ∈ src, c.1 ≠ d.1) (hf1 : old.length ≤ fuel)
    (hf2 : src.length ≤ fuel) :
    ∃ m1, assign m this other fuel = some m1 ∧
      Holds m1 this (copyCells m.next (src.map Prod.snd)) ∧
      Holds m1 other src ∧
      m1.next = m.next + src.length ∧
      (∀ s, s ≠ this → m1.tos s = m.tos s) ∧
      (∀ a, a < m.next → a ∉ old.map Prod.fst → m1.elems a = m.elems a) := by
  obtain ⟨mc, hc, hc1, hc2, hc3, hc4⟩ := clear_holds this old fuel m hthis hf1
  have hsrc_el : ∀ d ∈ src, mc.elems d.1 = m.elems d.1 := by
    intro d hd
    apply hc4
    intro hm
    obtain ⟨c, hcm, hc1⟩ := List.mem_map.1 hm
    exact hdisj c hcm d hd hc1
  let m2 : LabelMemory := { mc with tos := Function.update mc.tos this none }
  have hto : m2.tos other = m.tos other := by
    simp only [m2]
    rw [Function.update_noteq (Ne.symm hne), hc3 other (Ne.symm hne)]
  have hch : Chain m2 (m2.tos other) src := by
    rw [hto]
    exact Chain.frameCells hother.chain hsrc_el
  obtain ⟨m3, h1, h2, h3, h4, _, h6, h7, _⟩ := assignLoop_spec this src fuel m2 none
    (m2.tos other) hch hf2
    (fun c hcm => by have := hother.allocated c hcm; simp only [m2]; omega)
    (fun c hcur => by cases hcur)
  have hnext : m2.next = m.next := hc2
  refine ⟨m3, ?_, ?_, ?_, by rw [h2, hnext], ?_, ?_⟩
  · simp only [assign, hc]
    exact h1
  · constructor
    · have ht := h7 rfl
      rw [hnext] at h3
      have htop : m3.tos this = topOf (copyCells m.next (src.map Prod.snd)) := by
        rw [ht]
        cases src with
        | nil => simp [m2, topOf, copyCells]
        | cons c cs => simp [topOf, copyCells, m2, hc2]
      rw [htop]
      exact h3
    · exact copyCells_nodup _ _
    · intro c hcm
      have := copyCells_fst _ _ c hcm
      rw [h2, hnext]
      simp only [List.length_map] at this
      omega
  · refine ⟨?_, hother.nodup, ?_⟩
    · rw [h6 other (Ne.symm hne), hto]
      refine Chain.frameCells hother.chain ?_
      intro d hd
      have := hother.allocated d hd
      rw [h4 d.1 (by rw [hnext]; exact this) (by simp)]
      exact hsrc_el d hd
    · intro d hd
      have := hother.allocated d hd
      rw [h2, hnext]
      omega
  · intro s hs
    rw [h6 s hs]
    simp only [m2]
    rw [Function.update_noteq hs, hc3 s hs]
  · intro a ha hno
    rw [h4 a (by rw [hnext]; exact ha) (by simp)]
    exact hc4 a hno

theorem push_frame {m : LabelMemory} {a b : Nat} {ca cb : List (Nat × Identifier)}
    {fuel : Nat} (ha : Holds m a ca) (hf : ca.length ≤ fuel) (hne : a ≠ b)
    (hb : Holds m b cb) (id : Identifier) (r : Bool × LabelMemory)
    (hr : push m a id fuel = some r) : Holds r.2 b cb := by
  by_cases hp : id = "" ∨ id ∈ ca.map Prod.snd
  · rw [push_present ha hf hp] at hr
    simp only [Option.some.injEq] at hr
    subst hr
    exact hb
  · simp only [not_or] at hp
    obtain ⟨m1, h1, _, h3, h4, h5⟩ := push_fresh ha hf hp.1 hp.2
    rw [h1] at hr
    simp only [Option.some.injEq] at hr
    subst hr
    refine hb.transfer (h4 b (Ne.symm hne)) ?_ (by simp only; omega)
    intro c hc
    have := hb.allocated c hc
    exact h5 c.1 (by omega)

theorem pop_frame {m : LabelMemory} {a b : Nat} {ca cb : List (Nat × Identifier)}
    (ha : Holds m a ca) (hne : a ≠ b) (hb : Holds m b cb)
    (hdisj : ∀ c ∈ ca, ∀ d ∈ cb, c.1 ≠ d.1) (r : LabelMemory)
    (hr : pop m a = some r) : Holds r b cb := by
  cases ca with
  | nil =>
    rw [pop_nil ha] at hr
    simp only [Option.some.injEq] at hr
    subst hr
    exact hb
  | cons c cs =>
    obtain ⟨m1, h1, _, h3, h4, h5⟩ := pop_cons ha
    rw [h1] at hr
    simp only [Option.some.injEq] at hr
    subst hr
    refine hb.transfer (h4 b (Ne.symm hne)) ?_ (by omega)
    intro d hd
    exact h5 d.1 (fun h => hdisj c (List.mem_cons_self _ _) d hd h.symm)

end LabelStack

namespace LabelStack

theorem sampleLabels_holds : Holds sampleLabels 0 [(2, "b"), (1, "a")] where
  chain := ⟨rfl, some 1, rfl, rfl, none, rfl, rfl⟩
  nodup := by decide
  allocated := by decide

theorem sampleLabels_empty : Holds sampleLabels 5 [] where
  chain := rfl
  nodup := by decide
  allocated := by decide

/-- C11: on a well-formed stack holding `cells`, `LabelStack::push(id)` returns
false and leaves the memory unchanged if `id` is the empty label or is already
on the stack; otherwise it returns true and the stack holds `id` above the old
labels.  In particular a second push of the same label returns false, and a
push of the empty label returns false on every stack. -/
theorem push_spec (m : LabelMemory) (this : Nat) (cells : List (Nat × Identifier))
    (id : Identifier) (fuel : Nat) (h : Holds m this cells) (hf : cells.length ≤ fuel) :
    ((id = "" ∨ id ∈ cells.map Prod.snd) → push m this id fuel = some (false, m)) ∧
    (id ≠ "" → id ∉ cells.map Prod.snd →
      ∃ m1, push m this id fuel = some (true, m1) ∧
        Holds m1 this ((m.next, id) :: cells) ∧
        ((m.next, id) :: cells).map Prod.snd = id :: cells.map Prod.snd ∧
        push m1 this id (fuel + 1) = some (false, m1)) ∧
    push m this "" fuel = some (false, m) := by
  refine ⟨push_present h hf, ?_, by simp [push]⟩
  intro h1 h2
  obtain ⟨m1, hp, hh, _⟩ := push_fresh h hf h1 h2
  refine ⟨m1, hp, hh, rfl, ?_⟩
  exact push_present hh (by simp only [List.length_cons]; omega) (Or.inr (by simp))

/-- On the sample stack `b, a`: pushing `c` succeeds and puts `c` on top,
pushing `a` again fails, pushing the empty label fails. -/
theorem push_spec_witness :
    Holds sampleLabels 0 [(2, "b"), (1, "a")] ∧
    (∃ m1, push sampleLabels 0 "c" 2 = some (true, m1) ∧
      Holds m1 0 [(3, "c"), (2, "b"), (1, "a")]) ∧
    push sampleLabels 0 "a" 2 = some (false, sampleLabels) ∧
    push sampleLabels 0 "" 2 = some (false, sampleLabels) := by
  have h := push_spec sampleLabels 0 [(2, "b"), (1, "a")] "c" 2 sampleLabels_holds (by decide)
  have h2 := push_spec sampleLabels 0 [(2, "b"), (1, "a")] "a" 2 sampleLabels_holds (by decide)
  refine ⟨sampleLabels_holds, ?_, h2.1 (by decide), h.2.2⟩
  obtain ⟨m1, hp, hh, _⟩ := h.2.1 (by decide) (by decide)
  exact ⟨m1, hp, hh⟩

/-- C12: `LabelStack::contains("")` is true on every stack, well formed or
not; on a well-formed stack holding `cells`, `contains(id)` for a non-empty
`id` is true exactly when `id` is one of the labels held; and a label that is
pushed successfully is contained until it is popped, and no longer after. -/
theorem contains_spec (m : LabelMemory) (this : Nat) (cells : List (Nat × Identifier))
    (id : Identifier) (fuel : Nat) :
    contains m this "" fuel = some true ∧
    (Holds m this cells → cells.length ≤ fuel → id ≠ "" →
      (∃ b, contains m this id fuel = some b) ∧
      (contains m this id fuel = some true ↔ id ∈ cells.map Prod.snd)) ∧
    (Holds m this cells → cells.length ≤ fuel → id ≠ "" → id ∉ cells.map Prod.snd →
      ∃ m1 m2, push m this id fuel = some (true, m1) ∧
        contains m1 this id (fuel + 1) = some true ∧
        pop m1 this = some m2 ∧
        Holds m2 this cells ∧
        contains m2 this id fuel = some false) := by
  refine ⟨by simp [contains], ?_, ?_⟩
  · intro h hf hid
    rw [contains_holds h id hf]
    simp [hid]
  · intro h hf hid hnot
    obtain ⟨m1, hp, hh, _⟩ := push_fresh h hf hid hnot
    obtain ⟨m2, hpop, hh2, _⟩ := pop_cons hh
    refine ⟨m1, m2, hp, ?_, hpop, hh2, ?_⟩
    · rw [contains_holds hh id (by simp only [List.length_cons]; omega)]
      simp
    · rw [contains_holds hh2 id hf]
      simp [hid, hnot]

/-- On the sample stack `b, a`: `a` is contained, `c` is not, and `c` is
contained between its push and its pop only. -/
theorem contains_spec_witness :
    contains LabelMemory.empty 0 "" 0 = some true ∧
    contains sampleLabels 0 "a" 2 = some true ∧
    contains sampleLabels 0 "c" 2 = some false ∧
    (∃ m1 m2, push sampleLabels 0 "c" 2 = some (true, m1) ∧
      contains m1 0 "c" 3 = some true ∧
      pop m1 0 = some m2 ∧
      Holds m2 0 [(2, "b"), (1, "a")] ∧
      contains m2 0 "c" 2 = some false) := by
  have h := contains_spec sampleLabels 0 [(2, "b"), (1, "a")] "c" 2
  have ha := contains_spec sampleLabels 0 [(2, "b"), (1, "a")] "a" 2
  refine ⟨(contains_spec LabelMemory.empty 0 [] "" 0).1, ?_, by decide, ?_⟩
  · exact (ha.2.1 sampleLabels_holds (by decide) (by decide)).2.2 (by decide)
  · exact h.2.2 sampleLabels_holds (by decide) (by decide) (by decide)

/-- C13: `LabelStack::operator=` between two distinct well-formed stacks makes
a deep copy.  The destination, whatever it held, ends up holding the labels of
the source in the same order, in cells of its own; the source keeps its cells;
`contains` answers the same on both; and a later `push` or `pop` on either
stack leaves the other as it was.  The copy constructor does the same on a
new stack object. -/
theorem assign_deep_copy (m : LabelMemory) (this other : Nat)
    (old src : List (Nat × Identifier)) (fuel : Nat) (hne : this ≠ other)
    (hthis : Holds m this old) (hother : Holds m other src)
    (hdisj : ∀ c ∈ old, ∀ d ∈ src, c.1 ≠ d.1) (hf1 : old.length ≤ fuel)
    (hf2 : src.length ≤ fuel) :
    (∃ m1 copy, assign m this other fuel = some m1 ∧
      Holds m1 this copy ∧ copy.map Prod.snd = src.map Prod.snd ∧
      Holds m1 other src ∧
      (∀ c ∈ copy, ∀ d ∈ src, c.1 ≠ d.1) ∧
      (∀ id, contains m1 this id fuel = contains m1 other id fuel) ∧
      (∀ id r, push m1 this id fuel = some r → Holds r.2 other src) ∧
      (∀ r, pop m1 this = some r → Holds r other src) ∧
      (∀ id r, push m1 other id fuel = some r → Holds r.2 this copy) ∧
      (∀ r, pop m1 other = some r → Holds r this copy)) ∧
    (∃ m1 copy, copyConstruct m this other fuel = some m1 ∧
      Holds m1 this copy ∧ copy.map Prod.snd = src.map Prod.snd ∧
      Holds m1 other src ∧
      (∀ c ∈ copy, ∀ d ∈ src, c.1 ≠ d.1)) := by
  constructor
  · obtain ⟨m1, ha, h1, h2, _⟩ := assign_holds hne hthis hother hdisj hf1 hf2
    have hlen : (copyCells m.next (src.map Prod.snd)).length ≤ fuel := by
      have := congrArg List.length (copyCells_snd m.next (src.map Prod.snd))
      simp only [List.length_map] at this
      omega
    have hd : ∀ c ∈ copyCells m.next (src.map Prod.snd), ∀ d ∈ src, c.1 ≠ d.1 := by
      intro c hc d hd
      have := copyCells_fst _ _ c hc
      have := hother.allocated d hd
      omega
    refine ⟨m1, _, ha, h1, copyCells_snd _ _, h2, hd, ?_, ?_, ?_, ?_, ?_⟩
    · intro id
      rw [contains_holds h1 id hlen, contains_holds h2 id hf2, copyCells_snd]
    · exact fun id r hr => push_frame h1 hlen hne h2 id r hr
    · exact fun r hr => pop_frame h1 hne h2 hd r hr
    · exact fun id r hr => push_frame h2 hf2 (Ne.symm hne) h1 id r hr
    · exact fun r hr => pop_frame h2 (Ne.symm hne) h1 (fun c hc d hd2 => (hd d hd2 c hc).symm) r hr
  · have h0 : Holds { m with tos := Function.update m.tos this none } this [] :=
      ⟨by simp [Chain], by simp, by simp⟩
    have ho : Holds { m with tos := Function.update m.tos this none } other src :=
      hother.transfer (by simp [Function.update_noteq (Ne.symm hne)]) (fun _ _ => rfl)
        (le_refl _)
    obtain ⟨m1, ha, h1, h2, _⟩ := assign_holds hne h0 ho (by simp) (Nat.zero_le _) hf2
    refine ⟨m1, _, ha, h1, copyCells_snd _ _, h2, ?_⟩
    intro c hc d hd
    have hc1 := copyCells_fst _ _ c hc
    have hd1 := hother.allocated d hd
    simp only at hc1
    omega

/-- Assigning the sample stack `b, a` (object 0) to the empty stack object 5
gives object 5 the labels `b, a` in cells of its own. -/
theorem assign_deep_copy_witness :
    (5 : Nat) ≠ 0 ∧ Holds sampleLabels 5 [] ∧ Holds sampleLabels 0 [(2, "b"), (1, "a")] ∧
    ∃ m1 copy, assign sampleLabels 5 0 2 = some m1 ∧
      Holds m1 5 copy ∧ copy.map Prod.snd = ["b", "a"] ∧
      Holds m1 0 [(2, "b"), (1, "a")] ∧
      (∀ c ∈ copy, ∀ d ∈ [((2 : Nat), ("b" : Identifier)), (1, "a")], c.1 ≠ d.1) := by
  refine ⟨by decide, sampleLabels_empty, sampleLabels_holds, ?_⟩
  obtain ⟨m1, copy, h1, h2, h3, h4, h5, _⟩ :=
    (assign_deep_copy sampleLabels 5 0 [] [(2, "b"), (1, "a")] 2 (by decide)
      sampleLabels_empty sampleLabels_holds (by simp) (by decide) (by decide)).1
  exact ⟨m1, copy, h1, h2, h3, h4, h5⟩

/-- Assigning a stack to itself empties it: `clear()` runs before the source
is read. -/
theorem assign_self_empties :
    (assign sampleLabels 0 0 2).map (fun m => m.tos 0) = some none := by
  decide

end LabelStack

/-! ## Theorems: primitive values and `instanceof` -/

theorem Double.eqZero_iff (d : Double) :
    d.eqZero = true ↔ d = Double.posZero ∨ d = Double.negZero := by
  obtain ⟨s, e, m⟩ := d
  simp only [Double.eqZero, decide_eq_true_eq, Double.posZero, Double.negZero, Double.mk.injEq]
  cases s <;> simp

/-- C14: `toBoolean` of a primitive value is false exactly for Undefined,
Null, the Boolean false, the empty String, and the Numbers NaN, `+0` and `-0`,
and true for every other Boolean, String and Number: `BooleanImp::toBoolean`
returns its value, `StringImp::toBoolean` is true iff the length is positive,
and `NumberImp::toBoolean` is true iff the value is neither zero nor NaN. -/
theorem toBoolean_false_iff (p : Primitive) :
    (p.toBoolean = false ↔
      p = Primitive.undefined ∨ p = Primitive.null ∨ p = Primitive.boolean false ∨
      p = Primitive.string "" ∨
      ∃ d, p = Primitive.number d ∧ (isNaN d = true ∨ d = Double.posZero ∨ d = Double.negZero)) ∧
    (∀ b, BooleanImp.toBoolean b = b) ∧
    (∀ s, StringImp.toBoolean s = true ↔ 0 < s.length) ∧
    (∀ d, NumberImp.toBoolean d = true ↔
      d ≠ Double.posZero ∧ d ≠ Double.negZero ∧ isNaN d = false) := by
  refine ⟨?_, fun _ => rfl, fun s => by simp [StringImp.toBoolean], ?_⟩
  · cases p with
    | undefined => simp [Primitive.toBoolean, UndefinedImp.toBoolean]
    | null => simp [Primitive.toBoolean, NullImp.toBoolean]
    | boolean b => simp [Primitive.toBoolean, BooleanImp.toBoolean]
    | string s =>
      simp only [Primitive.toBoolean, StringImp.toBoolean, gt_iff_lt, decide_eq_false_iff_not,
        not_lt, Nat.le_zero_eq, reduceCtorEq, Primitive.string.injEq, false_and, exists_false,
        or_false, false_or]
      constructor
      · intro h
        apply String.ext
        exact List.length_eq_zero.1 h
      · intro h
        subst h
        rfl
    | number d =>
      have h := Double.eqZero_iff d
      simp only [Primitive.toBoolean, NumberImp.toBoolean, Bool.not_eq_false',
        Bool.or_eq_true, h, reduceCtorEq, Primitive.number.injEq, exists_eq_left', false_or]
      tauto
  · intro d
    have h := Double.eqZero_iff d
    simp only [NumberImp.toBoolean, Bool.not_eq_true', Bool.or_eq_false_iff]
    constructor
    · rintro ⟨h1, h2⟩
      refine ⟨?_, ?_, h2⟩
      · intro hz; rw [h.2 (Or.inl hz)] at h1; cases h1
      · intro hz; rw [h.2 (Or.inr hz)] at h1; cases h1
    · rintro ⟨h1, h2, h3⟩
      refine ⟨?_, h3⟩
      cases hz : d.eqZero with
      | false => rfl
      | true => rcases h.1 hz with h4 | h4 <;> contradiction

theorem hasInstanceLoop_spec (prototype : Value → Value) (prot : Value) :
    ∀ (n fuel : Nat) (v : Value),
      (prototype^[n + 1] v).type ≠ some ValueType.ObjectType → n < fuel →
      ∃ b, InternalFunctionImp.hasInstanceLoop prototype prot fuel v = some b ∧
        (b = true ↔ OnPrototypeChain prototype v prot) := by
  intro n
  induction n with
  | zero =>
    intro fuel v hend hf
    cases fuel with
    | zero => omega
    | succ fuel =>
      have h1 : (prototype v).type ≠ some ValueType.ObjectType := by simpa using hend
      refine ⟨false, by simp [InternalFunctionImp.hasInstanceLoop, h1], ?_⟩
      simp only [Bool.false_eq_true, false_iff]
      rintro ⟨k, hk, hobj, _⟩
      exact h1 (by simpa using hobj 1 (le_refl 1) hk)
  | succ n ih =>
    intro fuel v hend hf
    cases fuel with
    | zero => omega
    | succ fuel =>
      by_cases h1 : (prototype v).type = some ValueType.ObjectType
      · by_cases h2 : prototype v = prot
        · have h1p : prot.type = some ValueType.ObjectType := h2 ▸ h1
          refine ⟨true, by simp [InternalFunctionImp.hasInstanceLoop, h2, h1p], ?_⟩
          simp only [true_iff]
          refine ⟨1, le_refl 1, ?_, by simpa using h2⟩
          intro j hj1 hj2
          have hj : j = 1 := by omega
          subst hj
          simp only [Function.iterate_one]
          exact h1
        · obtain ⟨b, hb, hiff⟩ := ih fuel (prototype v)
            (by rw [← Function.iterate_succ_apply]; exact hend) (by omega)
          refine ⟨b, by simp [InternalFunctionImp.hasInstanceLoop, h1, h2, hb], ?_⟩
          rw [hiff]
          constructor
          · rintro ⟨k, hk, hobj, heq⟩
            refine ⟨k + 1, by omega, ?_, by rw [Function.iterate_succ_apply]; exact heq⟩
            intro j hj1 hj2
            cases j with
            | zero => omega
            | succ j =>
              rw [Function.iterate_succ_apply]
              cases j with
              | zero => simpa using h1
              | succ j => exact hobj (j + 1) (by omega) (by omega)
          · rintro ⟨k, hk, hobj, heq⟩
            cases k with
            | zero => omega
            | succ k =>
              cases k with
              | zero => exact absurd (by simpa using heq) h2
              | succ k =>
                refine ⟨k + 1, by omega, ?_, by rw [← Function.iterate_succ_apply]; exact heq⟩
                intro j hj1 hj2
                rw [← Function.iterate_succ_apply]
                exact hobj (j + 1) (by omega) (by omega)
      · refine ⟨false, by simp [InternalFunctionImp.hasInstanceLoop, h1], ?_⟩
        simp only [Bool.false_eq_true, false_iff]
        rintro ⟨k, hk, hobj, _⟩
        exact h1 (by simpa using hobj 1 (le_refl 1) hk)

theorem iterate_object_of_cycle (prototype : Value → Value) (value : Value) (k : Nat)
    (hk : 1 ≤ k) (hv : value.type = some ValueType.ObjectType)
    (hobj : ∀ j, 1 ≤ j → j ≤ k → (prototype^[j] value).type = some ValueType.ObjectType)
    (heq : prototype^[k] value = value) :
    ∀ i, (prototype^[i] value).type = some ValueType.ObjectType := by
  intro i
  induction i using Nat.strong_induction_on with
  | _ i ih =>
    by_cases hi : i ≤ k
    · cases i with
      | zero => simpa using hv
      | succ i => exact hobj (i + 1) (by omega) hi
    · have hsplit : i = (i - k) + k := by omega
      rw [hsplit, Function.iterate_add_apply, heq]
      exact ih (i - k) (by omega)

/-- C15: `InternalFunctionImp::hasInstance(value)` returns false when `value`
is not an Object; sets a TypeError on the exec state and returns false when
the constructor's `prototype` property is neither an Object nor Null; and
otherwise, on a prototype chain that ends after at most `n + 1` links, returns
without touching the exec state, true exactly when some object reached from
`value` by one or more prototype links is the `prototype` property value; in
particular it returns false when that value is Null or is `value` itself. -/
theorem hasInstance_spec (prototype : Value → Value) (prot : Value) (exec : ExecState)
    (value : Value) (fuel : Nat) :
    (∀ t, value.type = some t → t ≠ ValueType.ObjectType →
      InternalFunctionImp.hasInstance prototype prot exec value fuel = some (false, exec)) ∧
    (∀ pt, value.type = some ValueType.ObjectType → prot.type = some pt →
      pt ≠ ValueType.ObjectType → pt ≠ ValueType.NullType →
      ∃ e, InternalFunctionImp.hasInstance prototype prot exec value fuel =
          some (false, { exception := some (Value.error e) }) ∧
        e.errtype = ErrorType.TypeError) ∧
    (∀ n, value.type = some ValueType.ObjectType →
      (prot.type = some ValueType.ObjectType ∨ prot.type = some ValueType.NullType) →
      (prototype^[n + 1] value).type ≠ some ValueType.ObjectType → n < fuel →
      ∃ b, InternalFunctionImp.hasInstance prototype prot exec value fuel = some (b, exec) ∧
        (b = true ↔ OnPrototypeChain prototype value prot) ∧
        (prot.type = some ValueType.NullType → b = false) ∧
        (prot = value → b = false)) := by
  refine ⟨?_, ?_, ?_⟩
  · intro t ht hne
    simp [InternalFunctionImp.hasInstance, ht, hne]
  · intro pt hv hp h1 h2
    exact ⟨Error.create ErrorType.TypeError
      "Invalid prototype encountered in instanceof operation." (-1) (-1) none,
      by simp [InternalFunctionImp.hasInstance, hv, hp, h1, h2, ExecState.setException], rfl⟩
  · intro n hv hp hend hf
    obtain ⟨b, hb, hiff⟩ := hasInstanceLoop_spec prototype prot n fuel value hend hf
    refine ⟨b, ?_, hiff, ?_, ?_⟩
    · rcases hp with hp | hp <;> simp [InternalFunctionImp.hasInstance, hv, hp, hb]
    · intro hnull
      cases b with
      | false => rfl
      | true =>
        obtain ⟨k, hk, hobj, heq⟩ := hiff.1 rfl
        have := hobj k hk (le_refl k)
        rw [heq, hnull] at this
        cases this
    · intro hpv
      cases b with
      | false => rfl
      | true =>
        obtain ⟨k, hk, hobj, heq⟩ := hiff.1 rfl
        rw [hpv] at heq
        exact absurd (iterate_object_of_cycle prototype value k hk hv hobj heq (n + 1)) hend

/-- On the sample links 1 → 2 → 3 → Null: object 1 is an instance for the
prototype object 3 and not for object 1 itself; a Number is no instance; a
String as `prototype` raises the TypeError. -/
theorem hasInstance_spec_witness :
    (∃ b, InternalFunctionImp.hasInstance samplePrototype (Value.object 3)
        { exception := none } (Value.object 1) 3 = some (b, { exception := none }) ∧
      (b = true ↔ OnPrototypeChain samplePrototype (Value.object 1) (Value.object 3)) ∧
      ((Value.object 3).type = some ValueType.NullType → b = false) ∧
      (Value.object 3 = Value.object 1 → b = false)) ∧
    InternalFunctionImp.hasInstance samplePrototype (Value.object 3)
        { exception := none } (Value.object 1) 3 = some (true, { exception := none }) ∧
    InternalFunctionImp.hasInstance samplePrototype (Value.object 1)
        { exception := none } (Value.object 1) 3 = some (false, { exception := none }) ∧
    InternalFunctionImp.hasInstance samplePrototype (Value.object 3)
        { exception := none } (Value.number 5) 3 = some (false, { exception := none }) ∧
    (∃ e, InternalFunctionImp.hasInstance samplePrototype (Value.string "x")
        { exception := none } (Value.object 1) 3 =
          some (false, { exception := some (Value.error e) }) ∧
      e.errtype = ErrorType.TypeError) :=
  ⟨(hasInstance_spec samplePrototype (Value.object 3) { exception := none }
      (Value.object 1) 3).2.2 2 rfl (Or.inl rfl) (by decide) (by decide),
   by decide, by decide,
   (hasInstance_spec samplePrototype (Value.object 3) { exception := none }
      (Value.number 5) 3).1 ValueType.NumberType rfl (by decide),
   (hasInstance_spec samplePrototype (Value.string "x") { exception := none }
      (Value.object 1) 3).2.1 ValueType.StringType rfl rfl (by decide) (by decide)⟩

/-! ## Theorems: built-ins and syntax check -/

theorem saveBuiltins_internal (w : World) (saved : SavedBuiltins) :
    (InterpreterImp.saveBuiltins w saved).internal = some w.builtins := by
  cases saved with
  | mk i => cases i <;> rfl

/-- C16, as the claim states it, fails: after `saveBuiltins`, a reassignment of
the global `Array` to the user object 999 and `restoreBuiltins`, the global
`Array` is still object 999, not the saved constructor. -/
theorem restoreBuiltins_keeps_global_Array :
    InterpreterImp.globalGet sampleWorld "Array" = some sampleWorld.builtins.b_Array ∧
    ¬ (InterpreterImp.globalGet
        (InterpreterImp.restoreBuiltins
          (InterpreterImp.globalPut sampleWorld "Array" (Value.object 999))
          (InterpreterImp.saveBuiltins sampleWorld { internal := none })) "Array"
        = some sampleWorld.builtins.b_Array) := by
  decide

/-- C16, amended: `restoreBuiltins` with a snapshot taken by `saveBuiltins`
sets each of the interpreter's thirty built-in handles to what it was at the
save, whatever they and the global object have become in between (`w1`), and
writes nothing else: the properties of the global object, a reassigned `Array`
among them, stay as they are.  With an empty snapshot it changes nothing. -/
theorem restoreBuiltins_saveBuiltins (w w1 : World) (saved : SavedBuiltins) :
    (InterpreterImp.restoreBuiltins w1 (InterpreterImp.saveBuiltins w saved)).builtins
      = w.builtins ∧
    InterpreterImp.restoreBuiltins w1 (InterpreterImp.saveBuiltins w saved)
      = { w1 with builtins := w.builtins } ∧
    (InterpreterImp.restoreBuiltins w1
      (InterpreterImp.saveBuiltins w saved)).globalProperties = w1.globalProperties ∧
    InterpreterImp.restoreBuiltins w1 { internal := none } = w1 := by
  have h : InterpreterImp.restoreBuiltins w1 (InterpreterImp.saveBuiltins w saved)
      = { w1 with builtins := w.builtins } := by
    simp only [InterpreterImp.restoreBuiltins, saveBuiltins_internal]
  refine ⟨by rw [h], h, by rw [h], rfl⟩

/-- C17, as the claim states it, fails: on the fresh sample interpreter
`checkSyntax` moves `Parser::sid` from 0 to -1, and a later `evaluate` of the
ill-formed source `(` throws a SyntaxError whose `sid` is 0 where it would have
been 1. -/
theorem checkSyntax_changes_sid :
    sampleWorld.sid = 0 ∧
    (InterpreterImp.checkSyntax sampleEnv sampleWorld "1").2.sid = -1 ∧
    ¬ ((InterpreterImp.checkSyntax sampleEnv sampleWorld "1").2.sid = sampleWorld.sid) ∧
    ¬ ((InterpreterImp.evaluate sampleEnv 1
          (InterpreterImp.checkSyntax sampleEnv sampleWorld "1").2 "(" Value.absent "" 0).map
          Prod.fst =
        (InterpreterImp.evaluate sampleEnv 1 sampleWorld "(" Value.absent "" 0).map
          Prod.fst) := by
  decide

/-- C17, amended: `checkSyntax(code)` returns true exactly when the parser
produces a tree for `code`; it leaves the recursion counter, the current
context, the pending exception, the built-in bindings, the global object, the
debugger and the lock count as they were and logs one parse; of the state
behind later `evaluate` calls it writes `Parser::sid` only, which it leaves at
-1, so that nothing at all changes once some parse has run before. -/
theorem checkSyntax_frame (env : Env) (w : World) (code : UString) :
    ((InterpreterImp.checkSyntax env w code).1 = true ↔
      ∃ prog, (Parser.parse env w "" 0 code).1.progNode = some prog) ∧
    (InterpreterImp.checkSyntax env w code).2 =
      { w with sid := -1, events := w.events ++ [Event.parse "" 0 code] } ∧
    (InterpreterImp.checkSyntax env w code).2.recursion = w.recursion ∧
    (InterpreterImp.checkSyntax env w code).2.context = w.context ∧
    (InterpreterImp.checkSyntax env w code).2.globExec = w.globExec ∧
    (InterpreterImp.checkSyntax env w code).2.builtins = w.builtins ∧
    (InterpreterImp.checkSyntax env w code).2.interpreterLockCount = w.interpreterLockCount ∧
    (InterpreterImp.checkSyntax env w code).2.sid = -1 ∧
    (w.sid = -1 →
      (InterpreterImp.checkSyntax env w code).2 =
        { w with events := w.events ++ [Event.parse "" 0 code] }) := by
  have h : (InterpreterImp.checkSyntax env w code).2 =
      { w with sid := -1, events := w.events ++ [Event.parse "" 0 code] } := by
    simp only [InterpreterImp.checkSyntax, parse_snd]
  refine ⟨?_, h, by rw [h], by rw [h], by rw [h], by rw [h], by rw [h], by rw [h], ?_⟩
  · simp only [InterpreterImp.checkSyntax, Option.isSome_iff_exists]
  · intro hs
    rw [h, ← hs]

/-- On the sample interpreter after a first parse (`Parser::sid` is -1),
`checkSyntax` of `1` answers true and changes nothing but the log. -/
theorem checkSyntax_frame_witness :
    { sampleWorld with sid := -1 }.sid = -1 ∧
    (InterpreterImp.checkSyntax sampleEnv { sampleWorld with sid := -1 } "1").1 = true ∧
    (InterpreterImp.checkSyntax sampleEnv { sampleWorld with sid := -1 } "1").2 =
      { { sampleWorld with sid := -1 } with
        events := { sampleWorld with sid := -1 }.events ++ [Event.parse "" 0 "1"] } :=
  ⟨rfl,
   ((checkSyntax_frame sampleEnv { sampleWorld with sid := -1 } "1").1).2 ⟨_, rfl⟩,
   (checkSyntax_frame sampleEnv { sampleWorld with sid := -1 } "1").2.2.2.2.2.2.2.2 rfl⟩

/-! ## Theorems: the interpreter registry -/

theorem Linked.tail {r : Registry} {a : Nat} {l : List Nat} (h : Linked r (a :: l)) :
    Linked r l := by
  cases l with
  | nil => trivial
  | cons b rest => exact h.2

theorem Linked.snoc {r : Registry} (z : Nat) :
    ∀ {l : List Nat}, Linked r l →
      (∀ y, l.getLast? = some y → r.next y = z ∧ r.prev z = y) → Linked r (l ++ [z]) := by
  intro l
  induction l with
  | nil => intro _ _; trivial
  | cons a rest ih =>
    intro h hl
    cases rest with
    | nil => exact ⟨hl a rfl, trivial⟩
    | cons b rest =>
      refine ⟨h.1, ih h.2 ?_⟩
      intro y hy
      exact hl y (by rw [List.getLast?_cons_cons]; exact hy)

theorem Linked.init {r : Registry} (z : Nat) :
    ∀ {l : List Nat}, Linked r (l ++ [z]) →
      Linked r l ∧ ∀ y, l.getLast? = some y → r.next y = z ∧ r.prev z = y := by
  intro l
  induction l with
  | nil => intro _; exact ⟨trivial, fun y hy => by cases hy⟩
  | cons a rest ih =>
    intro h
    cases rest with
    | nil =>
      refine ⟨trivial, ?_⟩
      intro y hy
      simp only [List.getLast?_singleton, Option.some.injEq] at hy
      subst hy
      exact h.1
    | cons b rest =>
      obtain ⟨h1, h2⟩ := ih h.2
      refine ⟨⟨h.1, h1⟩, ?_⟩
      intro y hy
      exact h2 y (by rw [List.getLast?_cons_cons] at hy; exact hy)

theorem Linked.frameLinks {r r1 : Registry} :
    ∀ {l : List Nat}, Linked r l →
      (∀ a ∈ l.dropLast, r1.next a = r.next a) → (∀ a ∈ l.tail, r1.prev a = r.prev a) →
      Linked r1 l := by
  intro l
  induction l with
  | nil => intro _ _ _; trivial
  | cons a rest ih =>
    intro h hn hp
    cases rest with
    | nil => trivial
    | cons b rest =>
      refine ⟨⟨?_, ?_⟩, ih h.2 ?_ ?_⟩
      · rw [hn a (by simp)]; exact h.1.1
      · rw [hp b (by simp)]; exact h.1.2
      · intro c hc
        exact hn c (by simp only [List.dropLast_cons₂]; exact List.mem_cons_of_mem _ hc)
      · intro c hc
        exact hp c (by simp only [List.tail_cons] at hc ⊢; exact List.mem_cons_of_mem _ hc)

theorem getLast_not_mem_dropLast {l : List Nat} (hn : l.Nodup) {z : Nat}
    (hz : l.getLast? = some z) : z ∉ l.dropLast := by
  have h := List.dropLast_append_getLast? z hz
  rw [← h] at hn
  intro hm
  exact (List.nodup_append.1 hn).2.2 hm (List.mem_singleton_self z)

theorem getLast_mem {l : List Nat} {z : Nat} (hz : l.getLast? = some z) : z ∈ l := by
  exact List.mem_of_getLast?_eq_some hz

theorem Cyc.rotate {r : Registry} {a : Nat} {rest : List Nat} (h : Cyc r (a :: rest)) :
    Cyc r (rest ++ [a]) := by
  obtain ⟨hn, hl⟩ := h
  refine ⟨List.nodup_append_comm.1 (by simpa using hn), ?_⟩
  cases rest with
  | nil => exact hl
  | cons b rest =>
    have h1 : Linked r (b :: rest ++ [a]) := hl.2
    have h2 := Linked.snoc b h1 (by
      intro y hy
      have hlast : ((b :: rest) ++ [a]).getLast? = some a := List.getLast?_concat _
      rw [hlast] at hy
      simp only [Option.some.injEq] at hy
      subst hy
      exact hl.1)
    simpa using h2

theorem Cyc.rotate_append {r : Registry} :
    ∀ (pre post : List Nat), Cyc r (pre ++ post) → Cyc r (post ++ pre) := by
  intro pre
  induction pre with
  | nil => intro post h; simpa using h
  | cons a pre ih =>
    intro post h
    have h1 : Cyc r ((pre ++ post) ++ [a]) := Cyc.rotate h
    rw [List.append_assoc] at h1
    have h2 := ih (post ++ [a]) h1
    simpa using h2

theorem construct_empty {r : Registry} (h : Ring r []) (x : Nat) :
    InterpreterImp.construct r x =
      InterpreterImp.globalInit
        { r with s_hook := some x, next := Function.update r.next x x,
                 prev := Function.update r.prev x x } ∧
    Ring (InterpreterImp.construct r x) [x] := by
  have hh : r.s_hook = none := h.2
  have he : InterpreterImp.construct r x =
      InterpreterImp.globalInit
        { r with s_hook := some x, next := Function.update r.next x x,
                 prev := Function.update r.prev x x } := by
    simp only [InterpreterImp.construct, hh]
  refine ⟨he, ?_⟩
  rw [he]
  refine ⟨⟨by simp, ?_⟩, rfl⟩
  exact ⟨⟨by simp [InterpreterImp.globalInit], by simp [InterpreterImp.globalInit]⟩, trivial⟩

theorem construct_cons {r : Registry} {a : Nat} {rest : List Nat} (h : Ring r (a :: rest))
    {x : Nat} (hx : x ∉ a :: rest) :
    Ring (InterpreterImp.construct r x) (a :: x :: rest) ∧
    (InterpreterImp.construct r x).singletons = r.singletons ∧
    (InterpreterImp.construct r x).calls = r.calls ∧
    (InterpreterImp.construct r x).heapTop = r.heapTop := by
  obtain ⟨⟨hn, hl⟩, hh⟩ := h
  have hh : r.s_hook = some a := hh
  have hxa : x ≠ a := fun h => hx (h ▸ List.mem_cons_self _ _)
  have hxr : x ∉ rest := fun h => hx (List.mem_cons_of_mem _ h)
  have har : a ∉ rest := (List.nodup_cons.1 hn).1
  have hnext : Function.update r.next x (r.next a) a = r.next a := by
    rw [Function.update_noteq (Ne.symm hxa)]
  have he : InterpreterImp.construct r x =
      { r with
        prev := Function.update (Function.update r.prev x a) (r.next a) x,
        next := Function.update (Function.update r.next x (r.next a)) a x } := by
    simp only [InterpreterImp.construct, hh, hnext]
  rw [he]
  refine ⟨⟨⟨?_, ?_⟩, hh⟩, rfl, rfl, rfl⟩
  · simp only [List.nodup_cons, List.mem_cons, not_or]
    exact ⟨⟨Ne.symm hxa, har⟩, hxr, (List.nodup_cons.1 hn).2⟩
  · cases rest with
    | nil =>
      -- the ring was `a` alone: `next a = a`, `prev a = a`
      have h1 : r.next a = a := hl.1.1
      simp only [h1]
      refine ⟨⟨by simp, ?_⟩, ⟨?_, ?_⟩, trivial⟩
      · simp [Function.update_noteq hxa]
      · simp [Function.update_noteq hxa]
      · simp
    | cons b rest =>
      have h1 : r.next a = b := hl.1.1
      have hxb : x ≠ b := fun h => hxr (h ▸ List.mem_cons_self _ _)
      have hab : a ≠ b := fun h => har (h ▸ List.mem_cons_self _ _)
      have hnb := (List.nodup_cons.1 (List.nodup_cons.1 hn).2)
      simp only [h1]
      refine ⟨⟨by simp, ?_⟩, ⟨?_, ?_⟩, ?_⟩
      · simp [Function.update_noteq hxb]
      · simp [Function.update_noteq hxa]
      · simp
      · have hold : Linked r (b :: rest ++ [a]) := hl.2
        refine Linked.frameLinks hold ?_ ?_
        · intro c hc
          have hdl : ((b :: rest) ++ [a]).dropLast = b :: rest := List.dropLast_concat
          have hc' : c ∈ b :: rest := hdl ▸ hc
          have hca : c ≠ a := fun h => har (h ▸ hc')
          have hcx : c ≠ x := fun h => hxr (h ▸ hc')
          simp [Function.update_noteq hca, Function.update_noteq hcx]
        · intro c hc
          have hc2 : c ∈ rest ++ [a] := hc
          have hc3 : c ∈ rest ∨ c = a := by
            rcases List.mem_append.1 hc2 with h | h
            · exact Or.inl h
            · exact Or.inr (List.mem_singleton.1 h)
          have hcb : c ≠ b := by
            rcases hc3 with hc | hc
            · exact fun h => hnb.1 (h ▸ hc)
            · exact hc ▸ hab
          have hcx : c ≠ x := by
            rcases hc3 with hc | hc
            · exact fun h => hxr (h ▸ List.mem_cons_of_mem _ hc)
            · exact hc ▸ (Ne.symm hxa)
          simp [Function.update_noteq hcb, Function.update_noteq hcx]

theorem clear_single {r : Registry} {x : Nat} (h : Cyc r [x]) :
    Ring (InterpreterImp.clear r x) [] ∧
    (InterpreterImp.clear r x).singletons.allNull = true ∧
    (InterpreterImp.clear r x).calls = r.calls ++ [RegistryCall.globalClear] ∧
    (InterpreterImp.clear r x).s_hook = none := by
  have h1 : r.next x = x := h.2.1.1
  have h2 : r.prev x = x := h.2.1.2
  have he : InterpreterImp.clear r x =
      InterpreterImp.globalClear
        { r with prev := Function.update r.prev x x, next := Function.update r.next x x,
                 s_hook := none } := by
    have e1 : Function.update r.prev x x x = x := Function.update_same _ _ _
    unfold InterpreterImp.clear
    simp only []
    rw [h1, h2, e1]
    simp
  rw [he]
  exact ⟨⟨⟨List.nodup_nil, trivial⟩, rfl⟩, rfl, rfl, rfl⟩

theorem clear_cons {r : Registry} {x b : Nat} {rest : List Nat}
    (h : Cyc r (x :: b :: rest)) :
    Ring (InterpreterImp.clear r x) (b :: rest) ∧
    (InterpreterImp.clear r x).singletons = r.singletons ∧
    (InterpreterImp.clear r x).calls = r.calls := by
  obtain ⟨hn, hl⟩ := h
  have hxn : x ∉ b :: rest := (List.nodup_cons.1 hn).1
  have hnb : (b :: rest).Nodup := (List.nodup_cons.1 hn).2
  have hxb : x ≠ b := fun h => hxn (h ▸ List.mem_cons_self _ _)
  have h1 : r.next x = b := hl.1.1
  have hpath : Linked r ((b :: rest) ++ [x]) := hl.2
  obtain ⟨hin, hlast⟩ := Linked.init x hpath
  obtain ⟨z, hz⟩ : ∃ z, (b :: rest).getLast? = some z :=
    ⟨(b :: rest).getLast (by simp), List.getLast?_eq_getLast _ _⟩
  obtain ⟨hzx, hxz⟩ := hlast z hz
  have hzmem : z ∈ b :: rest := getLast_mem hz
  have hxz' : x ≠ z := fun h => hxn (h ▸ hzmem)
  have hbx : some b ≠ some x := fun h => hxb (Option.some.inj h).symm
  have he : InterpreterImp.clear r x =
      { r with prev := Function.update r.prev b z, next := Function.update r.next z b,
               s_hook := some b } := by
    have e1 : Function.update r.prev b z x = z := by
      rw [Function.update_noteq hxb, hxz]
    have e2 : Function.update r.next z b x = b := by
      rw [Function.update_noteq hxz', h1]
    unfold InterpreterImp.clear
    simp only []
    rw [h1, hxz, e1, e2]
    simp [hxb.symm]
  rw [he]
  refine ⟨⟨⟨hnb, ?_⟩, rfl⟩, rfl, rfl⟩
  have hfr : Linked
      { r with prev := Function.update r.prev b z, next := Function.update r.next z b,
               s_hook := some b } (b :: rest) := by
    refine Linked.frameLinks hin ?_ ?_
    · intro c hc
      have hcz : c ≠ z := fun h => getLast_not_mem_dropLast hnb hz (h ▸ hc)
      simp [Function.update_noteq hcz]
    · intro c hc
      have hcb : c ≠ b := fun h => (List.nodup_cons.1 hnb).1 (h ▸ hc)
      simp [Function.update_noteq hcb]
  refine Linked.snoc b hfr ?_
  intro y hy
  rw [hz] at hy
  simp only [Option.some.injEq] at hy
  subst hy
  simp

theorem mem_rotate {l : List Nat} {x : Nat} (hx : x ∈ l) :
    ∃ rest, (∀ r, Cyc r l → Cyc r (x :: rest)) ∧ (l.erase x).Perm rest := by
  obtain ⟨pre, post, hl⟩ := List.append_of_mem hx
  refine ⟨post ++ pre, ?_, ?_⟩
  · intro r hc
    rw [hl] at hc
    exact Cyc.rotate_append pre (x :: post) hc
  · have h1 : l.Perm (x :: l.erase x) := List.perm_cons_erase hx
    have h2 : l.Perm (x :: (post ++ pre)) := by
      rw [hl]
      exact List.perm_append_comm
    exact (List.Perm.cons_inv (h1.symm.trans h2))

/-- C18: the five singletons are live exactly while an interpreter is
registered.  In a process with no interpreter they are null; and from any
registry that is a ring of the interpreters `l` with the singletons live iff
`l` is not empty, constructing a new interpreter or clearing a registered one
gives such a registry again, where: the first construction calls `globalInit`;
a further construction calls nothing and leaves the five pointers as they
are; clearing one of several calls nothing and leaves them as they are; and
clearing the last one calls `globalClear`, which sets all five to null. -/
theorem singletons_lifecycle :
    Live Registry.initial [] ∧
    ∀ r l, Live r l →
      (∀ x, x ∉ l →
        (∃ l1, Live (InterpreterImp.construct r x) l1 ∧ l1.Perm (x :: l)) ∧
        (l = [] →
          (InterpreterImp.construct r x).calls = r.calls ++ [RegistryCall.globalInit] ∧
          (InterpreterImp.construct r x).singletons.allLive = true) ∧
        (l ≠ [] →
          (InterpreterImp.construct r x).calls = r.calls ∧
          (InterpreterImp.construct r x).singletons = r.singletons)) ∧
      (∀ x, x ∈ l →
        (∃ l1, Live (InterpreterImp.clear r x) l1 ∧ l1.Perm (l.erase x)) ∧
        (l ≠ [x] →
          (InterpreterImp.clear r x).calls = r.calls ∧
          (InterpreterImp.clear r x).singletons = r.singletons ∧
          (InterpreterImp.clear r x).singletons.allLive = true) ∧
        (l = [x] →
          (InterpreterImp.clear r x).calls = r.calls ++ [RegistryCall.globalClear] ∧
          (InterpreterImp.clear r x).singletons.allNull = true ∧
          (InterpreterImp.clear r x).s_hook = none)) := by
  refine ⟨⟨⟨⟨List.nodup_nil, trivial⟩, rfl⟩, fun _ => rfl, fun h => absurd rfl h⟩, ?_⟩
  intro r l hlive
  constructor
  · intro x hx
    cases l with
    | nil =>
      obtain ⟨he, hr⟩ := construct_empty hlive.ring x
      have hs : (InterpreterImp.construct r x).singletons.allLive = true := by
        rw [he]; rfl
      refine ⟨⟨[x], ⟨hr, (fun h => by cases h), fun _ => hs⟩, List.Perm.refl _⟩, ?_, ?_⟩
      · intro _
        exact ⟨by rw [he]; rfl, hs⟩
      · intro h
        exact absurd rfl h
    | cons a rest =>
      obtain ⟨hr, hs, hc, _⟩ := construct_cons hlive.ring hx
      refine ⟨⟨a :: x :: rest, ⟨hr, (fun h => by cases h), fun _ => ?_⟩, List.Perm.swap _ _ _⟩,
        ?_, ?_⟩
      · rw [hs]; exact hlive.live (by simp)
      · intro h
        cases h
      · intro _
        exact ⟨hc, hs⟩
  · intro x hx
    obtain ⟨rest, hrot, hperm⟩ := mem_rotate hx
    have hcyc := hrot r hlive.ring.1
    have hne : l ≠ [] := fun h => by rw [h] at hx; cases hx
    cases rest with
    | nil =>
      have hl : l = [x] := by
        have h1 : l.Perm (x :: l.erase x) := List.perm_cons_erase hx
        have h2 : l.Perm [x] := h1.trans (List.Perm.cons x hperm)
        exact List.perm_singleton.1 h2
      obtain ⟨hr, hs, hc, hh⟩ := clear_single hcyc
      refine ⟨⟨[], ⟨hr, fun _ => hs, fun h => absurd rfl h⟩, hperm.symm⟩, ?_, ?_⟩
      · intro h
        exact absurd hl h
      · intro _
        exact ⟨hc, hs, hh⟩
    | cons b rest =>
      obtain ⟨hr, hs, hc⟩ := clear_cons hcyc
      have hlv : (InterpreterImp.clear r x).singletons.allLive = true := by
        rw [hs]; exact hlive.live hne
      refine ⟨⟨b :: rest, ⟨hr, (fun h => by cases h), fun _ => hlv⟩, hperm.symm⟩, ?_, ?_⟩
      · intro _
        exact ⟨hc, hs, hlv⟩
      · intro hl
        rw [hl] at hperm
        simp only [List.erase_cons_head] at hperm
        exact absurd (List.Perm.length_eq hperm) (by simp)

/-- Two interpreters, 1 and 2, created in a fresh process and cleared in the
same order: `globalInit` runs once, at the first creation, and `globalClear`
once, at the last clearing, after which all five singletons are null. -/
theorem singletons_lifecycle_witness :
    (InterpreterImp.construct Registry.initial 1).calls = [RegistryCall.globalInit] ∧
    (InterpreterImp.construct Registry.initial 1).singletons.allLive = true ∧
    (InterpreterImp.construct (InterpreterImp.construct Registry.initial 1) 2).calls
      = [RegistryCall.globalInit] ∧
    (InterpreterImp.clear
      (InterpreterImp.construct (InterpreterImp.construct Registry.initial 1) 2) 1).calls
      = [RegistryCall.globalInit] ∧
    (InterpreterImp.clear
      (InterpreterImp.construct (InterpreterImp.construct Registry.initial 1) 2)
        1).singletons.allLive = true ∧
    (InterpreterImp.clear (InterpreterImp.clear
      (InterpreterImp.construct (InterpreterImp.construct Registry.initial 1) 2) 1) 2).calls
      = [RegistryCall.globalInit, RegistryCall.globalClear] ∧
    (InterpreterImp.clear (InterpreterImp.clear
      (InterpreterImp.construct (InterpreterImp.construct Registry.initial 1) 2) 1)
        2).singletons.allNull = true := by
  have h0 := singletons_lifecycle.1
  have h1 := (singletons_lifecycle.2 Registry.initial [] h0).1 1 (by simp)
  refine ⟨(h1.2.1 rfl).1, (h1.2.1 rfl).2, by decide, by decide, by decide, by decide, by decide⟩

/-! ## Theorems: evaluation contexts -/

/-- C19: a `ContextImp` constructed with code type EvalCode and a non-null
calling context has the scope chain, the variable object and the `this` value
of the calling context, whatever global object, `this` argument, function
scope and activation the constructor is given. -/
theorem evalCode_inherits (glob thisV : Value) (c : ContextImp) (funcScope : List Value)
    (newActivation : Value) :
    (ContextImp.create glob thisV CodeType.EvalCode (some c) funcScope
      newActivation).scopeChain = c.scopeChain ∧
    (ContextImp.create glob thisV CodeType.EvalCode (some c) funcScope
      newActivation).variableObject = c.variableObject ∧
    (ContextImp.create glob thisV CodeType.EvalCode (some c) funcScope
      newActivation).thisValue = c.thisValue ∧
    (ContextImp.create glob thisV CodeType.EvalCode (some c) funcScope
      newActivation).callingContext = some c ∧
    (ContextImp.create glob thisV CodeType.EvalCode (some c) funcScope
      newActivation).codeType = CodeType.EvalCode :=
  ⟨rfl, rfl, rfl, rfl, rfl⟩

theorem running_context (env : Env) (w : World) (code : UString) (thisV : Value)
    (sourceURL : UString) (line : Int) :
    ∃ ctx, (InterpreterImp.running env w code thisV sourceURL line).context = some ctx ∧
      ctx.codeType = CodeType.GlobalCode ∧ ctx.scopeChain = [w.global] ∧
      ctx.variableObject = w.global ∧ ctx.thisValue = w.global := by
  obtain ⟨pre, hp⟩ := parsed_opened env w code sourceURL line
  have hg : (InterpreterImp.counted env w code sourceURL line).global = w.global := by
    simp [InterpreterImp.counted, hp.global]
  refine ⟨ContextImp.create (InterpreterImp.counted env w code sourceURL line).global
    (InterpreterImp.thisObject env (InterpreterImp.counted env w code sourceURL line)
      thisV).1 CodeType.GlobalCode none [] Value.absent, rfl, rfl, ?_, ?_, ?_⟩
  · show [(InterpreterImp.counted env w code sourceURL line).global] = [w.global]
    rw [hg]
  · show (InterpreterImp.counted env w code sourceURL line).global = w.global
    exact hg
  · show (InterpreterImp.counted env w code sourceURL line).global = w.global
    exact hg

/-- C20: a `ContextImp` constructed with code type GlobalCode, or with EvalCode
and no calling context, has the global object alone as its scope chain and
the global object as its variable object and as its `this` value, whatever
`this` argument it is given; and when `InterpreterImp::evaluate` executes a
program, whatever `thisV` it was called with, the program runs in a context
whose `this` value, variable object and only scope is the interpreter's
global object. -/
theorem globalCode_context (glob thisV : Value) (callingCon : Option ContextImp)
    (funcScope : List Value) (newActivation : Value) :
    ((ContextImp.create glob thisV CodeType.GlobalCode callingCon funcScope
        newActivation).scopeChain = [glob] ∧
      (ContextImp.create glob thisV CodeType.GlobalCode callingCon funcScope
        newActivation).variableObject = glob ∧
      (ContextImp.create glob thisV CodeType.GlobalCode callingCon funcScope
        newActivation).thisValue = glob) ∧
    ((ContextImp.create glob thisV CodeType.EvalCode none funcScope
        newActivation).scopeChain = [glob] ∧
      (ContextImp.create glob thisV CodeType.EvalCode none funcScope
        newActivation).variableObject = glob ∧
      (ContextImp.create glob thisV CodeType.EvalCode none funcScope
        newActivation).thisValue = glob) ∧
    (∀ (env : Env) (fuel : Nat) (w : World) (code sourceURL : UString) (line : Int)
        (prog : ProgramNode),
      w.recursion < 20 →
      InterpreterImp.vetoed env w code sourceURL line = false →
      (Parser.parse env (lockInterpreter w) sourceURL line code).1.progNode = some prog →
      (InterpreterImp.entered env w code thisV sourceURL line).globExec.hadException = false →
      ∃ wr ctx,
        InterpreterImp.evaluate env (fuel + 1) w code thisV sourceURL line =
          (match prog.execute
              (fun w1 call => InterpreterImp.evaluate env fuel w1 call.code call.thisV
                call.sourceURL call.startingLineNumber) wr with
            | none => none
            | some r => some (r.1, unlockInterpreter
                { { r.2 with context := none } with recursion := r.2.recursion - 1 })) ∧
        wr.context = some ctx ∧
        ctx.scopeChain = [w.global] ∧ ctx.variableObject = w.global ∧
        ctx.thisValue = w.global ∧
        wr.events.getLast? = some (Event.execute (w.recursion + 1) w.global)) := by
  refine ⟨⟨rfl, rfl, rfl⟩, ⟨rfl, rfl, rfl⟩, ?_⟩
  intro env fuel w code sourceURL line prog hc hv hp he
  obtain ⟨ctx, h1, _, h3, h4, h5⟩ := running_context env w code thisV sourceURL line
  obtain ⟨pre, _, _, _, _, _, hev⟩ := running_opened env w code thisV sourceURL line
  refine ⟨InterpreterImp.running env w code thisV sourceURL line, ctx,
    evaluate_execute env fuel w code thisV sourceURL line prog (by omega) hv hp he,
    h1, h3, h4, h5, ?_⟩
  rw [hev]
  have : w.events ++ Event.lockInterpreter ::
      (Event.parse sourceURL line code :: pre ++ [Event.execute (w.recursion + 1) w.global])
      = (w.events ++ Event.lockInterpreter :: Event.parse sourceURL line code :: pre) ++
        [Event.execute (w.recursion + 1) w.global] := by simp
  rw [this]
  exact List.getLast?_concat _

/-- On the sample interpreter, whose global object is object 0, the program `1`
evaluated with object 5 as `this` runs with object 0 as `this`. -/
theorem globalCode_context_witness :
    sampleWorld.recursion < 20 ∧
    (∃ wr ctx,
      InterpreterImp.evaluate sampleEnv 1 sampleWorld "1" (Value.object 5) "" 0 =
        (match (ProgramNode.done (Completion.mk ComplType.Normal (Value.number 1))).execute
            (fun w1 call => InterpreterImp.evaluate sampleEnv 0 w1 call.code call.thisV
              call.sourceURL call.startingLineNumber) wr with
          | none => none
          | some r => some (r.1, unlockInterpreter
              { { r.2 with context := none } with recursion := r.2.recursion - 1 })) ∧
      wr.context = some ctx ∧
      ctx.scopeChain = [sampleWorld.global] ∧ ctx.variableObject = sampleWorld.global ∧
      ctx.thisValue = sampleWorld.global ∧
      wr.events.getLast? = some (Event.execute (sampleWorld.recursion + 1) sampleWorld.global)) ∧
    (InterpreterImp.evaluate sampleEnv 1 sampleWorld "1" (Value.object 5) "" 0).map
        (fun r => r.2.events) =
      some [Event.lockInterpreter, Event.parse "" 0 "1", Event.toObject (Value.object 5),
        Event.execute 1 (Value.object 0), Event.unlockInterpreter] :=
  ⟨by decide,
   (globalCode_context (Value.object 0) (Value.object 5) none [] Value.absent).2.2
     sampleEnv 0 sampleWorld "1" "" 0
     (ProgramNode.done (Completion.mk ComplType.Normal (Value.number 1)))
     (by decide) (by decide) rfl (by decide),
   by decide⟩

/-! ## Theorems: context construction and destruction -/

theorem create_callingContext (glob thisV : Value) (type : CodeType)
    (callingCon : Option ContextImp) (funcScope : List Value) (newActivation : Value) :
    (ContextImp.create glob thisV type callingCon funcScope newActivation).callingContext
      = callingCon := by
  cases type <;> cases callingCon <;> rfl

/-- C21, as the claim states it, fails: while the program `nested` runs on the
sample interpreter a context is current; the nested call of `evaluate` on `1`
that the program makes returns with no current context, and so does
constructing and then destroying a global-code context with no calling
context in that world. -/
theorem nested_evaluate_drops_context :
    (InterpreterImp.running sampleEnv sampleWorld "nested" Value.absent "" 0).context.isSome
      = true ∧
    (InterpreterImp.evaluate sampleEnv 1
        (InterpreterImp.running sampleEnv sampleWorld "nested" Value.absent "" 0)
        "1" Value.absent "" 0).map (fun r => r.2.context.isSome) = some false ∧
    (ContextImp.destroy
        (ContextImp.construct
          (InterpreterImp.running sampleEnv sampleWorld "nested" Value.absent "" 0)
          (Value.object 0) (Value.object 0) CodeType.GlobalCode none [] Value.absent).2
        (ContextImp.construct
          (InterpreterImp.running sampleEnv sampleWorld "nested" Value.absent "" 0)
          (Value.object 0) (Value.object 0) CodeType.GlobalCode none [] Value.absent).1
      ).context.isSome = false := by
  refine ⟨by decide, by decide, by decide⟩

/-- C21, amended: constructing a `ContextImp` makes it the interpreter's
current context, and destroying it, whatever happened to the interpreter in
between, makes its calling-context argument the current context and changes
nothing else; this restores the interpreter as it was before the construction
exactly when the calling-context argument is the context that was current
then.  The context `InterpreterImp::evaluate` builds has no calling context:
every call of `evaluate` that executes a program and returns leaves the
interpreter with no current context. -/
theorem context_restores_calling (w : World) (glob thisV : Value) (type : CodeType)
    (callingCon : Option ContextImp) (funcScope : List Value) (newActivation : Value) :
    (ContextImp.construct w glob thisV type callingCon funcScope newActivation).2.context
      = some (ContextImp.construct w glob thisV type callingCon funcScope newActivation).1 ∧
    (∀ w1 : World,
      ContextImp.destroy w1
          (ContextImp.construct w glob thisV type callingCon funcScope newActivation).1
        = { w1 with context := callingCon }) ∧
    (ContextImp.destroy
        (ContextImp.construct w glob thisV type callingCon funcScope newActivation).2
        (ContextImp.construct w glob thisV type callingCon funcScope newActivation).1 = w ↔
      callingCon = w.context) ∧
    (∀ (env : Env) (fuel : Nat) (code sourceURL : UString) (line : Int) (prog : ProgramNode)
        (r : Completion × World),
      w.recursion < 20 →
      InterpreterImp.vetoed env w code sourceURL line = false →
      (Parser.parse env (lockInterpreter w) sourceURL line code).1.progNode = some prog →
      (InterpreterImp.entered env w code thisV sourceURL line).globExec.hadException = false →
      InterpreterImp.evaluate env (fuel + 1) w code thisV sourceURL line = some r →
      r.2.context = none) := by
  have hd : ∀ w1 : World,
      ContextImp.destroy w1
          (ContextImp.construct w glob thisV type callingCon funcScope newActivation).1
        = { w1 with context := callingCon } := by
    intro w1
    simp only [ContextImp.destroy, ContextImp.construct, create_callingContext,
      InterpreterImp.setContext]
  refine ⟨rfl, hd, ?_, ?_⟩
  · rw [hd]
    constructor
    · intro h
      have := congrArg World.context h
      exact this
    · intro h
      subst h
      rfl
  · intro env fuel code sourceURL line prog r hc hv hp he hr
    rw [evaluate_execute env fuel w code thisV sourceURL line prog (by omega) hv hp he] at hr
    split at hr
    · cases hr
    · cases hr
      rfl

/-- On the sample interpreter: a function-code context constructed with the
current context (none) as calling context is popped back to the starting
world, and evaluating `1` leaves no current context. -/
theorem context_restores_calling_witness :
    (ContextImp.destroy
        (ContextImp.construct sampleWorld (Value.object 0) (Value.object 5)
          CodeType.FunctionCode none [] (Value.object 9)).2
        (ContextImp.construct sampleWorld (Value.object 0) (Value.object 5)
          CodeType.FunctionCode none [] (Value.object 9)).1 = sampleWorld) ∧
    (∀ r, InterpreterImp.evaluate sampleEnv 1 sampleWorld "1" (Value.object 5) "" 0 = some r →
      r.2.context = none) :=
  ⟨(context_restores_calling sampleWorld (Value.object 0) (Value.object 5)
      CodeType.FunctionCode none [] (Value.object 9)).2.2.1.2 rfl,
   fun r => (context_restores_calling sampleWorld (Value.object 0) (Value.object 5)
      CodeType.GlobalCode none [] Value.absent).2.2.2 sampleEnv 0 "1" "" 0
      (ProgramNode.done (Completion.mk ComplType.Normal (Value.number 1))) r
      (by decide) (by decide) rfl (by decide)⟩

/-! ## Theorems: the parser entry point -/

/-- C24, as the claim states it, fails: in a fresh process (`Parser::sid` is 0)
two successive calls of `Parser::parse` on the program `1` report the source
ids 1 and 0. -/
theorem parse_twice_sourceId :
    (Parser.parse sampleEnv sampleWorld "" 0 "1").1.sourceId = 1 ∧
    (Parser.parse sampleEnv (Parser.parse sampleEnv sampleWorld "" 0 "1").2 "" 0 "1").1.sourceId
      = 0 := by
  refine ⟨by decide, by decide⟩

/-- C24, amended: two successive calls of `Parser::parse` with the same source
URL, starting line and code return the same tree, the same error line and the
same error message; the reported source id is `Parser::sid` plus one on the
first call and 0 on the second, so it is the same exactly when `Parser::sid`
was -1 before the first call; and when `kjsyyparse` fails the returned tree is
null, the message is "Parse error" and the error line is the lexer's current
line number. -/
theorem parse_repeatable (env : Env) (w : World) (sourceURL : UString) (line : Int)
    (code : UString) :
    (Parser.parse env (Parser.parse env w sourceURL line code).2 sourceURL line code).1.progNode
      = (Parser.parse env w sourceURL line code).1.progNode ∧
    (Parser.parse env (Parser.parse env w sourceURL line code).2 sourceURL line code).1.errLine
      = (Parser.parse env w sourceURL line code).1.errLine ∧
    (Parser.parse env (Parser.parse env w sourceURL line code).2 sourceURL line code).1.errMsg
      = (Parser.parse env w sourceURL line code).1.errMsg ∧
    (Parser.parse env w sourceURL line code).1.sourceId = w.sid + 1 ∧
    (Parser.parse env (Parser.parse env w sourceURL line code).2 sourceURL line code).1.sourceId
      = 0 ∧
    ((env.kjsyyparse sourceURL line code).parseError ≠ 0 →
      (Parser.parse env w sourceURL line code).1.progNode = none ∧
      (Parser.parse env w sourceURL line code).1.errMsg = "Parse error" ∧
      (Parser.parse env w sourceURL line code).1.errLine
        = (env.kjsyyparse sourceURL line code).lineNo) ∧
    ((env.kjsyyparse sourceURL line code).parseError = 0 →
      (Parser.parse env w sourceURL line code).1.progNode
        = (env.kjsyyparse sourceURL line code).progNode ∧
      (Parser.parse env w sourceURL line code).1.errMsg = "" ∧
      (Parser.parse env w sourceURL line code).1.errLine = -1) := by
  have h2 : (Parser.parse env (Parser.parse env w sourceURL line code).2 sourceURL line
      code).1.sourceId = 0 := by
    rw [parse_sourceId, parse_snd]
    simp
  refine ⟨?_, ?_, ?_, parse_sourceId env w sourceURL line code, h2, ?_, ?_⟩
  · simp only [Parser.parse]
    split <;> rfl
  · simp only [Parser.parse]
    split <;> rfl
  · simp only [Parser.parse]
    split <;> rfl
  · intro h
    simp only [Parser.parse]
    split
    · exact ⟨rfl, rfl, rfl⟩
    · contradiction
  · intro h
    simp only [Parser.parse]
    split
    · contradiction
    · exact ⟨rfl, rfl, rfl⟩

/-- On the sample parser the source `)` fails on line 3, and the program `1`
parses. -/
theorem parse_repeatable_witness :
    ((Parser.parse sampleEnv sampleWorld "" 0 ")").1.progNode = none ∧
      (Parser.parse sampleEnv sampleWorld "" 0 ")").1.errMsg = "Parse error" ∧
      (Parser.parse sampleEnv sampleWorld "" 0 ")").1.errLine
        = (sampleEnv.kjsyyparse "" 0 ")").lineNo) ∧
    ((Parser.parse sampleEnv sampleWorld "" 0 "1").1.progNode
        = (sampleEnv.kjsyyparse "" 0 "1").progNode ∧
      (Parser.parse sampleEnv sampleWorld "" 0 "1").1.errMsg = "" ∧
      (Parser.parse sampleEnv sampleWorld "" 0 "1").1.errLine = -1) :=
  ⟨(parse_repeatable sampleEnv sampleWorld "" 0 ")").2.2.2.2.2.1 (by decide),
   (parse_repeatable sampleEnv sampleWorld "" 0 "1").2.2.2.2.2.2 (by decide)⟩

/-! ## Theorems: the registry is a ring -/

theorem Linked.link {r : Registry} :
    ∀ (p : List Nat) (i x y : Nat), Linked r p → p[i]? = some x → p[i + 1]? = some y →
      r.next x = y ∧ r.prev y = x
  | [], _, _, _, _, hx, _ => by simp at hx
  | [_], _, _, _, _, _, hy => by simp at hy
  | a :: b :: rest, 0, x, y, h, hx, hy => by
    simp only [List.getElem?_cons_zero, Option.some.injEq, zero_add,
      List.getElem?_cons_succ] at hx hy
    subst hx
    subst hy
    exact h.1
  | a :: b :: rest, i + 1, x, y, h, hx, hy =>
    Linked.link (b :: rest) i x y h.2 (by simpa using hx) (by simpa using hy)

/-- Along a linked path, `i` steps of `next` from the head give the entry at
index `i`. -/
theorem Linked.iterate {r : Registry} (p : List Nat) (a : Nat) (h : Linked r p)
    (ha : p[0]? = some a) : ∀ (i x : Nat), p[i]? = some x → r.next^[i] a = x := by
  intro i
  induction i with
  | zero =>
    intro x hx
    rw [ha] at hx
    exact Option.some.inj hx
  | succ i ih =>
    intro x hx
    have hi : i < p.length := by
      have := (List.getElem?_eq_some_iff.1 hx).1
      omega
    have hz : p[i]? = some p[i] := List.getElem?_eq_getElem hi
    have h1 := ih _ hz
    rw [Function.iterate_succ_apply', h1]
    exact (Linked.link p i _ x h hz hx).1

/-- In a ring every member is linked to a member after it and to a member
before it. -/
theorem Cyc.links {r : Registry} {l : List Nat} (h : Cyc r l) {x : Nat} (hx : x ∈ l) :
    (r.next x ∈ l ∧ r.prev (r.next x) = x) ∧ (r.prev x ∈ l ∧ r.next (r.prev x) = x) := by
  obtain ⟨pre, post, hl⟩ := List.append_of_mem hx
  have hc : Cyc r (x :: (post ++ pre)) := by
    have := Cyc.rotate_append pre (x :: post) (by rw [← hl]; exact h)
    simpa using this
  have hmem : ∀ y, y ∈ x :: (post ++ pre) → y ∈ l := by
    intro y hy
    rw [hl]
    simp only [List.mem_cons, List.mem_append] at hy ⊢
    tauto
  have hp : Linked r ((x :: (post ++ pre)) ++ [x]) := hc.2
  have hlen : ((x :: (post ++ pre)) ++ [x]).length = (post ++ pre).length + 2 := by
    simp only [List.length_append, List.length_cons, List.length_nil]
  constructor
  · have h0 : ((x :: (post ++ pre)) ++ [x])[0]? = some x := by simp
    have h1 : ((x :: (post ++ pre)) ++ [x])[0 + 1]?
        = some (((x :: (post ++ pre)) ++ [x])[1]) :=
      List.getElem?_eq_getElem (by omega)
    have hk := Linked.link _ 0 _ _ hp h0 h1
    have hin : ((x :: (post ++ pre)) ++ [x])[1] ∈ (x :: (post ++ pre)) ++ [x] :=
      List.getElem_mem _
    have hin2 : ((x :: (post ++ pre)) ++ [x])[1] ∈ x :: (post ++ pre) := by
      rcases List.mem_append.1 hin with h | h
      · exact h
      · rw [List.mem_singleton.1 h]
        exact List.mem_cons_self _ _
    rw [hk.1]
    exact ⟨hmem _ hin2, hk.2⟩
  · have hq := (Linked.init x hp).2
    have hne : (x :: (post ++ pre)).getLast? = some ((x :: (post ++ pre)).getLast (by simp)) :=
      List.getLast?_eq_getLast _ _
    have hk := hq _ hne
    rw [hk.2]
    exact ⟨hmem _ (List.getLast_mem _), hk.1⟩

/-- From the hook of a ring, `next` reaches every member and nothing else. -/
theorem Ring.reach {r : Registry} {l : List Nat} (h : Ring r l) :
    (∀ x ∈ l, ∃ hook k, r.s_hook = some hook ∧ r.next^[k] hook = x) ∧
    (∀ hook k, r.s_hook = some hook → r.next^[k] hook ∈ l) := by
  obtain ⟨hc, hh⟩ := h
  cases l with
  | nil =>
    refine ⟨(fun x hx => by cases hx), fun hook k hk => ?_⟩
    rw [hh] at hk
    cases hk
  | cons a rest =>
    have hp : Linked r ((a :: rest) ++ [a]) := hc.2
    constructor
    · intro x hx
      obtain ⟨i, hi⟩ := List.mem_iff_getElem?.1 hx
      have hlt : i < (a :: rest).length := (List.getElem?_eq_some_iff.1 hi).1
      have hi2 : ((a :: rest) ++ [a])[i]? = some x := by
        rw [List.getElem?_append_left hlt]
        exact hi
      exact ⟨a, i, hh, Linked.iterate _ a hp (by simp) i x hi2⟩
    · intro hook k hk
      rw [hh] at hk
      have hk2 : a = hook := Option.some.inj hk
      subst hk2
      induction k with
      | zero => exact List.mem_cons_self _ _
      | succ k ih =>
        rw [Function.iterate_succ_apply']
        exact (Cyc.links hc ih).1.1

/-- A history that is possible from the live set `L` keeps the registry a
ring of the live interpreters. -/
theorem run_ring : ∀ (ops : List RegistryOp) (r : Registry) (l L L1 : List Nat),
    Ring r l → l.Perm L → liveAfter L ops = some L1 →
    ∃ l1, Ring (Registry.run r ops) l1 ∧ l1.Perm L1 := by
  intro ops
  induction ops with
  | nil =>
    intro r l L L1 hr hp hl
    simp only [liveAfter, Option.some.injEq] at hl
    subst hl
    exact ⟨l, hr, hp⟩
  | cons op ops ih =>
    intro r l L L1 hr hp hl
    cases op with
    | construct x =>
      simp only [liveAfter] at hl
      split at hl
      · cases hl
      · rename_i hx
        have hxl : x ∉ l := fun h => hx (hp.mem_iff.1 h)
        cases l with
        | nil =>
          have hL : L = [] := List.Perm.eq_nil hp.symm
          subst hL
          exact ih _ [x] [x] L1 (construct_empty hr x).2 (List.Perm.refl _) hl
        | cons a rest =>
          refine ih _ (a :: x :: rest) (x :: L) L1 (construct_cons hr hxl).1 ?_ hl
          exact (List.Perm.swap x a rest).trans (List.Perm.cons x hp)
    | clear x =>
      simp only [liveAfter] at hl
      split at hl
      · rename_i hx
        have hxl : x ∈ l := hp.mem_iff.2 hx
        obtain ⟨rest, hrot, hperm⟩ := mem_rotate hxl
        have hcyc := hrot r hr.1
        have hpe : rest.Perm (L.erase x) := hperm.symm.trans (List.Perm.erase x hp)
        cases rest with
        | nil => exact ih _ [] (L.erase x) L1 (clear_single hcyc).1 hpe hl
        | cons b rest => exact ih _ (b :: rest) (L.erase x) L1 (clear_cons hcyc).1 hpe hl
      · cases hl

theorem liveAfter_append : ∀ (ops0 : List RegistryOp) (L : List Nat) (ops1 : List RegistryOp),
    liveAfter L (ops0 ++ ops1) = (liveAfter L ops0).bind (fun L0 => liveAfter L0 ops1)
  | [], L, ops1 => by simp [liveAfter]
  | RegistryOp.construct x :: ops0, L, ops1 => by
    simp only [List.cons_append, liveAfter]
    split
    · rfl
    · exact liveAfter_append ops0 _ ops1
  | RegistryOp.clear x :: ops0, L, ops1 => by
    simp only [List.cons_append, liveAfter]
    split
    · exact liveAfter_append ops0 _ ops1
    · rfl

theorem liveAfter_nodup (ops : List RegistryOp) (live : List Nat)
    (h : liveAfter [] ops = some live) : live.Nodup := by
  have h0 : Ring Registry.initial [] := ⟨⟨List.nodup_nil, trivial⟩, rfl⟩
  obtain ⟨l, hr, hp⟩ := run_ring ops Registry.initial [] [] live h0 (List.Perm.refl _) h
  exact hp.nodup_iff.1 hr.1.1

/-- C27: after any sequence of constructions of interpreters at addresses
that are not live and of `clear()` calls on live interpreters, started in a
process with no interpreter, the registry is a ring of exactly the live
interpreters: every live `x` has `x.next.prev = x` and `x.prev.next = x` with
`x.next` and `x.prev` live; every live interpreter is reached from `s_hook` by
following `next`; `s_hook` is null if and only if no interpreter is live; an
interpreter that is not live is never reached from `s_hook` by following
`next`; and an interpreter just cleared is not live. -/
theorem registry_ring (ops : List RegistryOp) (live : List Nat)
    (h : liveAfter [] ops = some live) :
    (∀ x ∈ live,
      (Registry.run Registry.initial ops).prev ((Registry.run Registry.initial ops).next x) = x ∧
      (Registry.run Registry.initial ops).next ((Registry.run Registry.initial ops).prev x) = x ∧
      (Registry.run Registry.initial ops).next x ∈ live ∧
      (Registry.run Registry.initial ops).prev x ∈ live) ∧
    (∀ x ∈ live, ∃ hook k, (Registry.run Registry.initial ops).s_hook = some hook ∧
      (Registry.run Registry.initial ops).next^[k] hook = x) ∧
    ((Registry.run Registry.initial ops).s_hook = none ↔ live = []) ∧
    (∀ x, x ∉ live → ∀ hook k, (Registry.run Registry.initial ops).s_hook = some hook →
      (Registry.run Registry.initial ops).next^[k] hook ≠ x) ∧
    (∀ ops0 x, ops = ops0 ++ [RegistryOp.clear x] → x ∉ live) := by
  have h0 : Ring Registry.initial [] := ⟨⟨List.nodup_nil, trivial⟩, rfl⟩
  obtain ⟨l, hr, hp⟩ := run_ring ops Registry.initial [] [] live h0 (List.Perm.refl _) h
  refine ⟨?_, ?_, ?_, ?_, ?_⟩
  · intro x hx
    have hl := Cyc.links hr.1 (hp.mem_iff.2 hx)
    exact ⟨hl.1.2, hl.2.2, hp.mem_iff.1 hl.1.1, hp.mem_iff.1 hl.2.1⟩
  · intro x hx
    exact hr.reach.1 x (hp.mem_iff.2 hx)
  · rw [hr.2]
    cases l with
    | nil =>
      have : live = [] := List.Perm.eq_nil hp.symm
      simp [this]
    | cons a rest =>
      have : live ≠ [] := fun e => by
        rw [e] at hp
        exact absurd (List.Perm.eq_nil hp) (by simp)
      simp [this]
  · intro x hx hook k hk he
    have := hr.reach.2 hook k hk
    rw [he] at this
    exact hx (hp.mem_iff.1 this)
  · intro ops0 x hops
    rw [hops, liveAfter_append] at h
    cases h1 : liveAfter [] ops0 with
    | none =>
      rw [h1] at h
      cases h
    | some L0 =>
      rw [h1] at h
      simp only [Option.some_bind, liveAfter] at h
      split at h
      · cases h
        exact (liveAfter_nodup ops0 L0 h1).not_mem_erase
      · cases h

/-- Interpreters 1, 2 and 3 are constructed and 2 is cleared: 1 and 3 are
live and linked both ways, `s_hook` is 1, one step of `next` from it reaches
3, and no number of steps reaches 2. -/
theorem registry_ring_witness :
    (∀ x ∈ [3, 1],
      (Registry.run Registry.initial [RegistryOp.construct 1, RegistryOp.construct 2,
        RegistryOp.construct 3, RegistryOp.clear 2]).prev
        ((Registry.run Registry.initial [RegistryOp.construct 1, RegistryOp.construct 2,
          RegistryOp.construct 3, RegistryOp.clear 2]).next x) = x) ∧
    (Registry.run Registry.initial [RegistryOp.construct 1, RegistryOp.construct 2,
      RegistryOp.construct 3, RegistryOp.clear 2]).s_hook = some 1 ∧
    (Registry.run Registry.initial [RegistryOp.construct 1, RegistryOp.construct 2,
      RegistryOp.construct 3, RegistryOp.clear 2]).next 1 = 3 ∧
    (∀ k, (Registry.run Registry.initial [RegistryOp.construct 1, RegistryOp.construct 2,
      RegistryOp.construct 3, RegistryOp.clear 2]).next^[k] 1 ≠ 2) :=
  ⟨fun x hx => ((registry_ring [RegistryOp.construct 1, RegistryOp.construct 2,
      RegistryOp.construct 3, RegistryOp.clear 2] [3, 1] (by decide)).1 x hx).1,
   by decide, by decide,
   fun k => (registry_ring [RegistryOp.construct 1, RegistryOp.construct 2,
      RegistryOp.construct 3, RegistryOp.clear 2] [3, 1] (by decide)).2.2.2.1 2 (by decide) 1 k
      (by decide)⟩

/-! ## Theorems: root objects -/

namespace Bindings

theorem setRootObjectImp_calls (cfg : GCConfig) (o : RootObject) (i : Nat) :
    RootObject.setRootObjectImp cfg o i
      = { imp := some i, calls := o.calls ++ RootObject.acquire cfg i } := by
  cases cfg with
  | mk u t => cases u <;> cases t <;> simp [RootObject.setRootObjectImp, RootObject.acquire]

theorem foldl_setRootObjectImp (cfg : GCConfig) :
    ∀ (pre : List Nat) (o : RootObject) (i : Nat),
      (pre ++ [i]).foldl (RootObject.setRootObjectImp cfg) o
        = { imp := some i,
            calls := o.calls ++ (pre ++ [i]).flatMap (RootObject.acquire cfg) } := by
  intro pre
  induction pre with
  | nil =>
    intro o i
    simp [setRootObjectImp_calls]
  | cons a pre ih =>
    intro o i
    simp only [List.cons_append, List.foldl_cons, ih, setRootObjectImp_calls,
      List.flatMap_cons, List.append_assoc]

/-- C25, as the claim states it, fails: built without conservative
collection, a `RootObject` given object 1 and then object 2 refs both and
derefs only 2; one never given an object runs `deref()` on the null pointer;
and built with conservative collection it calls `gcUnprotect` on null. -/
theorem rootObject_leaks_first :
    RootObject.lifetime { USE_CONSERVATIVE_GC := false, TEST_CONSERVATIVE_GC := false } [1, 2]
      = some [RootCall.ref 1, RootCall.ref 2, RootCall.deref 2] ∧
    RootObject.lifetime { USE_CONSERVATIVE_GC := false, TEST_CONSERVATIVE_GC := false } []
      = none ∧
    RootObject.lifetime { USE_CONSERVATIVE_GC := true, TEST_CONSERVATIVE_GC := false } []
      = some [RootCall.gcUnprotect none] := by
  refine ⟨by decide, by decide, by decide⟩

/-- C25, amended: a `RootObject` on which `setRootObjectImp` was called
exactly once, with object `i`, makes over its lifetime the calls that acquire
`i` (`ref`, `gcProtect` or both, by build flags) followed by the calls that
release `i` (`deref`, `gcUnprotect` or both, by the same flags) and no other
call.  After several `setRootObjectImp` calls every object given was
acquired, and the destructor releases the last one only. -/
theorem rootObject_releases_last (cfg : GCConfig) (pre : List Nat) (i : Nat) :
    RootObject.lifetime cfg [i] = some (RootObject.acquire cfg i ++ RootObject.release cfg i) ∧
    RootObject.lifetime cfg (pre ++ [i])
      = some ((pre ++ [i]).flatMap (RootObject.acquire cfg) ++ RootObject.release cfg i) ∧
    (∀ j, (RootObject.acquire cfg i ++ RootObject.release cfg i).count (RootCall.ref j)
        = (RootObject.acquire cfg i ++ RootObject.release cfg i).count (RootCall.deref j) ∧
      (RootObject.acquire cfg i ++ RootObject.release cfg i).count (RootCall.gcProtect j)
        = (RootObject.acquire cfg i ++ RootObject.release cfg i).count
            (RootCall.gcUnprotect (some j))) ∧
    RootCall.gcUnprotect none ∉ RootObject.acquire cfg i ++ RootObject.release cfg i := by
  have h : ∀ pre : List Nat, RootObject.lifetime cfg (pre ++ [i])
      = some ((pre ++ [i]).flatMap (RootObject.acquire cfg) ++ RootObject.release cfg i) := by
    intro pre
    unfold RootObject.lifetime
    rw [foldl_setRootObjectImp]
    cases cfg with
    | mk u t =>
      cases u <;> cases t <;>
        simp [RootObject.destructor, RootObject.release, RootObject.new]
  refine ⟨?_, h pre, ?_, ?_⟩
  · have := h []
    simpa using this
  · intro j
    cases cfg with
    | mk u t =>
      clear h
      by_cases hj : i = j <;> cases u <;> cases t <;>
        simp [RootObject.acquire, RootObject.release, List.count_cons, hj]
  · cases cfg with
    | mk u t => cases u <;> cases t <;> simp [RootObject.acquire, RootObject.release]

end Bindings

/-! ## Theorems: debugger attachment -/

/-- C26: `setDebugger(d)` calls `detach` on the debugger `d` it is given, when
that is not null, and on no other: replacing the attached debugger 1 by
debugger 2 calls `detach` on 2 and not on 1, and replacing it by null calls
nothing.  The destructor does call `detach(interpreter)` once on the attached
debugger, and calls nothing when none is attached. -/
theorem setDebugger_detaches_incoming :
    (∀ (h : DebuggerHost) (d : Nat),
      (InterpreterImp.setDebugger h (some d)).detached = h.detached ++ [(d, h.m_interpreter)] ∧
      (InterpreterImp.setDebugger h (some d)).dbg = some d) ∧
    (∀ h : DebuggerHost,
      (InterpreterImp.setDebugger h none).detached = h.detached ∧
      (InterpreterImp.setDebugger h none).dbg = none) ∧
    (InterpreterImp.setDebugger sampleDebuggerHost (some 2)).detached = [(2, 50)] ∧
    (1, 50) ∉ (InterpreterImp.setDebugger sampleDebuggerHost (some 2)).detached ∧
    (InterpreterImp.setDebugger sampleDebuggerHost none).detached = [] ∧
    (∀ (h : DebuggerHost) (r : Registry) (this old : Nat), h.dbg = some old →
      (InterpreterImp.destructor h r this).1.detached
        = h.detached ++ [(old, h.m_interpreter)]) ∧
    (∀ (h : DebuggerHost) (r : Registry) (this : Nat), h.dbg = none →
      (InterpreterImp.destructor h r this).1.detached = h.detached) ∧
    (InterpreterImp.destructor sampleDebuggerHost Registry.initial 50).1.detached
      = [(1, 50)] := by
  refine ⟨fun h d => ⟨rfl, rfl⟩, fun h => ⟨rfl, rfl⟩, by decide, by decide, by decide, ?_, ?_,
    by decide⟩
  · intro h r this old hd
    simp [InterpreterImp.destructor, Debugger.detach, hd]
  · intro h r this hd
    simp [InterpreterImp.destructor, hd]

/-! ## Theorems: marking -/

theorem markStatic_eq (h : MarkHeap) (p : Option Nat) :
    InterpreterImp.markStatic h p
      = some { h with marked := fun a => if p = some a then true else h.marked a } := by
  cases p with
  | none => simp [InterpreterImp.markStatic]
  | some b =>
    have hf : (fun a => if some b = some a then true else h.marked a)
        = Function.update h.marked b true := by
      funext a
      by_cases hab : a = b
      · subst hab
        simp
      · have hba : ¬ b = a := fun e => hab e.symm
        simp [Function.update, hab, hba]
    rw [hf]
    cases hm : h.marked b with
    | true =>
      have hu : Function.update h.marked b true = h.marked := by
        rw [← hm]
        exact Function.update_eq_self b h.marked
      rw [hu]
      simp [InterpreterImp.markStatic, ValueImp.marked, hm]
    | false =>
      simp [InterpreterImp.markStatic, ValueImp.marked, ValueImp.mark, hm]

theorem ContextImp.mark_eq : ∀ (c : ContextImp) (h : MarkHeap),
    ContextImp.mark c h
      = { h with calls := h.calls ++ c.chain.map (fun x => MarkCall.scopeMark x.scopeChain) }
  | ContextImp.mk _ none scope _ _ _, h => by
    simp [ContextImp.mark, ContextImp.chain, ContextImp.scopeChain, ScopeChain.mark]
  | ContextImp.mk _ (some c) scope _ _ _, h => by
    rw [ContextImp.mark, ContextImp.mark_eq c]
    simp [ContextImp.chain, ContextImp.scopeChain, ScopeChain.mark]

/-- C28: `InterpreterImp::mark` returns for every state, null singletons
included, and marks the four singletons Undefined, Null, True and False that
are not null; it leaves the mark bit of every other object, NaN among them, as
it was.  It calls `m_interpreter->mark()` and then `scope.mark()` on the scope
chain of the current context and of every context reached through
calling-context links, in that order.  With the five singletons that the
first construction of an interpreter creates (at 1000 to 1004) and nothing
marked, the first four are marked afterwards and NaN, at 1004, is not. -/
theorem mark_skips_NaN :
    (∀ (s : Singletons) (m_interpreter : Option Nat) (context : Option ContextImp)
        (h : MarkHeap),
      ∃ h1, InterpreterImp.mark s m_interpreter context h = some h1 ∧
        (∀ a, h1.marked a =
          if s.staticUndefined = some a ∨ s.staticNull = some a ∨ s.staticTrue = some a ∨
              s.staticFalse = some a then true
          else h.marked a) ∧
        h1.calls = h.calls ++
          (match m_interpreter with
            | some i => [MarkCall.interpreterMark i]
            | none => []) ++
          (match context with
            | some c => c.chain.map (fun x => MarkCall.scopeMark x.scopeChain)
            | none => [])) ∧
    (InterpreterImp.construct Registry.initial 1).singletons.staticNaN = some 1004 ∧
    (InterpreterImp.mark (InterpreterImp.construct Registry.initial 1).singletons (some 60)
        none MarkHeap.empty).map
      (fun h => (h.marked 1000, h.marked 1001, h.marked 1002, h.marked 1003, h.marked 1004))
      = some (true, true, true, true, false) := by
  refine ⟨?_, by decide, by decide⟩
  intro s mi ctx h
  cases mi <;> cases ctx <;>
    simp only [InterpreterImp.mark, markStatic_eq, ContextImp.mark_eq, Interpreter.mark] <;>
    refine ⟨_, rfl, ?_, ?_⟩ <;>
    first
      | (intro a
         by_cases h1 : s.staticUndefined = some a <;> by_cases h2 : s.staticNull = some a <;>
           by_cases h3 : s.staticTrue = some a <;> by_cases h4 : s.staticFalse = some a <;>
           simp [h1, h2, h3, h4])
      | simp

/-! ## Theorems: the Java bridge -/

namespace Bindings

/-- C30: for every tag `t` other than `invalid_type`,
`signatureFromPrimitiveType t` is a one-character string whose character
`JNITypeFromPrimitiveType` maps back to `t`; for `invalid_type` it is the
empty string; `JNITypeFromPrimitiveType` answers `invalid_type` for every
character other than V, L, [, Z, B, C, S, I, J, F and D; and of these eleven
letters each is the letter of its own tag except `[`, whose tag is
`object_type` with letter L. -/
theorem signature_letter_roundtrip :
    (∀ t, t ≠ JNIType.invalid_type →
      ∃ c, signatureFromPrimitiveType t = String.singleton c ∧
        JNITypeFromPrimitiveType c = t) ∧
    signatureFromPrimitiveType JNIType.invalid_type = "" ∧
    (∀ c, c ∉ ['V', 'L', '[', 'Z', 'B', 'C', 'S', 'I', 'J', 'F', 'D'] →
      JNITypeFromPrimitiveType c = JNIType.invalid_type) ∧
    (∀ c, c ∈ ['V', 'L', '[', 'Z', 'B', 'C', 'S', 'I', 'J', 'F', 'D'] →
      JNITypeFromPrimitiveType c ≠ JNIType.invalid_type ∧
      (signatureFromPrimitiveType (JNITypeFromPrimitiveType c) = String.singleton c ↔
        c ≠ '[')) ∧
    JNITypeFromPrimitiveType '[' = JNIType.object_type ∧
    signatureFromPrimitiveType JNIType.object_type = "L" := by
  refine ⟨?_, rfl, ?_, ?_, by decide, rfl⟩
  · intro t ht
    cases t
    · exact absurd rfl ht
    · exact ⟨'V', rfl, by decide⟩
    · exact ⟨'L', rfl, by decide⟩
    · exact ⟨'Z', rfl, by decide⟩
    · exact ⟨'B', rfl, by decide⟩
    · exact ⟨'C', rfl, by decide⟩
    · exact ⟨'S', rfl, by decide⟩
    · exact ⟨'I', rfl, by decide⟩
    · exact ⟨'J', rfl, by decide⟩
    · exact ⟨'F', rfl, by decide⟩
    · exact ⟨'D', rfl, by decide⟩
  · intro c hc
    simp only [List.mem_cons, List.mem_singleton, List.not_mem_nil, or_false, not_or] at hc
    obtain ⟨h1, h2, h3, h4, h5, h6, h7, h8, h9, h10, h11⟩ := hc
    simp [JNITypeFromPrimitiveType, h1, h2, h3, h4, h5, h6, h7, h8, h9, h10, h11]
  · intro c hc
    simp only [List.mem_cons, List.mem_singleton, List.not_mem_nil, or_false] at hc
    rcases hc with h | h | h | h | h | h | h | h | h | h | h <;> subst h <;> decide

end Bindings

namespace Bindings

theorem signatureStep_eq (sig : UString) (type : String) :
    JavaMethod.signatureStep sig (JavaParameter.new type) =
      sig ++ (if JNITypeFromClassName type = JNIType.object_type then "L" ++ slashed type ++ ";"
        else signatureFromPrimitiveType (JNITypeFromClassName type)) := by
  unfold JavaMethod.signatureStep JavaParameter.new appendClassName
  by_cases h : JNITypeFromClassName type = JNIType.object_type
  · simp only [h, if_true]
    simp only [signatureFromPrimitiveType, String.append_assoc]
  · simp only [h, if_false]

theorem signatureStep_descriptor (sig : UString) (type : String)
    (h : type.data.head? ≠ some '[') :
    JavaMethod.signatureStep sig (JavaParameter.new type) = sig ++ Spec.descriptor type := by
  rw [signatureStep_eq]
  unfold Spec.descriptor
  rw [if_neg h]

theorem foldl_signatureStep : ∀ (names : List String) (sig : UString),
    (∀ p ∈ names, p.data.head? ≠ some '[') →
    (names.map JavaParameter.new).foldl JavaMethod.signatureStep sig
      = sig ++ (names.map Spec.descriptor).foldr (fun a b => a ++ b) ""
  | [], sig, _ => by simp
  | p :: names, sig, h => by
    simp only [List.map_cons, List.foldl_cons, List.foldr_cons]
    rw [signatureStep_descriptor sig p (h p (List.mem_cons_self _ _)),
      foldl_signatureStep names _ (fun q hq => h q (List.mem_cons_of_mem _ hq)),
      String.append_assoc]

/-- C22: `JavaMethod::signature` builds the signature the specification
describes for every method none of whose parameters is an array, whatever the
return type, arrays included; for an array parameter it appends `L`, the
descriptor and `;` where the descriptor alone belongs.  For `void sort(int[])`
the reflection names are `void` and `[I`: the signature built is `(L[I;)V` and
the one described is `([I)V`. -/
theorem signature_wraps_array_parameter :
    (∀ (returnTypeName methodName : String) (parameterNames : List String),
      (∀ p ∈ parameterNames, p.data.head? ≠ some '[') →
      (JavaMethod.new returnTypeName methodName parameterNames).signature
        = Spec.signature returnTypeName parameterNames) ∧
    (JavaMethod.new "[Ljava.lang.String;" "split" ["java.lang.String", "int"]).signature
      = "(Ljava/lang/String;I)[Ljava/lang/String;" ∧
    (JavaMethod.new "void" "sort" ["[I"]).signature = "(L[I;)V" ∧
    Spec.signature "void" ["[I"] = "([I)V" := by
  refine ⟨?_, by decide, by decide, by decide⟩
  intro ret name params h
  unfold JavaMethod.signature JavaMethod.new Spec.signature
  simp only [foldl_signatureStep params "(" h]
  unfold Spec.descriptor appendClassName
  by_cases h1 : ret.data.head? = some '['
  · simp only [h1, if_true]
  · simp only [h1, if_false]
    by_cases h2 : JNITypeFromClassName ret = JNIType.object_type
    · simp only [h2, if_true]
      simp only [signatureFromPrimitiveType, String.append_assoc]
    · simp only [h2, if_false]

end Bindings

namespace Bindings

/-- C23, as the claim states it, fails: object 3 is a runtime object whose
native handle is null; converted for the target class `java.lang.String` it
gives the native string built from its `toString`, not its handle. -/
theorem convert_null_handle_to_string :
    sampleHost.className (Value.object 3) = "RuntimeObject" ∧
    sampleHost.javaInstance (Value.object 3) = 0 ∧
    convertValueToJValue sampleHost (Value.object 3) JNIType.object_type
        (some "java.lang.String")
      = some (JValue.l (sampleHost.newString (sampleHost.toString (Value.object 3)))) ∧
    convertValueToJValue sampleHost (Value.object 3) JNIType.object_type
        (some "java.lang.String")
      ≠ some (JValue.l (sampleHost.javaInstance (Value.object 3))) := by
  refine ⟨by decide, by decide, by decide, by decide⟩

/-- C23, amended: for every value that has a type and every class name,
`convertValueToJValue` with target `object_type` gives: the native handle of
the value, if it is an object of class RuntimeObject or RuntimeArray and that
handle is not null; otherwise the native string built from `toString`, if the
class name is `java.lang.String` and the type of the value is not Null;
otherwise the null native value. -/
theorem convert_object_rule (host : JNIHost) (value : Value) (name : String) :
    convertValueToJValue host value JNIType.object_type (some name) =
      value.type.map (fun t =>
        if t = ValueType.ObjectType ∧ host.className value = "RuntimeObject" ∧
            host.javaInstance value ≠ 0 then
          JValue.l (host.javaInstance value)
        else if t = ValueType.ObjectType ∧ host.className value ≠ "RuntimeObject" ∧
            host.className value = "RuntimeArray" ∧ host.javaArray value ≠ 0 then
          JValue.l (host.javaArray value)
        else if name = "java.lang.String" ∧ t ≠ ValueType.NullType then
          JValue.l (host.newString (host.toString value))
        else JValue.l 0) := by
  unfold convertValueToJValue
  cases ht : value.type with
  | none => rfl
  | some t =>
    simp only [Option.map_some']
    cases t <;>
      by_cases h2 : host.className value = "RuntimeObject" <;>
      by_cases h3 : host.className value = "RuntimeArray" <;>
      by_cases h4 : host.javaInstance value = 0 <;>
      by_cases h5 : host.javaArray value = 0 <;>
      by_cases h6 : name = "java.lang.String" <;>
      simp [h2, h3, h4, h5, h6]

end Bindings

namespace Bindings

/-- C29: whenever `JavaArray::setValueAt` returns, the array writes it made
are the one write of the element type the second character of the descriptor
names, with the `jvalue` that `convertValueToJValue` gave, for every element
type but `long`; on an array of `long` (descriptor `[J`) it makes two writes
for every value and index, `SetLongArrayRegion` and then
`SetFloatArrayRegion`, since the `long_type` case runs on into the
`float_type` case. -/
theorem setValueAt_long_stores_twice :
    (∀ (host : JNIHost) (type : String) (index : Nat) (aValue : Value)
        (stores : List NativeStore),
      JavaArray.setValueAt host type index aValue = some stores →
      ∃ javaClassName v,
        convertValueToJValue host aValue
          (JNITypeFromPrimitiveType (type.data.getD 1 (Char.ofNat 0))) javaClassName = some v ∧
        stores =
          if JNITypeFromPrimitiveType (type.data.getD 1 (Char.ofNat 0)) = JNIType.long_type then
            [NativeStore.SetLongArrayRegion index v, NativeStore.SetFloatArrayRegion index v]
          else Spec.store (JNITypeFromPrimitiveType (type.data.getD 1 (Char.ofNat 0))) index v) ∧
    (∀ (host : JNIHost) (index : Nat) (aValue : Value),
      JavaArray.setValueAt host "[J" index aValue
        = some [NativeStore.SetLongArrayRegion index
                  (JValue.j (host.cast JNIType.long_type (host.toNumber aValue))),
                NativeStore.SetFloatArrayRegion index
                  (JValue.j (host.cast JNIType.long_type (host.toNumber aValue)))]) ∧
    (∀ (host : JNIHost) (index : Nat) (aValue : Value),
      JavaArray.setValueAt host "[I" index aValue
        = some [NativeStore.SetIntArrayRegion index
                  (JValue.i (host.cast JNIType.int_type (host.toNumber aValue)))]) ∧
    JavaArray.setValueAt sampleHost "[J" 0 (Value.number 7)
      = some [NativeStore.SetLongArrayRegion 0 (JValue.j 0),
              NativeStore.SetFloatArrayRegion 0 (JValue.j 0)] ∧
    JavaArray.setValueAt sampleHost "[Ljava.lang.String;" 2 (Value.string "ab")
      = some [NativeStore.SetObjectArrayElement 2 (JValue.l 9002)] := by
  refine ⟨?_, ?_, ?_, by decide, by decide⟩
  · intro host type index aValue stores h
    unfold JavaArray.setValueAt at h
    simp only [] at h
    split at h
    · cases h
    · rename_i v hv
      refine ⟨_, v, hv, ?_⟩
      cases ht : JNITypeFromPrimitiveType (type.data.getD 1 (Char.ofNat 0)) <;>
        simp only [ht] at h <;> cases h <;> simp [Spec.store]
  · intro host index aValue
    have ht : JNITypeFromPrimitiveType (("[J" : String).data.getD 1 (Char.ofNat 0))
        = JNIType.long_type := by decide
    unfold JavaArray.setValueAt
    simp only [ht, convertValueToJValue]
  · intro host index aValue
    have ht : JNITypeFromPrimitiveType (("[I" : String).data.getD 1 (Char.ofNat 0))
        = JNIType.int_type := by decide
    unfold JavaArray.setValueAt
    simp only [ht, convertValueToJValue]

end Bindings

end KJS
